import Mathlib

/-!
# Neighbourhood-based collaborative filtering (`core/knn.go`)

A shallow embedding of `KNN.Fit` and `KNN.Predict` and the theorems that settle
the specification's claims about them.

## Modelling conventions

* `float64` is modelled by `F64`: the special values `NaN`, `+Inf`, `-Inf` and the
  finite values, which are rationals with exact arithmetic.  Rounding, overflow
  and the sign of zero are not modelled.  The special values follow IEEE 754
  (`x / 0` is `±Inf` for `x ≠ 0` and `NaN` for `x = 0`, comparisons with `NaN`
  are false, ...).
* Go slices are lists.  An index or slice expression that is out of range makes
  the Go program panic; the embedding returns `none` there.
* `int` is `Int`; lengths and `range` indices are `Nat`.
* Collaborators that the sources call but do not contain are parameters: the
  training set (`TrainSet`), the library routine `sort.Sort` (`Sorter`, any
  function that meets the library contract) and the baseline estimator.
-/

namespace Core

/-! ## Floating point values -/

/-- Values of Go's `float64`: not-a-number, the two infinities, finite numbers. -/
inductive F64 where
  | nan : F64
  | pinf : F64
  | ninf : F64
  | fin : ℚ → F64
  deriving DecidableEq, Repr

namespace F64

/-- Go `math.IsNaN`. -/
def isNaN : F64 → Bool
  | nan => true
  | _ => false

/-- The value is a (finite) number. -/
def isFinite : F64 → Bool
  | fin _ => true
  | _ => false

/-- Unary minus. -/
def neg : F64 → F64
  | nan => nan
  | pinf => ninf
  | ninf => pinf
  | fin q => fin (-q)

/-- Go `a + b`. -/
def add : F64 → F64 → F64
  | nan, _ => nan
  | _, nan => nan
  | pinf, ninf => nan
  | ninf, pinf => nan
  | pinf, _ => pinf
  | ninf, _ => ninf
  | fin _, pinf => pinf
  | fin _, ninf => ninf
  | fin a, fin b => fin (a + b)

/-- Go `a - b`. -/
def sub (a b : F64) : F64 := add a (neg b)

/-- The infinity with the sign of `q` times the sign given by `positive`; `NaN` at `q = 0`. -/
def infTimes (positive : Bool) (q : ℚ) : F64 :=
  if q = 0 then nan
  else if 0 < q then (if positive then pinf else ninf)
  else (if positive then ninf else pinf)

/-- Go `a * b`. -/
def mul : F64 → F64 → F64
  | nan, _ => nan
  | _, nan => nan
  | pinf, pinf => pinf
  | pinf, ninf => ninf
  | ninf, pinf => ninf
  | ninf, ninf => pinf
  | pinf, fin q => infTimes true q
  | ninf, fin q => infTimes false q
  | fin q, pinf => infTimes true q
  | fin q, ninf => infTimes false q
  | fin a, fin b => fin (a * b)

/-- Go `a / b` (the zero divisor is the positive zero). -/
def div : F64 → F64 → F64
  | nan, _ => nan
  | _, nan => nan
  | pinf, pinf => nan
  | pinf, ninf => nan
  | ninf, pinf => nan
  | ninf, ninf => nan
  | pinf, fin q => if 0 ≤ q then pinf else ninf
  | ninf, fin q => if 0 ≤ q then ninf else pinf
  | fin _, pinf => fin 0
  | fin _, ninf => fin 0
  | fin a, fin b => if b = 0 then infTimes true a else fin (a / b)

/-- Go `a > b`. -/
def gt : F64 → F64 → Bool
  | nan, _ => false
  | _, nan => false
  | pinf, pinf => false
  | pinf, _ => true
  | ninf, _ => false
  | fin _, pinf => false
  | fin _, ninf => true
  | fin a, fin b => decide (b < a)

/-- Go `a >= b`. -/
def ge : F64 → F64 → Bool
  | nan, _ => false
  | _, nan => false
  | pinf, _ => true
  | ninf, ninf => true
  | ninf, _ => false
  | fin _, pinf => false
  | fin _, ninf => true
  | fin a, fin b => decide (b ≤ a)

/-- The sum of a list, accumulated from `0.0` left to right. -/
def sum (l : List F64) : F64 := l.foldl add (fin 0)

end F64

/-! ## Slices -/

/-- Go `xs[i]` for an `int` index: `none` is the out-of-range panic. -/
def idx {α : Type} (xs : List α) (i : Int) : Option α :=
  if 0 ≤ i then xs[i.toNat]? else none

/-- Go `m[i][j] = v`: `none` is the out-of-range panic. -/
def setCell (m : List (List F64)) (i j : Nat) (v : F64) : Option (List (List F64)) :=
  match m[i]? with
  | none => none
  | some row => if j < row.length then some (m.set i (row.set j v)) else none

/-- Modelled from the spec: `newNanMatrix(rows, cols)`, whose body is not in the
sources; the similarity matrix it allocates is "sized (entity count × entity
count)" with every cell holding the missing sentinel. -/
def newNanMatrix (rows cols : Nat) : List (List F64) :=
  List.replicate rows (List.replicate cols F64.nan)

/-! ## The collaborators -/

/-- The training-set collaborator of `Fit` and `Predict`.  `noBody` is the package
constant that the id conversions return for an id absent from the training data;
its value is not part of the sources at hand, so it is carried as data. -/
structure TrainSet where
  noBody : Int
  ConvertUserId : Int → Int
  ConvertItemId : Int → Int
  GlobalMean : F64
  UserRatings : List (List F64)
  ItemRatings : List (List F64)
  UserCount : Nat
  ItemCount : Nat

/-- The options of a model (Go `Option`). -/
structure KnnOption where
  sim : List F64 → List F64 → F64
  userBased : Bool
  k : Int
  minK : Int

/-- Go `OptionSetter`, a `func(*Option)`. -/
abbrev OptionSetter := KnnOption → KnnOption

/-- The two vectors `Fit` reads off the fitted baseline estimator. -/
structure BaseLine where
  userBias : List F64
  itemBias : List F64

/-- The library routine `sort.Sort` on a `CandidateSet`: `sort less cs` reorders the
candidate list `cs`, where `less a b` is `CandidateSet.Less` at the positions that hold
`a` and `b`.  The library promises a permutation of its input that is ordered by `less`,
and nothing about the order of elements that `less` does not separate. -/
structure Sorter where
  sort : (Nat → Nat → Bool) → List Nat → List Nat
  perm : ∀ less l, (sort less l).Perm l
  sorted : ∀ less l,
    (∀ a ∈ l, ∀ b ∈ l, less a b = true → less b a = false) →
    (∀ a ∈ l, ∀ b ∈ l, ∀ c ∈ l, less a b = false → less b c = false → less a c = false) →
    (sort less l).Pairwise (fun a b => less b a = false)

/-- One pass of the inner loop of the library's insertion sort: `x` moves left past
every element it is `less` than. -/
def insertSorted (less : Nat → Nat → Bool) (x : Nat) : List Nat → List Nat
  | [] => [x]
  | y :: ys => if less x y then x :: y :: ys else y :: insertSorted less x ys

/-- Insertion sort, which is what `sort.Sort` runs on short slices. -/
def insertionSort (less : Nat → Nat → Bool) (l : List Nat) : List Nat :=
  l.foldl (fun acc x => insertSorted less x acc) []

/-! ## The model -/

def basic : Int := 0
def centered : Int := 1
def baseline : Int := 2

/-- Go `KNN`. -/
structure KNN where
  option : KnnOption
  tpe : Int
  globalMean : F64
  sims : List (List F64)
  ratings : List (List F64)
  trainSet : TrainSet
  means : List F64
  bias : List F64

/-- Go `CandidateSet`. -/
structure CandidateSet where
  similarities : List F64
  candidates : List Nat

def NewCandidateSet (sim : List F64) (candidates : List Nat) : CandidateSet :=
  { similarities := sim, candidates := candidates }

def CandidateSet.Len (n : CandidateSet) : Nat := n.candidates.length

/-- Go `CandidateSet.Less`, as a relation between the candidates held at the two positions
compared: `similarities[a] > similarities[b]`. -/
def CandidateSet.Less (n : CandidateSet) (a b : Nat) : Bool :=
  F64.gt (n.similarities.getD a F64.nan) (n.similarities.getD b F64.nan)

/-- Go `sort.Sort(candidateSet)`. -/
def sortSort (S : Sorter) (n : CandidateSet) : CandidateSet :=
  { n with candidates := S.sort n.Less n.candidates }

/-- Modelled from the spec: `MSD`, the default similarity, whose body is not in the
sources: over the positions where both vectors are present, "undefined" if fewer than 2
such positions exist, else `1 / (1 + mean squared difference)`. -/
def MSD (a b : List F64) : F64 :=
  let co := (a.zip b).filter (fun p => !p.1.isNaN && !p.2.isNaN)
  if co.length < 2 then F64.nan
  else
    let sq := F64.sum (co.map (fun p => F64.mul (F64.sub p.1 p.2) (F64.sub p.1 p.2)))
    F64.div (F64.fin 1) (F64.add (F64.fin 1) (F64.div sq (F64.fin co.length)))

/-- The zero value `new(KNN)` with `tpe = basic`; `Fit` overwrites every field but
`tpe`, `means` and `bias`. -/
def NewKNN : KNN :=
  { option := { sim := fun _ _ => F64.fin 0, userBased := false, k := 0, minK := 0 },
    tpe := basic, globalMean := F64.fin 0, sims := [], ratings := [],
    trainSet := { noBody := 0, ConvertUserId := fun _ => 0, ConvertItemId := fun _ => 0,
                  GlobalMean := F64.fin 0, UserRatings := [], ItemRatings := [],
                  UserCount := 0, ItemCount := 0 },
    means := [], bias := [] }

def NewKNNWithMean : KNN := { NewKNN with tpe := centered }

def NewKNNBaseLine : KNN := { NewKNN with tpe := baseline }

/-! ## `Fit` -/

/-- The options `Fit` starts from. -/
def defaultOption : KnnOption :=
  { sim := MSD, userBased := true, k := 40, minK := 1 }

/-- The loop `for _, setter := range options { setter(&knn.option) }`. -/
def applySetters (options : List OptionSetter) : KnnOption :=
  options.foldl (fun o setter => setter o) defaultOption

/-- The body of the loop over `i` that fills `knn.means`: `sum / count` over the
non-missing ratings of one row. -/
def meanOf (row : List F64) : F64 :=
  let acc := row.foldl
    (fun (acc : F64 × F64) r =>
      if !r.isNaN then (F64.add acc.1 r, F64.add acc.2 (F64.fin 1)) else acc)
    (F64.fin 0, F64.fin 0)
  F64.div acc.1 acc.2

/-- State of the pairwise loop of `Fit`: the similarity matrix, and a log of the calls
`knn.option.sim(leftRatings, rightRatings)` made so far, each recorded as
`(leftId, rightId)`, oldest first. -/
structure FitState where
  sims : List (List F64)
  calls : List (Nat × Nat)

/-- The body of the inner loop of the pairwise pass, at `(leftId, rightId)`. -/
def fitCell (sim : List F64 → List F64 → F64) (leftId : Nat) (leftRatings : List F64)
    (st : FitState) (right : Nat × List F64) : Option FitState :=
  let rightId := right.1
  let rightRatings := right.2
  if leftId ≠ rightId then
    match (st.sims[leftId]?).bind (fun row => row[rightId]?) with
    | none => none
    | some cell =>
      if cell.isNaN then
        let ret := sim leftRatings rightRatings
        let calls := st.calls ++ [(leftId, rightId)]
        if !ret.isNaN then
          match setCell st.sims leftId rightId ret with
          | none => none
          | some s1 =>
            match setCell s1 rightId leftId ret with
            | none => none
            | some s2 => some { sims := s2, calls := calls }
        else some { sims := st.sims, calls := calls }
      else some st
  else some st

/-- The inner loop `for rightId, rightRatings := range knn.ratings`. -/
def fitRow (sim : List F64 → List F64 → F64) (ratings : List (List F64))
    (st : FitState) (left : Nat × List F64) : Option FitState :=
  ratings.enum.foldlM (fitCell sim left.1 left.2) st

/-- The pairwise pass `for leftId, leftRatings := range knn.ratings`. -/
def fitSims (sim : List F64 → List F64 → F64) (ratings : List (List F64))
    (sims : List (List F64)) : Option FitState :=
  ratings.enum.foldlM (fitRow sim ratings) { sims := sims, calls := [] }

/-- The rating matrix `Fit` retrieves for the orientation. -/
def fitRatings (option : KnnOption) (trainSet : TrainSet) : List (List F64) :=
  if option.userBased then trainSet.UserRatings else trainSet.ItemRatings

/-- The similarity matrix `Fit` allocates for the orientation. -/
def fitNanSims (option : KnnOption) (trainSet : TrainSet) : List (List F64) :=
  if option.userBased then newNanMatrix trainSet.UserCount trainSet.UserCount
  else newNanMatrix trainSet.ItemCount trainSet.ItemCount

/-- The pairwise pass of `Fit` on a training set, with its call log. -/
def fitState (trainSet : TrainSet) (options : List OptionSetter) : Option FitState :=
  let option := applySetters options
  fitSims option.sim (fitRatings option trainSet) (fitNanSims option trainSet)

/-- Go `KNN.Fit`.  `baseLineFit trainSet options` stands for
`NewBaseLine()` followed by `baseLine.Fit(trainSet, options...)`.  `none` is a panic. -/
def Fit (baseLineFit : TrainSet → List OptionSetter → BaseLine) (knn : KNN)
    (trainSet : TrainSet) (options : List OptionSetter) : Option KNN :=
  let option := applySetters options
  let ratings := fitRatings option trainSet
  let means := if knn.tpe = centered then ratings.map meanOf else knn.means
  let bias :=
    if knn.tpe = centered then knn.bias
    else if knn.tpe = baseline then
      let baseLine := baseLineFit trainSet options
      if option.userBased then baseLine.userBias else baseLine.itemBias
    else knn.bias
  match fitState trainSet options with
  | none => none
  | some st =>
    some { option := option, tpe := knn.tpe, globalMean := trainSet.GlobalMean,
           sims := st.sims, ratings := ratings, trainSet := trainSet,
           means := means, bias := bias }

/-! ## `Predict` -/

/-- The pair `(leftId, rightId)` of `Predict`. -/
def queryIds (knn : KNN) (userId itemId : Int) : Int × Int :=
  let innerUserId := knn.trainSet.ConvertUserId userId
  let innerItemId := knn.trainSet.ConvertItemId itemId
  if knn.option.userBased then (innerUserId, innerItemId) else (innerItemId, innerUserId)

/-- The body of the loop `for otherId := range knn.ratings` that collects the
candidates; the second operand of `&&` is evaluated only when the first holds. -/
def candidateStep (knn : KNN) (leftId rightId : Int) (candidates : List Nat)
    (otherId : Nat) : Option (List Nat) :=
  match (knn.ratings[otherId]?).bind (fun row => idx row rightId) with
  | none => none
  | some r =>
    if !r.isNaN then
      match (idx knn.sims leftId).bind (fun row => row[otherId]?) with
      | none => none
      | some s => if !s.isNaN then some (candidates ++ [otherId]) else some candidates
    else some candidates

/-- The candidates of `Predict`, in the order found. -/
def findCandidates (knn : KNN) (leftId rightId : Int) : Option (List Nat) :=
  (List.range knn.ratings.length).foldlM (candidateStep knn leftId rightId) []

/-- The neighbourhood size `numNeighbors`. -/
def numNeighbors (knn : KNN) (candidateSet : CandidateSet) : Int :=
  if knn.option.k > (candidateSet.Len : Int) then (candidateSet.Len : Int) else knn.option.k

/-- The slice `candidateSet.candidates[0:numNeighbors]`. -/
def neighbors (knn : KNN) (candidateSet : CandidateSet) : Option (List Nat) :=
  if numNeighbors knn candidateSet < 0 then none
  else some (candidateSet.candidates.take (numNeighbors knn candidateSet).toNat)

/-- The body of the aggregation loop, on `(weightSum, weightRating)`. -/
def aggStep (knn : KNN) (leftId rightId : Int) (acc : F64 × F64) (otherId : Nat) :
    Option (F64 × F64) :=
  match (idx knn.sims leftId).bind (fun row => row[otherId]?) with
  | none => none
  | some s =>
    match (knn.ratings[otherId]?).bind (fun row => idx row rightId) with
    | none => none
    | some r =>
      let weightSum := F64.add acc.1 s
      let weightRating := F64.add acc.2 (F64.mul s r)
      if knn.tpe = centered then
        match knn.means[otherId]? with
        | none => none
        | some m => some (weightSum, F64.sub weightRating (F64.mul s m))
      else if knn.tpe = baseline then
        match knn.bias[otherId]? with
        | none => none
        | some b => some (weightSum, F64.sub weightRating (F64.mul s b))
      else some (weightSum, weightRating)

/-- The aggregation loop over the selected neighbours. -/
def aggregate (knn : KNN) (leftId rightId : Int) (selected : List Nat) : Option (F64 × F64) :=
  selected.foldlM (aggStep knn leftId rightId) (F64.fin 0, F64.fin 0)

/-- The end of `Predict`: the quotient, and the centering term of the query entity. -/
def finish (knn : KNN) (leftId : Int) (acc : F64 × F64) : Option F64 :=
  let prediction := F64.div acc.2 acc.1
  if knn.tpe = centered then
    match idx knn.means leftId with
    | none => none
    | some m => some (F64.add prediction m)
  else if knn.tpe = baseline then
    match idx knn.bias leftId with
    | none => none
    | some b => some (F64.add prediction b)
  else some prediction

/-- Go `KNN.Predict`; `none` is a panic. -/
def Predict (S : Sorter) (knn : KNN) (userId itemId : Int) : Option F64 :=
  let leftId := (queryIds knn userId itemId).1
  let rightId := (queryIds knn userId itemId).2
  if leftId = knn.trainSet.noBody ∨ rightId = knn.trainSet.noBody then some knn.globalMean
  else
    match findCandidates knn leftId rightId with
    | none => none
    | some candidates =>
      if (candidates.length : Int) ≤ knn.option.minK then some knn.globalMean
      else
        match idx knn.sims leftId with
        | none => none
        | some simRow =>
          let candidateSet := sortSort S (NewCandidateSet simRow candidates)
          match neighbors knn candidateSet with
          | none => none
          | some selected =>
            match aggregate knn leftId rightId selected with
            | none => none
            | some acc => finish knn leftId acc

/-! ## Definitions used to state the properties -/

/-- The cell `m[i][j]`, read as `NaN` outside the matrix. -/
def cell (m : List (List F64)) (i j : Nat) : F64 := (m.getD i []).getD j F64.nan

/-- The matrix `m` has `n` rows of `c` columns each. -/
def shaped (m : List (List F64)) (n c : Nat) : Prop :=
  m.length = n ∧ ∀ row ∈ m, row.length = c

/-- The pair `(a, b)` has been visited by the pairwise pass when the pass is about to
visit `(l0, r0)`. -/
def visited (l0 r0 a b : Nat) : Prop := a < l0 ∨ (a = l0 ∧ b < r0)

instance (l0 r0 a b : Nat) : Decidable (visited l0 r0 a b) := by
  unfold visited; infer_instance

/-- The value the similarity matrix holds at `(i, j)` when the pairwise pass is about to
visit `(l0, r0)`. -/
def cellBefore (sim : List F64 → List F64 → F64) (ratings : List (List F64))
    (l0 r0 i j : Nat) : F64 :=
  if i = j then F64.nan
  else
    let a := min i j
    let b := max i j
    if visited l0 r0 a b then
      if (sim (ratings.getD a []) (ratings.getD b [])).isNaN then
        if visited l0 r0 b a then sim (ratings.getD b []) (ratings.getD a []) else F64.nan
      else sim (ratings.getD a []) (ratings.getD b [])
    else F64.nan

/-- The visit of `(p.1, p.2)` calls the similarity function. -/
def evaluates (sim : List F64 → List F64 → F64) (ratings : List (List F64))
    (p : Nat × Nat) : Bool :=
  decide (p.1 < p.2) ||
    (decide (p.2 < p.1) && (sim (ratings.getD p.2 []) (ratings.getD p.1 [])).isNaN)

/-- The pairs the pairwise pass over `n` rows visits before `(l0, r0)`, in order. -/
def pairsBefore (n l0 r0 : Nat) : List (Nat × Nat) :=
  (List.range l0).flatMap (fun i => (List.range n).map (fun j => (i, j))) ++
    (List.range r0).map (fun j => (l0, j))

/-- The loop invariant of the pairwise pass. -/
def fitInv (sim : List F64 → List F64 → F64) (ratings : List (List F64)) (n l0 r0 : Nat)
    (st : FitState) : Prop :=
  shaped st.sims n n ∧
  (∀ i j, i < n → j < n → cell st.sims i j = cellBefore sim ratings l0 r0 i j) ∧
  st.calls = (pairsBefore n l0 r0).filter (evaluates sim ratings)

/-- Number of entities of the active orientation. -/
def entityCount (o : KnnOption) (ts : TrainSet) : Nat :=
  if o.userBased then ts.UserCount else ts.ItemCount

/-- Number of entities of the other orientation. -/
def crossCount (o : KnnOption) (ts : TrainSet) : Nat :=
  if o.userBased then ts.ItemCount else ts.UserCount

/-- A training set is well formed for an orientation: the rating matrix has one row per
entity and one column per entity of the other kind, and the id conversions return the
unknown sentinel or an inner index in range. -/
structure WellFormed (ts : TrainSet) (o : KnnOption) : Prop where
  rows : (fitRatings o ts).length = entityCount o ts
  cols : ∀ row ∈ fitRatings o ts, row.length = crossCount o ts
  userIds : ∀ u, ts.ConvertUserId u = ts.noBody ∨
    (0 ≤ ts.ConvertUserId u ∧ ts.ConvertUserId u < ts.UserCount)
  itemIds : ∀ i, ts.ConvertItemId i = ts.noBody ∨
    (0 ≤ ts.ConvertItemId i ∧ ts.ConvertItemId i < ts.ItemCount)

/-- The similarity `sims[leftId][o]` a model holds. -/
def simOf (knn : KNN) (leftId : Int) (o : Nat) : F64 := cell knn.sims leftId.toNat o

/-- The rating `ratings[o][rightId]` a model holds. -/
def ratingOf (knn : KNN) (o : Nat) (rightId : Int) : F64 := cell knn.ratings o rightId.toNat

/-- The qualifying candidates of a query: the entities that rated the target column and
have a defined similarity to the query entity, in increasing order. -/
def qualifying (knn : KNN) (leftId rightId : Int) : List Nat :=
  (List.range knn.ratings.length).filter
    (fun o => !(ratingOf knn o rightId).isNaN && !(simOf knn leftId o).isNaN)

/-- The shape of a model that `Predict` needs of a query. -/
structure InRange (knn : KNN) (n m : Nat) (leftId rightId : Int) : Prop where
  sims : shaped knn.sims n n
  ratings : shaped knn.ratings n m
  left0 : 0 ≤ leftId
  leftN : leftId.toNat < n
  right0 : 0 ≤ rightId
  rightM : rightId.toNat < m

/-- The candidates of a query in the order `sort.Sort` leaves them in. -/
def ranked (S : Sorter) (knn : KNN) (leftId rightId : Int) : List Nat :=
  S.sort (fun a b => F64.gt (simOf knn leftId a) (simOf knn leftId b))
    (qualifying knn leftId rightId)

/-- The neighbours `Predict` aggregates over: the first `min(k, candidateCount)` of the
sorted candidates. -/
def selected (S : Sorter) (knn : KNN) (leftId rightId : Int) : List Nat :=
  (ranked S knn leftId rightId).take
    (min knn.option.k ((qualifying knn leftId rightId).length : Int)).toNat

/-- The centering term of an entity: `0`, its mean, or its bias. -/
def centerOf (knn : KNN) (o : Nat) : F64 :=
  if knn.tpe = centered then knn.means.getD o F64.nan
  else if knn.tpe = baseline then knn.bias.getD o F64.nan
  else F64.fin 0

/-- The sum of the similarities of the neighbours `sel` to the query entity. -/
def weightSum (knn : KNN) (leftId : Int) (sel : List Nat) : F64 :=
  F64.sum (sel.map (simOf knn leftId))

/-- The sum over the neighbours `o` in `sel` of `sim(left, o) * (rating(o, right) - c(o))`. -/
def weightedRating (knn : KNN) (leftId rightId : Int) (sel : List Nat) : F64 :=
  F64.sum (sel.map (fun o =>
    F64.mul (simOf knn leftId o) (F64.sub (ratingOf knn o rightId) (centerOf knn o))))

/-- The contribution of neighbour `o` to `weightRating`, as the loop body computes it. -/
def stepRating (knn : KNN) (leftId rightId : Int) (acc : F64) (o : Nat) : F64 :=
  if knn.tpe = centered then
    F64.sub (F64.add acc (F64.mul (simOf knn leftId o) (ratingOf knn o rightId)))
      (F64.mul (simOf knn leftId o) (knn.means.getD o F64.nan))
  else if knn.tpe = baseline then
    F64.sub (F64.add acc (F64.mul (simOf knn leftId o) (ratingOf knn o rightId)))
      (F64.mul (simOf knn leftId o) (knn.bias.getD o F64.nan))
  else F64.add acc (F64.mul (simOf knn leftId o) (ratingOf knn o rightId))

/-- The centering vectors of a model cover its `n` entities. -/
def Centered (knn : KNN) (n : Nat) : Prop :=
  (knn.tpe = centered → n ≤ knn.means.length) ∧
  (knn.tpe = baseline → n ≤ knn.bias.length)

/-- The value `Fit` leaves in cell `(i, j)` of the similarity matrix: the sentinel on the
diagonal; off the diagonal the similarity of the two rating rows taken in index order,
or, when that is undefined, taken in the other order. -/
def pairSim (sim : List F64 → List F64 → F64) (ratings : List (List F64)) (i j : Nat) : F64 :=
  if i = j then F64.nan
  else if (sim (ratings.getD (min i j) []) (ratings.getD (max i j) [])).isNaN then
    sim (ratings.getD (max i j) []) (ratings.getD (min i j) [])
  else sim (ratings.getD (min i j) []) (ratings.getD (max i j) [])

/-- The bias vector that `Fit` takes from the baseline estimator has an entry for every
entity of the active orientation. -/
def BiasCovers (bl : TrainSet → List OptionSetter → BaseLine) (ts : TrainSet)
    (opts : List OptionSetter) : Prop :=
  entityCount (applySetters opts) ts ≤
    (if (applySetters opts).userBased then (bl ts opts).userBias
     else (bl ts opts).itemBias).length

/-- Every cell equals its mirror image. -/
def symmetric (m : List (List F64)) : Prop := ∀ i j, cell m i j = cell m j i

/-- The non-missing ratings of a row. -/
def present (row : List F64) : List F64 := row.filter (fun r => !r.isNaN)

/-- The accumulator `weightRating` of `Predict` after the aggregation loop over the
neighbours `sel`: starting from `0`, each neighbour adds `sim * rating` and then, for the
centered and the baseline variant, subtracts `sim * mean` or `sim * bias`, in this order of
operations. -/
def weightRating (knn : KNN) (leftId rightId : Int) (sel : List Nat) : F64 :=
  sel.foldl (stepRating knn leftId rightId) (F64.fin 0)

/-- The rating matrix of a model with the centering term of each entity subtracted from
each of its present ratings. -/
def centerRatings (knn : KNN) : List (List F64) :=
  knn.ratings.enum.map (fun p =>
    p.2.map (fun r => if r.isNaN then r else F64.sub r (centerOf knn p.1)))

/-- The basic variant on the similarity matrix and the options of `knn`, with the
centered ratings of `knn` as its ratings. -/
def basicOn (knn : KNN) : KNN := { knn with tpe := basic, ratings := centerRatings knn }

/-- The numerator of the basic variant on the centered ratings: starting from `0`, each
neighbour adds `sim * (rating - c)`, with `c` its centering term. -/
def weightRatingCentered (knn : KNN) (leftId rightId : Int) (sel : List Nat) : F64 :=
  sel.foldl (fun acc o => F64.add acc
    (F64.mul (simOf knn leftId o) (F64.sub (ratingOf knn o rightId) (centerOf knn o))))
    (F64.fin 0)

/-- The training set with users and items exchanged: the id conversions, the two rating
matrices (each the transpose of the other) and the counts change places; the global mean
and the unknown-id sentinel stay. -/
def transposeSet (ts : TrainSet) : TrainSet :=
  { noBody := ts.noBody, ConvertUserId := ts.ConvertItemId, ConvertItemId := ts.ConvertUserId,
    GlobalMean := ts.GlobalMean, UserRatings := ts.ItemRatings, ItemRatings := ts.UserRatings,
    UserCount := ts.ItemCount, ItemCount := ts.UserCount }

/-- The sorter compares only elements of the list it sorts: two orders that agree on them
give the same result. -/
def Sorter.ComparesOnlyInput (S : Sorter) : Prop :=
  ∀ (less less' : Nat → Nat → Bool) (l : List Nat),
    (∀ a ∈ l, ∀ b ∈ l, less a b = less' a b) → S.sort less l = S.sort less' l

/-- Two states of the pairwise pass, started from the matrices `init` and `init'`, that
have the shape `n × n`, the same call log and the same cells off the diagonal, and whose
diagonals are those of `init` and `init'`. -/
def diagRel (n : Nat) (init init' : List (List F64)) (st st' : FitState) : Prop :=
  shaped st.sims n n ∧ shaped st'.sims n n ∧ st.calls = st'.calls ∧
  (∀ i, i < n → ∀ j, j < n → i ≠ j → cell st.sims i j = cell st'.sims i j) ∧
  (∀ i, cell st.sims i i = cell init i i) ∧ (∀ i, cell st'.sims i i = cell init' i i)

/-- Go `math.Abs`. -/
def F64.abs : F64 → F64
  | F64.nan => F64.nan
  | F64.pinf => F64.pinf
  | F64.ninf => F64.pinf
  | F64.fin q => if q < 0 then F64.fin (-q) else F64.fin q

/-- The co-rated subset of two rating vectors: the pairs of values at the positions where
both vectors hold a rating. -/
def coRated (a b : List F64) : List (F64 × F64) :=
  (a.zip b).filter (fun p => !p.1.isNaN && !p.2.isNaN)

/-- The correlation quotient of the co-rated values of `a` and `b` with the deviations
taken from `meanA` and `meanB`: the sum of the products of the deviations over the square
root of the product of the two sums of squared deviations; "undefined" if fewer than 2
co-rated positions exist, and `0 / 0` for a constant vector.  `sqrt` stands for the
library routine `math.Sqrt`. -/
def correlationAbout (sqrt : F64 → F64) (meanA meanB : F64) (a b : List F64) : F64 :=
  let co := coRated a b
  if co.length < 2 then F64.nan
  else
    let cov := F64.sum (co.map (fun p => F64.mul (F64.sub p.1 meanA) (F64.sub p.2 meanB)))
    let varA := F64.sum (co.map (fun p => F64.mul (F64.sub p.1 meanA) (F64.sub p.1 meanA)))
    let varB := F64.sum (co.map (fun p => F64.mul (F64.sub p.2 meanB) (F64.sub p.2 meanB)))
    F64.div cov (sqrt (F64.mul varA varB))

/-- Modelled from the spec: the "Pearson correlation over co-rated subset", the function
the specification's words ascribe to `Pearson`, whose body is not in the sources: the
correlation of the co-rated values, with the deviations taken from the means of the
co-rated values. -/
def pearsonCorrelation (sqrt : F64 → F64) (a b : List F64) : F64 :=
  let co := coRated a b
  correlationAbout sqrt
    (F64.div (F64.sum (co.map (fun p => p.1))) (F64.fin co.length))
    (F64.div (F64.sum (co.map (fun p => p.2))) (F64.fin co.length)) a b

/-- Modelled from the spec: `Pearson`, whose body is not in the sources, in a reading that
meets the repository's test `TestPearson` (a value within 0.01 of 0 on its fixture, where
the correlation of the co-rated values alone is 1): the sums run over the co-rated
positions, and the deviations of each vector are taken from the mean of all its own
ratings. -/
def Pearson (sqrt : F64 → F64) (a b : List F64) : F64 :=
  correlationAbout sqrt (meanOf a) (meanOf b) a b

/-- The natural number whose square is `n`, if there is one. -/
def natRoot (n : Nat) : Option Nat := (List.range (n + 1)).find? (fun r => r * r = n)

/-- A square root on the values of the model: exact where the root of a number is a
rational number, as `math.Sqrt` is; elsewhere the root is not a value of the model, and
the result is `NaN`. -/
def exactSqrt : F64 → F64
  | F64.fin q =>
    if q < 0 then F64.nan
    else
      match natRoot q.num.natAbs, natRoot q.den with
      | some n, some d => F64.fin ((n : ℚ) / (d : ℚ))
      | _, _ => F64.nan
  | F64.pinf => F64.pinf
  | _ => F64.nan

/-- The first vector of the fixture of `TestPearson`. -/
def fixtureA : List F64 := [F64.fin 3, F64.fin 4, F64.fin 5, F64.nan]

/-- The second vector of the fixture of `TestPearson`. -/
def fixtureB : List F64 := [F64.nan, F64.fin 1, F64.fin 2, F64.fin 3]

/-! ## Insertion sort meets the contract of `sort.Sort` -/

theorem insertSorted_perm (less : Nat → Nat → Bool) (x : Nat) (l : List Nat) :
    (insertSorted less x l).Perm (x :: l) := by
  induction l with
  | nil => simp [insertSorted]
  | cons y ys ih =>
    unfold insertSorted
    split
    · exact List.Perm.refl _
    · exact (List.Perm.cons y ih).trans (List.Perm.swap x y ys)

theorem insertionSort_foldl_perm (less : Nat → Nat → Bool) (l acc : List Nat) :
    (l.foldl (fun acc x => insertSorted less x acc) acc).Perm (acc ++ l) := by
  induction l generalizing acc with
  | nil => simp
  | cons x xs ih =>
    simp only [List.foldl_cons]
    refine (ih _).trans ?_
    refine (List.Perm.append_right xs (insertSorted_perm less x acc)).trans ?_
    exact List.perm_middle.symm

theorem insertionSort_perm (less : Nat → Nat → Bool) (l : List Nat) :
    (insertionSort less l).Perm l := by
  simpa [insertionSort] using insertionSort_foldl_perm less l []

theorem insertSorted_sorted (less : Nat → Nat → Bool) (u : List Nat)
    (hasym : ∀ a ∈ u, ∀ b ∈ u, less a b = true → less b a = false)
    (htrans : ∀ a ∈ u, ∀ b ∈ u, ∀ c ∈ u, less a b = false → less b c = false →
      less a c = false)
    (x : Nat) (hx : x ∈ u) (l : List Nat) (hl : ∀ a ∈ l, a ∈ u)
    (hs : l.Pairwise (fun a b => less b a = false)) :
    (insertSorted less x l).Pairwise (fun a b => less b a = false) := by
  induction l with
  | nil => simp [insertSorted]
  | cons y ys ih =>
    have hy : y ∈ u := hl y (List.mem_cons_self _ _)
    have hys : ∀ a ∈ ys, a ∈ u := fun a ha => hl a (List.mem_cons_of_mem _ ha)
    rw [List.pairwise_cons] at hs
    unfold insertSorted
    split
    · rename_i hlt
      refine List.pairwise_cons.mpr ⟨?_, List.pairwise_cons.mpr hs⟩
      intro z hz
      rcases List.mem_cons.mp hz with rfl | hz
      · exact hasym x hx z hy hlt
      · exact htrans z (hys z hz) y hy x hx (hs.1 z hz) (hasym x hx y hy hlt)
    · rename_i hlt
      refine List.pairwise_cons.mpr ⟨?_, ih hys hs.2⟩
      intro z hz
      rcases List.mem_cons.mp ((insertSorted_perm less x ys).subset hz) with rfl | hz
      · simpa using hlt
      · exact hs.1 z hz

theorem insertionSort_foldl_sorted (less : Nat → Nat → Bool) (u : List Nat)
    (hasym : ∀ a ∈ u, ∀ b ∈ u, less a b = true → less b a = false)
    (htrans : ∀ a ∈ u, ∀ b ∈ u, ∀ c ∈ u, less a b = false → less b c = false →
      less a c = false)
    (l acc : List Nat) (hl : ∀ a ∈ l, a ∈ u) (hacc : ∀ a ∈ acc, a ∈ u)
    (hs : acc.Pairwise (fun a b => less b a = false)) :
    (l.foldl (fun acc x => insertSorted less x acc) acc).Pairwise
      (fun a b => less b a = false) := by
  induction l generalizing acc with
  | nil => simpa using hs
  | cons x xs ih =>
    simp only [List.foldl_cons]
    have hx : x ∈ u := hl x (List.mem_cons_self _ _)
    refine ih _ (fun a ha => hl a (List.mem_cons_of_mem _ ha)) ?_
      (insertSorted_sorted less u hasym htrans x hx acc hacc hs)
    intro a ha
    rcases List.mem_cons.mp ((insertSorted_perm less x acc).subset ha) with rfl | ha
    · exact hx
    · exact hacc a ha

/-- Insertion sort as an instance of the library contract. -/
def insertionSorter : Sorter where
  sort := insertionSort
  perm := insertionSort_perm
  sorted := fun less l hasym htrans =>
    insertionSort_foldl_sorted less l hasym htrans l [] (fun _ h => h) (by simp) List.Pairwise.nil

/-! ## Example data -/

/-- An example similarity function: one minus the mean squared difference over the
co-rated positions, and undefined when the two vectors have no co-rated position. -/
def agreement (a b : List F64) : F64 :=
  let co := (a.zip b).filter (fun p => !p.1.isNaN && !p.2.isNaN)
  if co.length = 0 then F64.nan
  else
    F64.sub (F64.fin 1)
      (F64.div (F64.sum (co.map (fun p => F64.mul (F64.sub p.1 p.2) (F64.sub p.1 p.2))))
        (F64.fin co.length))

/-- The option setter that selects `agreement`. -/
def useAgreement : OptionSetter := fun o => { o with sim := agreement }

/-- A training set given by its two rating matrices and its global mean; the inner index
of a known id is the id itself, the unknown sentinel is `-1`. -/
def trainSetOf (users items : List (List F64)) (mean : ℚ) : TrainSet :=
  { noBody := -1
    ConvertUserId := fun u => if 0 ≤ u ∧ u < (users.length : Int) then u else -1
    ConvertItemId := fun i => if 0 ≤ i ∧ i < (items.length : Int) then i else -1
    GlobalMean := F64.fin mean
    UserRatings := users
    ItemRatings := items
    UserCount := users.length
    ItemCount := items.length }

/-- Three users and two items; user 0 has not rated item 1, and agrees with user 1 with
similarity `0` and with user 2 with similarity `1`. -/
def tsA : TrainSet :=
  trainSetOf
    [[F64.fin 5, F64.nan], [F64.fin 4, F64.fin 4], [F64.fin 5, F64.fin 2]]
    [[F64.fin 5, F64.fin 4, F64.fin 5], [F64.nan, F64.fin 4, F64.fin 2]]
    4

/-- Three users and two items; both neighbours of user 0 have similarity `0` to it. -/
def tsZ : TrainSet :=
  trainSetOf
    [[F64.fin 5, F64.nan], [F64.fin 4, F64.fin 4], [F64.fin 4, F64.fin 2]]
    [[F64.fin 5, F64.fin 4, F64.fin 4], [F64.nan, F64.fin 4, F64.fin 2]]
    (19 / 5)

/-- Two users with no co-rated item. -/
def tsU : TrainSet :=
  trainSetOf
    [[F64.fin 5, F64.nan], [F64.nan, F64.fin 3]]
    [[F64.fin 5, F64.nan], [F64.nan, F64.fin 3]]
    4

/-- A baseline estimator that produces no bias at all (unused by the basic and centered
variants). -/
def noBaseLine : TrainSet → List OptionSetter → BaseLine := fun _ _ => ⟨[], []⟩

/-- The model `Fit` returns, for use where `Fit` is known to return. -/
def fitted (bl : TrainSet → List OptionSetter → BaseLine) (knn0 : KNN) (ts : TrainSet)
    (opts : List OptionSetter) : KNN :=
  (Fit bl knn0 ts opts).getD NewKNN

/-- The option setter that sets `k`. -/
def setK (k : Int) : OptionSetter := fun o => { o with k := k }

/-- The option setter that sets the orientation. -/
def setUserBased (userBased : Bool) : OptionSetter := fun o => { o with userBased := userBased }

/-- Three users and three items; user 0 has not rated item 2 and shares items 0 and 1 with
users 1 and 2. -/
def tsC : TrainSet :=
  trainSetOf
    [[F64.fin 5, F64.fin 3, F64.nan], [F64.fin 5, F64.fin 3, F64.fin 4],
     [F64.fin 3, F64.fin 3, F64.fin 2]]
    [[F64.fin 5, F64.fin 5, F64.fin 3], [F64.fin 3, F64.fin 3, F64.fin 3],
     [F64.nan, F64.fin 4, F64.fin 2]]
    (7 / 2)

/-- The model `knn` with the diagonal cell `(i, i)` of its similarity matrix set to `v`. -/
def withDiagonal (knn : KNN) (i : Nat) (v : F64) : KNN :=
  { knn with sims := (setCell knn.sims i i v).getD knn.sims }

/-- The option setter that selects the Pearson correlation of the co-rated values. -/
def usePearson : OptionSetter := fun o => { o with sim := pearsonCorrelation exactSqrt }

/-- Three users and three items; user 0 has not rated item 2; over the items 0 and 1 it
rates with user 0, user 1 is perfectly correlated with user 0 and user 2 perfectly
anti-correlated. -/
def tsP : TrainSet :=
  trainSetOf
    [[F64.fin 2, F64.fin 3, F64.nan], [F64.fin 2, F64.fin 3, F64.fin 4],
     [F64.fin 3, F64.fin 2, F64.fin 1]]
    [[F64.fin 2, F64.fin 2, F64.fin 3], [F64.fin 3, F64.fin 3, F64.fin 2],
     [F64.nan, F64.fin 4, F64.fin 1]]
    (5 / 2)

/-- An example similarity function: the inverse of the mean squared difference over the
co-rated positions, undefined with fewer than 2 of them; it is `+Inf` for two vectors that
agree on every co-rated position. -/
def inverseMSD (a b : List F64) : F64 :=
  let co := (a.zip b).filter (fun p => !p.1.isNaN && !p.2.isNaN)
  if co.length < 2 then F64.nan
  else
    F64.div (F64.fin 1)
      (F64.div (F64.sum (co.map (fun p => F64.mul (F64.sub p.1 p.2) (F64.sub p.1 p.2))))
        (F64.fin co.length))

/-- The option setter that selects `inverseMSD`. -/
def useInverseMSD : OptionSetter := fun o => { o with sim := inverseMSD }

/-- The option setter that selects the similarity that is `1` for every pair. -/
def useUnit : OptionSetter := fun o => { o with sim := fun _ _ => F64.fin 1 }

/-- Three users and two items; user 0 is known and has no rating. -/
def tsN : TrainSet :=
  trainSetOf
    [[F64.nan, F64.nan], [F64.fin 4, F64.fin 4], [F64.fin 5, F64.fin 2]]
    [[F64.nan, F64.fin 4, F64.fin 5], [F64.nan, F64.fin 4, F64.fin 2]]
    (15 / 4)

/-- Three users and three items; user 0 has not rated item 2; with the default similarity
it has similarity `1` to user 1 and `1/2` to user 2, who rated item 2 with 4 and 1. -/
def tsD : TrainSet :=
  trainSetOf
    [[F64.fin 5, F64.fin 3, F64.nan], [F64.fin 5, F64.fin 3, F64.fin 4],
     [F64.fin 4, F64.fin 2, F64.fin 1]]
    [[F64.fin 5, F64.fin 5, F64.fin 4], [F64.fin 3, F64.fin 3, F64.fin 2],
     [F64.nan, F64.fin 4, F64.fin 1]]
    (27 / 8)

/-! ## Auxiliary lemmas -/

/-! ## Matrices as lists of rows -/

theorem shaped_row {m : List (List F64)} {n c : Nat} (h : shaped m n c) {i : Nat}
    (hi : i < n) : ∃ row, m[i]? = some row ∧ row.length = c := by
  have hi2 : i < m.length := h.1 ▸ hi
  exact ⟨m[i], List.getElem?_eq_getElem hi2, h.2 _ (List.getElem_mem _)⟩

theorem read_cell {m : List (List F64)} {n c : Nat} (h : shaped m n c) {i j : Nat}
    (hi : i < n) (hj : j < c) :
    (m[i]?).bind (fun row => row[j]?) = some (cell m i j) := by
  obtain ⟨row, hrow, hlen⟩ := shaped_row h hi
  have hj2 : j < row.length := hlen ▸ hj
  simp [cell, hrow, List.getElem?_eq_getElem hj2]

theorem newNanMatrix_shaped (n c : Nat) : shaped (newNanMatrix n c) n c := by
  constructor
  · simp [newNanMatrix]
  · intro row hrow
    simp [newNanMatrix] at hrow
    simp [hrow.2]

theorem newNanMatrix_cell (n c i j : Nat) : cell (newNanMatrix n c) i j = F64.nan := by
  simp only [cell, newNanMatrix, List.getD_eq_getElem?_getD, List.getElem?_replicate]
  split
  · simp only [Option.getD_some, List.getElem?_replicate]
    split <;> rfl
  · rfl

theorem setCell_spec {m : List (List F64)} {n c : Nat} (h : shaped m n c) {i j : Nat}
    (hi : i < n) (hj : j < c) (v : F64) :
    ∃ m', setCell m i j v = some m' ∧ shaped m' n c ∧
      ∀ a b, cell m' a b = if a = i ∧ b = j then v else cell m a b := by
  obtain ⟨row, hrow, hlen⟩ := shaped_row h hi
  have hj2 : j < row.length := hlen ▸ hj
  have hi2 : i < m.length := h.1 ▸ hi
  refine ⟨m.set i (row.set j v), by simp [setCell, hrow, hj2], ⟨by simp [h.1], ?_⟩, ?_⟩
  · intro r hr
    rcases List.mem_or_eq_of_mem_set hr with hr | hr
    · exact h.2 r hr
    · simp [hr, hlen]
  · intro a b
    simp only [cell, List.getD_eq_getElem?_getD, List.getElem?_set]
    by_cases hai : i = a
    · subst hai
      simp only [hi2, if_true, Option.getD_some, List.getElem?_set, true_and, hrow]
      by_cases hbj : j = b
      · subst hbj; simp [hj2]
      · have : ¬ b = j := fun h => hbj h.symm
        simp [hbj, this]
    · have : ¬ a = i := fun h => hai h.symm
      simp [hai, this]

/-! ## The pairwise pass of `Fit` -/

theorem foldlM_enumFrom_inv {σ α : Type} (f : σ → Nat × α → Option σ)
    (Inv : Nat → σ → Prop) (xs : List α) (k : Nat) (s : σ) (h0 : Inv k s)
    (hstep : ∀ i x s, xs[i]? = some x → Inv (k + i) s →
      ∃ s', f s (k + i, x) = some s' ∧ Inv (k + i + 1) s') :
    ∃ s', (xs.enumFrom k).foldlM f s = some s' ∧ Inv (k + xs.length) s' := by
  induction xs generalizing k s with
  | nil => exact ⟨s, by simp, by simpa using h0⟩
  | cons x xs ih =>
    obtain ⟨s1, hs1, hinv1⟩ := hstep 0 x s (by simp) (by simpa using h0)
    have := ih (k + 1) s1 (by simpa using hinv1) (fun i y t hy hinv => by
      have := hstep (i + 1) y t (by simpa using hy) (by
        have e : k + (i + 1) = k + 1 + i := by omega
        rw [e]; exact hinv)
      have e : k + (i + 1) = k + 1 + i := by omega
      rw [e] at this
      exact this)
    obtain ⟨s2, hs2, hinv2⟩ := this
    refine ⟨s2, ?_, ?_⟩
    · simp only [List.enumFrom_cons, List.foldlM_cons]
      simp only [Nat.add_zero] at hs1
      rw [hs1]
      exact hs2
    · have e : k + (x :: xs).length = k + 1 + xs.length := by simp; omega
      rw [e]; exact hinv2

theorem pairsBefore_succ (n l0 r0 : Nat) :
    pairsBefore n l0 (r0 + 1) = pairsBefore n l0 r0 ++ [(l0, r0)] := by
  simp [pairsBefore, List.range_succ, List.append_assoc]

theorem pairsBefore_row (n l0 : Nat) :
    pairsBefore n (l0 + 1) 0 = pairsBefore n l0 n := by
  simp [pairsBefore, List.range_succ, List.flatMap_append]

theorem F64.eq_nan_of_isNaN {x : F64} (h : x.isNaN = true) : x = F64.nan := by
  cases x <;> simp_all [F64.isNaN]

theorem cellBefore_symm (sim : List F64 → List F64 → F64) (ratings : List (List F64))
    (l0 r0 i j : Nat) : cellBefore sim ratings l0 r0 i j = cellBefore sim ratings l0 r0 j i := by
  unfold cellBefore
  by_cases h : i = j
  · subst h; rfl
  · have h' : ¬ j = i := fun e => h e.symm
    simp only [h, h', if_false, Nat.min_comm i j, Nat.max_comm i j]

theorem cellBefore_lt (sim : List F64 → List F64 → F64) (ratings : List (List F64))
    (l0 r0 : Nat) {i j : Nat} (h : i < j) :
    cellBefore sim ratings l0 r0 i j =
      if visited l0 r0 i j then
        if (sim (ratings.getD i []) (ratings.getD j [])).isNaN then
          if visited l0 r0 j i then sim (ratings.getD j []) (ratings.getD i []) else F64.nan
        else sim (ratings.getD i []) (ratings.getD j [])
      else F64.nan := by
  unfold cellBefore
  have h1 : ¬ i = j := by omega
  have h2 : min i j = i := by omega
  have h3 : max i j = j := by omega
  simp only [h1, if_false, h2, h3]

theorem cellBefore_congr (sim : List F64 → List F64 → F64) (ratings : List (List F64))
    (l0 r0 l1 r1 i j : Nat)
    (h1 : visited l0 r0 i j ↔ visited l1 r1 i j)
    (h2 : visited l0 r0 j i ↔ visited l1 r1 j i) :
    cellBefore sim ratings l0 r0 i j = cellBefore sim ratings l1 r1 i j := by
  by_cases h : i = j
  · subst h; simp [cellBefore]
  · rcases Nat.lt_or_gt_of_ne h with hlt | hlt
    · rw [cellBefore_lt _ _ _ _ hlt, cellBefore_lt _ _ _ _ hlt]
      simp only [h1, h2]
    · rw [cellBefore_symm _ _ _ _ i j, cellBefore_symm _ _ _ _ i j,
        cellBefore_lt _ _ _ _ hlt, cellBefore_lt _ _ _ _ hlt]
      simp only [h1, h2]

theorem cellBefore_succ_other (sim : List F64 → List F64 → F64) (ratings : List (List F64))
    (l r i j : Nat) (h1 : ¬ (i = l ∧ j = r)) (h2 : ¬ (i = r ∧ j = l)) :
    cellBefore sim ratings l (r + 1) i j = cellBefore sim ratings l r i j := by
  apply cellBefore_congr <;> unfold visited <;> omega

theorem cellBefore_diag (sim : List F64 → List F64 → F64) (ratings : List (List F64))
    (l0 r0 i : Nat) : cellBefore sim ratings l0 r0 i i = F64.nan := by
  simp [cellBefore]

/-- The visit of `(l, r)` changes the value at `(l, r)` the way the loop body does. -/
theorem cellBefore_succ_self (sim : List F64 → List F64 → F64) (ratings : List (List F64))
    (l r : Nat) (h : l ≠ r) :
    cellBefore sim ratings l (r + 1) l r =
      if (cellBefore sim ratings l r l r).isNaN then
        if (sim (ratings.getD l []) (ratings.getD r [])).isNaN then
          cellBefore sim ratings l r l r
        else sim (ratings.getD l []) (ratings.getD r [])
      else cellBefore sim ratings l r l r := by
  rcases Nat.lt_or_gt_of_ne h with hlt | hlt
  · rw [cellBefore_lt _ _ _ _ hlt, cellBefore_lt _ _ _ _ hlt]
    have v1 : visited l (r + 1) l r := by unfold visited; omega
    have v2 : ¬ visited l (r + 1) r l := by unfold visited; omega
    have v3 : ¬ visited l r l r := by unfold visited; omega
    simp only [v1, v2, v3, if_true, if_false]
    generalize sim (ratings.getD l []) (ratings.getD r []) = x
    cases x <;> simp [F64.isNaN]
  · rw [cellBefore_symm _ _ _ _ l r, cellBefore_symm _ _ l r l r,
      cellBefore_lt _ _ _ _ hlt, cellBefore_lt _ _ _ _ hlt]
    have v1 : visited l (r + 1) r l := by unfold visited; omega
    have v2 : visited l (r + 1) l r := by unfold visited; omega
    have v3 : visited l r r l := by unfold visited; omega
    have v4 : ¬ visited l r l r := by unfold visited; omega
    simp only [v1, v2, v3, v4, if_true, if_false]
    generalize sim (ratings.getD l []) (ratings.getD r []) = x
    generalize sim (ratings.getD r []) (ratings.getD l []) = y
    cases x <;> cases y <;> simp [F64.isNaN]

theorem evaluates_eq (sim : List F64 → List F64 → F64) (ratings : List (List F64))
    (l r : Nat) :
    evaluates sim ratings (l, r) =
      (decide (l ≠ r) && (cellBefore sim ratings l r l r).isNaN) := by
  unfold evaluates
  by_cases h : l = r
  · subst h; simp
  · rcases Nat.lt_or_gt_of_ne h with hlt | hlt
    · rw [cellBefore_lt _ _ _ _ hlt]
      have v3 : ¬ visited l r l r := by unfold visited; omega
      have : ¬ r < l := by omega
      simp [hlt, h, v3, F64.isNaN]
    · rw [cellBefore_symm, cellBefore_lt _ _ _ _ hlt]
      have v3 : visited l r r l := by unfold visited; omega
      have v4 : ¬ visited l r l r := by unfold visited; omega
      have : ¬ l < r := by omega
      simp only [v3, v4, if_true, if_false]
      generalize sim (ratings.getD r []) (ratings.getD l []) = y
      cases y <;> simp [F64.isNaN, this, hlt, h]

theorem fitCell_step (sim : List F64 → List F64 → F64) (ratings : List (List F64))
    (n l r : Nat) (st : FitState) (hl : l < n) (hr : r < n)
    (hinv : fitInv sim ratings n l r st) :
    ∃ st', fitCell sim l (ratings.getD l []) st (r, ratings.getD r []) = some st' ∧
      fitInv sim ratings n l (r + 1) st' := by
  obtain ⟨hshape, hcells, hcalls⟩ := hinv
  by_cases hlr : l = r
  · subst hlr
    refine ⟨st, by simp [fitCell], hshape, ?_, ?_⟩
    · intro i j hi hj
      rw [hcells i j hi hj]
      by_cases hij : i = j
      · subst hij; simp [cellBefore_diag]
      · exact (cellBefore_succ_other sim ratings l l i j (by omega) (by omega)).symm
    · rw [pairsBefore_succ, List.filter_append, ← hcalls]
      simp [evaluates_eq]
  · have hread := read_cell hshape hl hr
    rw [hcells l r hl hr] at hread
    have hev := evaluates_eq sim ratings l r
    have hself := cellBefore_succ_self sim ratings l r hlr
    have hother : ∀ i j, ¬ (i = l ∧ j = r) → ¬ (i = r ∧ j = l) →
        cellBefore sim ratings l (r + 1) i j = cellBefore sim ratings l r i j :=
      fun i j h1 h2 => cellBefore_succ_other sim ratings l r i j h1 h2
    simp only [fitCell, ne_eq, hlr, not_false_eq_true, if_true, hread]
    by_cases hnan : (cellBefore sim ratings l r l r).isNaN = true
    · simp only [hnan, if_true] at hself ⊢
      have hfilter : (pairsBefore n l (r + 1)).filter (evaluates sim ratings) =
          st.calls ++ [(l, r)] := by
        rw [pairsBefore_succ, List.filter_append, ← hcalls]
        simp [hev, hlr, hnan]
      by_cases hret : (sim (ratings.getD l []) (ratings.getD r [])).isNaN = true
      · simp only [hret, if_true] at hself
        simp only [hret, Bool.not_true, Bool.false_eq_true, if_false]
        refine ⟨_, rfl, hshape, ?_, hfilter.symm⟩
        intro i j hi hj
        rw [hcells i j hi hj]
        by_cases h1 : i = l ∧ j = r
        · rw [h1.1, h1.2, hself]
        · by_cases h2 : i = r ∧ j = l
          · rw [h2.1, h2.2, cellBefore_symm _ _ l (r + 1) r l, hself,
              cellBefore_symm _ _ l r r l]
          · exact (hother i j h1 h2).symm
      · simp only [hret, Bool.false_eq_true, if_false] at hself
        simp only [hret, Bool.not_false, if_true]
        obtain ⟨s1, hs1, hshape1, hcell1⟩ :=
          setCell_spec hshape hl hr (sim (ratings.getD l []) (ratings.getD r []))
        obtain ⟨s2, hs2, hshape2, hcell2⟩ :=
          setCell_spec hshape1 hr hl (sim (ratings.getD l []) (ratings.getD r []))
        simp only [hs1, hs2]
        refine ⟨_, rfl, hshape2, ?_, hfilter.symm⟩
        intro i j hi hj
        simp only [hcell2, hcell1]
        by_cases h2 : i = r ∧ j = l
        · rw [if_pos h2, h2.1, h2.2, cellBefore_symm _ _ _ _ r l, hself]
        · rw [if_neg h2]
          by_cases h1 : i = l ∧ j = r
          · rw [if_pos h1, h1.1, h1.2, hself]
          · rw [if_neg h1, hcells i j hi hj]
            exact (hother i j h1 h2).symm
    · simp only [hnan, Bool.false_eq_true, if_false] at hself ⊢
      refine ⟨st, rfl, hshape, ?_, ?_⟩
      · intro i j hi hj
        rw [hcells i j hi hj]
        by_cases h1 : i = l ∧ j = r
        · rw [h1.1, h1.2, hself]
        · by_cases h2 : i = r ∧ j = l
          · rw [h2.1, h2.2, cellBefore_symm _ _ l (r + 1) r l, hself,
              cellBefore_symm _ _ l r r l]
          · exact (hother i j h1 h2).symm
      · rw [pairsBefore_succ, List.filter_append, ← hcalls]
        simp [hev, hnan]

theorem getD_of_getElem? {α : Type} {xs : List α} {i : Nat} {x d : α}
    (h : xs[i]? = some x) : xs.getD i d = x := by
  simp [h]

theorem fitRow_step (sim : List F64 → List F64 → F64) (ratings : List (List F64))
    (l : Nat) (st : FitState) (hl : l < ratings.length)
    (hinv : fitInv sim ratings ratings.length l 0 st) :
    ∃ st', fitRow sim ratings st (l, ratings.getD l []) = some st' ∧
      fitInv sim ratings ratings.length (l + 1) 0 st' := by
  have := foldlM_enumFrom_inv (fitCell sim l (ratings.getD l []))
    (fun r s => fitInv sim ratings ratings.length l r s) ratings 0 st hinv
    (fun i x s hx hi => by
      have hlt : i < ratings.length := (List.getElem?_eq_some.mp hx).1
      have := fitCell_step sim ratings ratings.length l i s hl hlt (by simpa using hi)
      rw [getD_of_getElem? hx] at this
      simpa using this)
  obtain ⟨st', hst', hinv'⟩ := this
  refine ⟨st', hst', ?_⟩
  simp only [Nat.zero_add] at hinv'
  obtain ⟨h1, h2, h3⟩ := hinv'
  refine ⟨h1, ?_, ?_⟩
  · intro i j hi hj
    rw [h2 i j hi hj]
    apply cellBefore_congr <;> unfold visited <;> omega
  · rw [pairsBefore_row]; exact h3

theorem fitInv_init (sim : List F64 → List F64 → F64) (ratings : List (List F64)) :
    fitInv sim ratings ratings.length 0 0
      { sims := newNanMatrix ratings.length ratings.length, calls := [] } := by
  refine ⟨newNanMatrix_shaped _ _, ?_, ?_⟩
  · intro i j _ _
    rw [newNanMatrix_cell]
    by_cases h : i = j
    · subst h; simp [cellBefore_diag]
    · have v1 : ¬ visited 0 0 (min i j) (max i j) := by unfold visited; omega
      simp [cellBefore, h, v1]
  · simp [pairsBefore]

/-- The pairwise pass on an `n × n` matrix of `NaN`, `n` the number of rating rows,
never panics, and it ends in the state described by `cellBefore` and `pairsBefore` at
the end of the visit order. -/
theorem fitSims_spec (sim : List F64 → List F64 → F64) (ratings : List (List F64)) :
    ∃ st, fitSims sim ratings (newNanMatrix ratings.length ratings.length) = some st ∧
      fitInv sim ratings ratings.length ratings.length 0 st := by
  have := foldlM_enumFrom_inv (fitRow sim ratings)
    (fun l s => fitInv sim ratings ratings.length l 0 s) ratings 0 _
    (fitInv_init sim ratings)
    (fun i x s hx hi => by
      have hlt : i < ratings.length := (List.getElem?_eq_some.mp hx).1
      have := fitRow_step sim ratings i s hlt (by simpa using hi)
      rw [getD_of_getElem? hx] at this
      simpa using this)
  obtain ⟨st, hst, hinv⟩ := this
  exact ⟨st, hst, by simpa using hinv⟩

/-! ## What `Fit` stores -/

theorem fitNanSims_eq (o : KnnOption) (ts : TrainSet) :
    fitNanSims o ts = newNanMatrix (entityCount o ts) (entityCount o ts) := by
  unfold fitNanSims entityCount
  split <;> rfl

theorem Fit_fields {bl : TrainSet → List OptionSetter → BaseLine} {knn0 knn : KNN}
    {ts : TrainSet} {opts : List OptionSetter} (hfit : Fit bl knn0 ts opts = some knn) :
    knn.option = applySetters opts ∧ knn.tpe = knn0.tpe ∧ knn.globalMean = ts.GlobalMean ∧
    knn.ratings = fitRatings (applySetters opts) ts ∧ knn.trainSet = ts ∧
    (knn0.tpe = centered → knn.means = (fitRatings (applySetters opts) ts).map meanOf) ∧
    (knn0.tpe = baseline → knn.bias =
      if (applySetters opts).userBased then (bl ts opts).userBias
      else (bl ts opts).itemBias) ∧
    ∃ st, fitState ts opts = some st ∧ knn.sims = st.sims := by
  unfold Fit at hfit
  cases hst : fitState ts opts with
  | none => simp [hst] at hfit
  | some st =>
    simp only [hst, Option.some.injEq] at hfit
    subst hfit
    refine ⟨rfl, rfl, rfl, rfl, rfl, ?_, ?_, st, rfl, rfl⟩
    · intro h; simp [h]
    · intro h
      have : ¬ knn0.tpe = centered := by rw [h]; decide
      show (if knn0.tpe = centered then _ else _) = _
      rw [if_neg this, if_pos h]

/-- The state the pairwise pass of `Fit` ends in, on a training set with one rating row
per entity. -/
theorem fitState_spec (ts : TrainSet) (opts : List OptionSetter)
    (hrows : (fitRatings (applySetters opts) ts).length = entityCount (applySetters opts) ts) :
    ∃ st, fitState ts opts = some st ∧
      fitInv (applySetters opts).sim (fitRatings (applySetters opts) ts)
        (entityCount (applySetters opts) ts) (entityCount (applySetters opts) ts) 0 st := by
  unfold fitState
  simp only [fitNanSims_eq, ← hrows]
  exact fitSims_spec _ _

/-! ## The candidates -/

theorem idx_natCast {α : Type} (xs : List α) {i : Int} (h : 0 ≤ i) :
    idx xs i = xs[i.toNat]? := by
  simp [idx, h]

theorem foldlM_filter_spec (f : List Nat → Nat → Option (List Nat)) (p : Nat → Bool)
    (xs : List Nat) (acc : List Nat)
    (h : ∀ x ∈ xs, ∀ acc, f acc x = some (if p x then acc ++ [x] else acc)) :
    xs.foldlM f acc = some (acc ++ xs.filter p) := by
  induction xs generalizing acc with
  | nil => simp
  | cons x xs ih =>
    simp only [List.foldlM_cons, h x (List.mem_cons_self _ _)]
    simp only [Option.bind_eq_bind, Option.some_bind]
    rw [ih _ (fun y hy => h y (List.mem_cons_of_mem _ hy))]
    by_cases hp : p x = true
    · simp [hp, List.filter_cons]
    · simp [hp, List.filter_cons]

theorem read_sim {knn : KNN} {n m : Nat} {leftId rightId : Int}
    (h : InRange knn n m leftId rightId) {o : Nat} (ho : o < n) :
    (idx knn.sims leftId).bind (fun row => row[o]?) = some (simOf knn leftId o) := by
  rw [idx_natCast _ h.left0]
  exact read_cell h.sims h.leftN ho

theorem read_rating {knn : KNN} {n m : Nat} {leftId rightId : Int}
    (h : InRange knn n m leftId rightId) {o : Nat} (ho : o < n) :
    (knn.ratings[o]?).bind (fun row => idx row rightId) = some (ratingOf knn o rightId) := by
  have := read_cell h.ratings ho h.rightM
  simpa [idx, h.right0] using this

theorem findCandidates_spec {knn : KNN} {n m : Nat} {leftId rightId : Int}
    (h : InRange knn n m leftId rightId) :
    findCandidates knn leftId rightId = some (qualifying knn leftId rightId) := by
  unfold findCandidates qualifying
  have := foldlM_filter_spec (candidateStep knn leftId rightId)
    (fun o => !(ratingOf knn o rightId).isNaN && !(simOf knn leftId o).isNaN)
    (List.range knn.ratings.length) []
    (fun o ho acc => by
      have ho : o < n := by
        rw [← h.ratings.1]; exact List.mem_range.mp ho
      simp only [candidateStep, read_rating h ho, read_sim h ho]
      by_cases hr : (ratingOf knn o rightId).isNaN = true <;>
        by_cases hs : (simOf knn leftId o).isNaN = true <;> simp [hr, hs])
  simpa using this

theorem mem_qualifying {knn : KNN} {leftId rightId : Int} {o : Nat} :
    o ∈ qualifying knn leftId rightId ↔
      o < knn.ratings.length ∧ (ratingOf knn o rightId).isNaN = false ∧
        (simOf knn leftId o).isNaN = false := by
  simp [qualifying, List.mem_filter]

/-! ## Arithmetic of `F64` -/

namespace F64

theorem addAssoc (a b c : F64) : add (add a b) c = add a (add b c) := by
  cases a <;> cases b <;> cases c <;> simp [add, add_assoc]

theorem addZero (a : F64) : add a (fin 0) = a := by
  cases a <;> simp [add]

theorem subZero (a : F64) : sub a (fin 0) = a := by
  cases a <;> simp [sub, add, neg]

/-- Multiplication by a finite factor distributes over subtraction. -/
theorem mul_sub_of_fin (q : ℚ) (r c : F64) :
    add (mul (fin q) r) (neg (mul (fin q) c)) = mul (fin q) (sub r c) := by
  cases r <;> cases c <;> simp only [mul, sub, add, neg, infTimes] <;>
    (try split_ifs) <;> simp_all [add, neg]; ring

theorem gt_asymm (a b : F64) (h : gt a b = true) : gt b a = false := by
  cases a <;> cases b <;> simp_all [gt]
  exact le_of_lt h

theorem gt_negtrans (a b c : F64) (hb : b.isNaN = false) (h1 : gt a b = false)
    (h2 : gt b c = false) : gt a c = false := by
  cases a <;> cases b <;> cases c <;> simp_all [gt, isNaN]
  exact le_trans h1 h2

theorem ge_of_not_gt (a b : F64) (ha : a.isNaN = false) (hb : b.isNaN = false)
    (h : gt b a = false) : ge a b = true := by
  cases a <;> cases b <;> simp_all [gt, ge, isNaN]

/-- A sum that is a finite number has only finite summands. -/
theorem finite_of_foldl_add (l : List F64) (a : F64) (w : ℚ) (h : l.foldl add a = fin w) :
    a.isFinite = true ∧ ∀ x ∈ l, x.isFinite = true := by
  induction l generalizing a with
  | nil =>
    simp only [List.foldl_nil] at h
    subst h
    exact ⟨rfl, by simp⟩
  | cons x xs ih =>
    simp only [List.foldl_cons] at h
    obtain ⟨h1, h2⟩ := ih _ h
    have hax : a.isFinite = true ∧ x.isFinite = true := by
      cases a <;> cases x <;> simp_all [add, isFinite]
    refine ⟨hax.1, ?_⟩
    intro y hy
    rcases List.mem_cons.mp hy with rfl | hy
    · exact hax.2
    · exact h2 y hy

theorem finite_of_sum (l : List F64) (w : ℚ) (h : sum l = fin w) :
    ∀ x ∈ l, x.isFinite = true :=
  (finite_of_foldl_add l (fin 0) w h).2

end F64

/-! ## The neighbours and the aggregation -/

theorem getElem?_of_lt_getD (xs : List F64) {o : Nat} (h : o < xs.length) :
    xs[o]? = some (xs.getD o F64.nan) := by
  simp [List.getElem?_eq_getElem h]

theorem aggStep_spec {knn : KNN} {n m : Nat} {leftId rightId : Int}
    (h : InRange knn n m leftId rightId) (hc : Centered knn n) {o : Nat} (ho : o < n)
    (acc : F64 × F64) :
    aggStep knn leftId rightId acc o =
      some (F64.add acc.1 (simOf knn leftId o), stepRating knn leftId rightId acc.2 o) := by
  simp only [aggStep, read_sim h ho, read_rating h ho, stepRating]
  by_cases h1 : knn.tpe = centered
  · simp only [h1, if_true, getElem?_of_lt_getD _ (Nat.lt_of_lt_of_le ho (hc.1 h1))]
  · by_cases h2 : knn.tpe = baseline
    · simp only [if_neg h1, if_pos h2,
        getElem?_of_lt_getD _ (Nat.lt_of_lt_of_le ho (hc.2 h2))]
    · simp only [if_neg h1, if_neg h2]

theorem aggregate_foldl {knn : KNN} {n m : Nat} {leftId rightId : Int}
    (h : InRange knn n m leftId rightId) (hc : Centered knn n) (sel : List Nat)
    (hsel : ∀ o ∈ sel, o < n) (acc : F64 × F64) :
    sel.foldlM (aggStep knn leftId rightId) acc =
      some (sel.foldl (fun a o => F64.add a (simOf knn leftId o)) acc.1,
            sel.foldl (stepRating knn leftId rightId) acc.2) := by
  induction sel generalizing acc with
  | nil => simp
  | cons o os ih =>
    simp only [List.foldlM_cons, aggStep_spec h hc (hsel o (List.mem_cons_self _ _)),
      List.foldl_cons]
    simp only [Option.bind_eq_bind, Option.some_bind]
    exact ih (fun x hx => hsel x (List.mem_cons_of_mem _ hx)) _

theorem stepRating_of_finite (knn : KNN) (leftId rightId : Int) (acc : F64) (o : Nat)
    (hfin : (simOf knn leftId o).isFinite = true) :
    stepRating knn leftId rightId acc o =
      F64.add acc (F64.mul (simOf knn leftId o)
        (F64.sub (ratingOf knn o rightId) (centerOf knn o))) := by
  cases hs : simOf knn leftId o with
  | fin q =>
    unfold stepRating centerOf
    rw [hs]
    by_cases h1 : knn.tpe = centered
    · simp only [h1, if_true]
      rw [← F64.mul_sub_of_fin, F64.sub, F64.addAssoc]
    · by_cases h2 : knn.tpe = baseline
      · simp only [if_neg h1, if_pos h2]
        rw [← F64.mul_sub_of_fin, F64.sub, F64.addAssoc]
      · simp only [if_neg h1, if_neg h2, F64.subZero]
  | nan => rw [hs] at hfin; simp [F64.isFinite] at hfin
  | pinf => rw [hs] at hfin; simp [F64.isFinite] at hfin
  | ninf => rw [hs] at hfin; simp [F64.isFinite] at hfin

theorem foldl_stepRating_of_finite (knn : KNN) (leftId rightId : Int) (sel : List Nat)
    (hfin : ∀ o ∈ sel, (simOf knn leftId o).isFinite = true) (acc : F64) :
    sel.foldl (stepRating knn leftId rightId) acc =
      (sel.map (fun o => F64.mul (simOf knn leftId o)
        (F64.sub (ratingOf knn o rightId) (centerOf knn o)))).foldl F64.add acc := by
  induction sel generalizing acc with
  | nil => rfl
  | cons o os ih =>
    simp only [List.foldl_cons, List.map_cons]
    rw [stepRating_of_finite knn leftId rightId acc o (hfin o (List.mem_cons_self _ _))]
    exact ih (fun x hx => hfin x (List.mem_cons_of_mem _ hx)) _

theorem foldl_add_map (knn : KNN) (leftId : Int) (sel : List Nat) (acc : F64) :
    sel.foldl (fun a o => F64.add a (simOf knn leftId o)) acc =
      (sel.map (simOf knn leftId)).foldl F64.add acc := by
  induction sel generalizing acc with
  | nil => rfl
  | cons o os ih => simp only [List.foldl_cons, List.map_cons]; exact ih _

/-- The accumulators the aggregation loop ends with. -/
theorem aggregate_spec {knn : KNN} {n m : Nat} {leftId rightId : Int}
    (h : InRange knn n m leftId rightId) (hc : Centered knn n) (sel : List Nat)
    (hsel : ∀ o ∈ sel, o < n) :
    aggregate knn leftId rightId sel =
      some (weightSum knn leftId sel,
            sel.foldl (stepRating knn leftId rightId) (F64.fin 0)) := by
  unfold aggregate weightSum F64.sum
  rw [aggregate_foldl h hc sel hsel, foldl_add_map]

theorem finish_spec {knn : KNN} {n m : Nat} {leftId rightId : Int}
    (h : InRange knn n m leftId rightId) (hc : Centered knn n) (acc : F64 × F64) :
    finish knn leftId acc =
      some (F64.add (F64.div acc.2 acc.1) (centerOf knn leftId.toNat)) := by
  unfold finish centerOf
  by_cases h1 : knn.tpe = centered
  · simp only [h1, if_true, idx_natCast _ h.left0,
      getElem?_of_lt_getD _ (Nat.lt_of_lt_of_le h.leftN (hc.1 h1))]
  · by_cases h2 : knn.tpe = baseline
    · simp only [if_neg h1, if_pos h2, idx_natCast _ h.left0,
        getElem?_of_lt_getD _ (Nat.lt_of_lt_of_le h.leftN (hc.2 h2))]
    · simp only [if_neg h1, if_neg h2, F64.addZero]

/-! ## `Predict` on a query in range -/

theorem qualifying_lt {knn : KNN} {leftId rightId : Int} {o : Nat}
    (h : o ∈ qualifying knn leftId rightId) : o < knn.ratings.length :=
  (mem_qualifying.mp h).1

theorem qualifying_nodup (knn : KNN) (leftId rightId : Int) :
    (qualifying knn leftId rightId).Nodup :=
  (List.nodup_range _).filter _

theorem ranked_perm (S : Sorter) (knn : KNN) (leftId rightId : Int) :
    (ranked S knn leftId rightId).Perm (qualifying knn leftId rightId) :=
  S.perm _ _

theorem selected_subset (S : Sorter) (knn : KNN) (leftId rightId : Int) {o : Nat}
    (h : o ∈ selected S knn leftId rightId) : o ∈ qualifying knn leftId rightId :=
  (ranked_perm S knn leftId rightId).subset (List.mem_of_mem_take h)

/-- The candidates after `sort.Sort` are in descending order of similarity. -/
theorem ranked_sorted (S : Sorter) (knn : KNN) (leftId rightId : Int) :
    (ranked S knn leftId rightId).Pairwise
      (fun a b => F64.ge (simOf knn leftId a) (simOf knn leftId b) = true) := by
  have hs := S.sorted (fun a b => F64.gt (simOf knn leftId a) (simOf knn leftId b))
    (qualifying knn leftId rightId)
    (fun a _ b _ h => F64.gt_asymm _ _ h)
    (fun a _ b hb c _ h1 h2 => F64.gt_negtrans _ _ _ (mem_qualifying.mp hb).2.2 h1 h2)
  have hmem : ∀ a ∈ ranked S knn leftId rightId, (simOf knn leftId a).isNaN = false :=
    fun a ha => (mem_qualifying.mp ((ranked_perm S knn leftId rightId).subset ha)).2.2
  refine (List.Pairwise.and_mem.mp hs).imp ?_
  intro a b hab
  exact F64.ge_of_not_gt _ _ (hmem a hab.1) (hmem b hab.2.1) hab.2.2

theorem sim_row {knn : KNN} {n m : Nat} {leftId rightId : Int}
    (h : InRange knn n m leftId rightId) :
    ∃ row, idx knn.sims leftId = some row ∧ ∀ o, row.getD o F64.nan = simOf knn leftId o := by
  obtain ⟨row, hrow, _⟩ := shaped_row h.sims h.leftN
  refine ⟨row, by rw [idx_natCast _ h.left0, hrow], ?_⟩
  intro o
  simp [simOf, cell, hrow]

/-- The result of `Predict` on a query whose ids are in range: the minimum-neighbours fallback, the
panic on a negative `k`, and the aggregation over the selected neighbours. -/
theorem Predict_structure (S : Sorter) {knn : KNN} {n m : Nat} (userId itemId : Int)
    (h : InRange knn n m (queryIds knn userId itemId).1 (queryIds knn userId itemId).2)
    (hl : (queryIds knn userId itemId).1 ≠ knn.trainSet.noBody)
    (hr : (queryIds knn userId itemId).2 ≠ knn.trainSet.noBody) :
    Predict S knn userId itemId =
      if ((qualifying knn (queryIds knn userId itemId).1
            (queryIds knn userId itemId).2).length : Int) ≤ knn.option.minK then
        some knn.globalMean
      else if knn.option.k < 0 then none
      else (aggregate knn (queryIds knn userId itemId).1 (queryIds knn userId itemId).2
          (selected S knn (queryIds knn userId itemId).1 (queryIds knn userId itemId).2)).bind
        (finish knn (queryIds knn userId itemId).1) := by
  generalize hL : (queryIds knn userId itemId).1 = leftId at *
  generalize hR : (queryIds knn userId itemId).2 = rightId at *
  unfold Predict
  simp only [hL, hR, hl, hr, or_self, if_false, findCandidates_spec h]
  by_cases hmin : ((qualifying knn leftId rightId).length : Int) ≤ knn.option.minK
  · simp only [hmin, if_true]
  · simp only [hmin, if_false]
    obtain ⟨row, hrow, hget⟩ := sim_row h
    simp only [hrow]
    have hless : (NewCandidateSet row (qualifying knn leftId rightId)).Less =
        fun a b => F64.gt (simOf knn leftId a) (simOf knn leftId b) := by
      funext a b
      simp only [CandidateSet.Less, NewCandidateSet, hget]
    have hsorted : (sortSort S (NewCandidateSet row (qualifying knn leftId rightId))).candidates
        = ranked S knn leftId rightId := by
      simp only [sortSort, hless, ranked]
      rfl
    have hlen : (sortSort S (NewCandidateSet row (qualifying knn leftId rightId))).Len
        = (qualifying knn leftId rightId).length := by
      simp only [CandidateSet.Len, hsorted]
      exact (ranked_perm S knn leftId rightId).length_eq
    have hnum : numNeighbors knn (sortSort S (NewCandidateSet row (qualifying knn leftId rightId)))
        = min knn.option.k ((qualifying knn leftId rightId).length : Int) := by
      simp only [numNeighbors, hlen]
      split
      · rw [min_eq_right]; omega
      · rw [min_eq_left]; omega
    simp only [neighbors, hnum, hsorted]
    by_cases hk : knn.option.k < 0
    · have hneg : min knn.option.k ((qualifying knn leftId rightId).length : Int) < 0 :=
        lt_of_le_of_lt (min_le_left _ _) hk
      simp only [if_pos hneg, if_pos hk]
    · have hneg : ¬ min knn.option.k ((qualifying knn leftId rightId).length : Int) < 0 := by
        have : (0 : Int) ≤ min knn.option.k ((qualifying knn leftId rightId).length : Int) :=
          le_min (by omega) (by omega)
        omega
      simp only [if_neg hneg, if_neg hk]
      unfold selected
      cases aggregate knn leftId rightId
        (List.take (min knn.option.k ((qualifying knn leftId rightId).length : Int)).toNat
          (ranked S knn leftId rightId)) <;> rfl

theorem selected_lt {S : Sorter} {knn : KNN} {n m : Nat} {leftId rightId : Int}
    (h : InRange knn n m leftId rightId) :
    ∀ o ∈ selected S knn leftId rightId, o < n := by
  intro o ho
  rw [← h.ratings.1]
  exact qualifying_lt (selected_subset S knn leftId rightId ho)

/-- The value `Predict` returns on a query in range that passes the minimum-neighbours
check with a non-negative `k`: the quotient of the two accumulators plus the centering
term of the query entity. -/
theorem Predict_value (S : Sorter) {knn : KNN} {n m : Nat} (userId itemId : Int)
    (h : InRange knn n m (queryIds knn userId itemId).1 (queryIds knn userId itemId).2)
    (hc : Centered knn n)
    (hl : (queryIds knn userId itemId).1 ≠ knn.trainSet.noBody)
    (hr : (queryIds knn userId itemId).2 ≠ knn.trainSet.noBody)
    (hmin : knn.option.minK < ((qualifying knn (queryIds knn userId itemId).1
            (queryIds knn userId itemId).2).length : Int))
    (hk : 0 ≤ knn.option.k) :
    Predict S knn userId itemId =
      some (F64.add
        (F64.div
          ((selected S knn (queryIds knn userId itemId).1
              (queryIds knn userId itemId).2).foldl
            (stepRating knn (queryIds knn userId itemId).1 (queryIds knn userId itemId).2)
            (F64.fin 0))
          (weightSum knn (queryIds knn userId itemId).1
            (selected S knn (queryIds knn userId itemId).1 (queryIds knn userId itemId).2)))
        (centerOf knn (queryIds knn userId itemId).1.toNat)) := by
  rw [Predict_structure S userId itemId h hl hr, if_neg (by omega), if_neg (by omega),
    aggregate_spec h hc _ (selected_lt h)]
  simp only [Option.some_bind, finish_spec h hc]

/-! ## The fitted model -/

theorem cellBefore_final (sim : List F64 → List F64 → F64) (ratings : List (List F64))
    (n i j : Nat) (hi : i < n) (hj : j < n) :
    cellBefore sim ratings n 0 i j = pairSim sim ratings i j := by
  unfold cellBefore pairSim
  have v1 : visited n 0 (min i j) (max i j) := by unfold visited; omega
  have v2 : visited n 0 (max i j) (min i j) := by unfold visited; omega
  simp only [v1, v2, if_true]

/-- The similarity matrix of a fitted model, cell by cell. -/
theorem Fit_sims {bl : TrainSet → List OptionSetter → BaseLine} {knn0 knn : KNN}
    {ts : TrainSet} {opts : List OptionSetter} (hfit : Fit bl knn0 ts opts = some knn)
    (hrows : (fitRatings (applySetters opts) ts).length = entityCount (applySetters opts) ts) :
    shaped knn.sims (entityCount (applySetters opts) ts) (entityCount (applySetters opts) ts) ∧
    ∀ i j, i < entityCount (applySetters opts) ts → j < entityCount (applySetters opts) ts →
      cell knn.sims i j =
        pairSim (applySetters opts).sim (fitRatings (applySetters opts) ts) i j := by
  obtain ⟨_, _, _, _, _, _, _, st, hst, hsims⟩ := Fit_fields hfit
  obtain ⟨st', hst', hinv⟩ := fitState_spec ts opts hrows
  rw [hst] at hst'
  cases hst'
  rw [hsims]
  refine ⟨hinv.1, fun i j hi hj => ?_⟩
  rw [hinv.2.1 i j hi hj, cellBefore_final _ _ _ _ _ hi hj]

theorem Fit_queryIds {bl : TrainSet → List OptionSetter → BaseLine} {knn0 knn : KNN}
    {ts : TrainSet} {opts : List OptionSetter} (hfit : Fit bl knn0 ts opts = some knn)
    (userId itemId : Int) :
    queryIds knn userId itemId =
      if (applySetters opts).userBased then (ts.ConvertUserId userId, ts.ConvertItemId itemId)
      else (ts.ConvertItemId itemId, ts.ConvertUserId userId) := by
  obtain ⟨ho, _, _, _, hts, _⟩ := Fit_fields hfit
  simp only [queryIds, ho, hts]

theorem Fit_inRange {bl : TrainSet → List OptionSetter → BaseLine} {knn0 knn : KNN}
    {ts : TrainSet} {opts : List OptionSetter} (hfit : Fit bl knn0 ts opts = some knn)
    (hwf : WellFormed ts (applySetters opts)) (userId itemId : Int)
    (hl : (queryIds knn userId itemId).1 ≠ knn.trainSet.noBody)
    (hr : (queryIds knn userId itemId).2 ≠ knn.trainSet.noBody) :
    InRange knn (entityCount (applySetters opts) ts) (crossCount (applySetters opts) ts)
      (queryIds knn userId itemId).1 (queryIds knn userId itemId).2 := by
  obtain ⟨_, _, _, hrat, hts, _⟩ := Fit_fields hfit
  have hq := Fit_queryIds hfit userId itemId
  rw [hts] at hl hr
  have hu := hwf.userIds userId
  have hi := hwf.itemIds itemId
  have hranges : 0 ≤ (queryIds knn userId itemId).1 ∧
      (queryIds knn userId itemId).1 < entityCount (applySetters opts) ts ∧
      0 ≤ (queryIds knn userId itemId).2 ∧
      (queryIds knn userId itemId).2 < crossCount (applySetters opts) ts := by
    rw [hq] at hl hr ⊢
    unfold entityCount crossCount
    by_cases hb : (applySetters opts).userBased = true
    · simp only [hb, if_true] at hl hr ⊢
      rcases hu with hu | hu
      · exact absurd hu hl
      · rcases hi with hi | hi
        · exact absurd hi hr
        · exact ⟨hu.1, hu.2, hi.1, hi.2⟩
    · simp only [hb, if_false] at hl hr ⊢
      rcases hi with hi | hi
      · exact absurd hi hl
      · rcases hu with hu | hu
        · exact absurd hu hr
        · exact ⟨hi.1, hi.2, hu.1, hu.2⟩
  refine ⟨(Fit_sims hfit hwf.rows).1, ?_, hranges.1, ?_, hranges.2.2.1, ?_⟩
  · rw [hrat]; exact ⟨hwf.rows, hwf.cols⟩
  · have := hranges.2.1; omega
  · have := hranges.2.2.2; omega

theorem Fit_centered {bl : TrainSet → List OptionSetter → BaseLine} {knn0 knn : KNN}
    {ts : TrainSet} {opts : List OptionSetter} (hfit : Fit bl knn0 ts opts = some knn)
    (hrows : (fitRatings (applySetters opts) ts).length = entityCount (applySetters opts) ts)
    (hbias : knn0.tpe = baseline → BiasCovers bl ts opts) :
    Centered knn (entityCount (applySetters opts) ts) := by
  obtain ⟨_, htpe, _, _, _, hmeans, hb, _⟩ := Fit_fields hfit
  constructor
  · intro h
    rw [htpe] at h
    rw [hmeans h, List.length_map, hrows]
  · intro h
    rw [htpe] at h
    rw [hb h]
    exact hbias h

/-! ## Symmetry of the similarity matrix, without assumptions on the training set -/

theorem setCell_cell {m m' : List (List F64)} {i j : Nat} {v : F64}
    (h : setCell m i j v = some m') :
    ∀ a b, cell m' a b = if a = i ∧ b = j then v else cell m a b := by
  unfold setCell at h
  cases hrow : m[i]? with
  | none => simp [hrow] at h
  | some row =>
    simp only [hrow] at h
    by_cases hj : j < row.length
    · simp only [hj, if_true, Option.some.injEq] at h
      subst h
      have hi : i < m.length := (List.getElem?_eq_some.mp hrow).1
      intro a b
      simp only [cell, List.getD_eq_getElem?_getD, List.getElem?_set]
      by_cases hai : i = a
      · subst hai
        simp only [hi, if_true, Option.getD_some, List.getElem?_set, true_and, hrow]
        by_cases hbj : j = b
        · subst hbj; simp [hj]
        · have : ¬ b = j := fun h => hbj h.symm
          simp [hbj, this]
      · have : ¬ a = i := fun h => hai h.symm
        simp [hai, this]
    · simp [hj] at h

theorem foldlM_preserves {σ α : Type} (f : σ → α → Option σ) (P : σ → Prop)
    (hstep : ∀ s x s', P s → f s x = some s' → P s') (xs : List α) (s s' : σ)
    (h0 : P s) (h : xs.foldlM f s = some s') : P s' := by
  induction xs generalizing s with
  | nil =>
    simp only [List.foldlM_nil] at h
    cases h
    exact h0
  | cons x xs ih =>
    simp only [List.foldlM_cons] at h
    cases hx : f s x with
    | none => simp [hx] at h
    | some s1 =>
      simp only [hx, Option.bind_eq_bind, Option.some_bind] at h
      exact ih s1 (hstep s x s1 h0 hx) h

theorem fitCell_symmetric (sim : List F64 → List F64 → F64) (l : Nat) (lr : List F64)
    (st : FitState) (right : Nat × List F64) (st' : FitState)
    (hs : symmetric st.sims) (h : fitCell sim l lr st right = some st') :
    symmetric st'.sims := by
  unfold fitCell at h
  by_cases hlr : l ≠ right.1
  · rw [if_pos hlr] at h
    cases hc : (st.sims[l]?).bind (fun row => row[right.1]?) with
    | none => simp [hc] at h
    | some c =>
      simp only [hc] at h
      by_cases hnan : c.isNaN = true
      · simp only [hnan, if_true] at h
        by_cases hret : (sim lr right.2).isNaN = true
        · simp only [hret, Bool.not_true, Bool.false_eq_true, if_false,
            Option.some.injEq] at h
          subst h
          exact hs
        · simp only [hret, Bool.not_false, if_true] at h
          cases h1 : setCell st.sims l right.1 (sim lr right.2) with
          | none => simp [h1] at h
          | some s1 =>
            simp only [h1] at h
            cases h2 : setCell s1 right.1 l (sim lr right.2) with
            | none => simp [h2] at h
            | some s2 =>
              simp only [h2, Option.some.injEq] at h
              subst h
              intro i j
              simp only [setCell_cell h2, setCell_cell h1]
              have hij := hs i j
              split_ifs <;> first | rfl | exact hij | (exfalso; omega)
      · simp only [hnan, Bool.false_eq_true, if_false, Option.some.injEq] at h
        subst h
        exact hs
  · rw [if_neg hlr] at h
    simp only [Option.some.injEq] at h
    subst h
    exact hs

theorem fitSims_symmetric (sim : List F64 → List F64 → F64) (ratings sims : List (List F64))
    (st : FitState) (hs : symmetric sims) (h : fitSims sim ratings sims = some st) :
    symmetric st.sims := by
  unfold fitSims at h
  refine foldlM_preserves (fitRow sim ratings) (fun s => symmetric s.sims) ?_ _ _ _ hs h
  intro s left s' hs' hrow
  unfold fitRow at hrow
  exact foldlM_preserves (fitCell sim left.1 left.2) (fun s => symmetric s.sims)
    (fun t x t' ht hx => fitCell_symmetric sim left.1 left.2 t x t' ht hx) _ _ _ hs' hrow

theorem fitNanSims_symmetric (o : KnnOption) (ts : TrainSet) :
    symmetric (fitNanSims o ts) := by
  intro i j
  rw [fitNanSims_eq, newNanMatrix_cell, newNanMatrix_cell]

/-! ## Sums with an infinite similarity -/

namespace F64

theorem finite_of_add {a b : F64} (h : (add a b).isFinite = true) :
    a.isFinite = true ∧ b.isFinite = true := by
  cases a <;> cases b <;> simp_all [add, isFinite]

theorem finite_of_sub {a b : F64} (h : (sub a b).isFinite = true) :
    a.isFinite = true ∧ b.isFinite = true := by
  cases a <;> cases b <;> simp_all [sub, add, neg, isFinite]

theorem finite_of_mul {a b : F64} (h : (mul a b).isFinite = true) :
    a.isFinite = true := by
  cases a <;> cases b <;> simp_all [mul, isFinite, infTimes] <;> split_ifs at h

theorem div_of_not_finite {a b : F64} (ha : a.isFinite = false) (hb : b.isFinite = false) :
    div a b = nan := by
  cases a <;> cases b <;> simp_all [div, isFinite]

theorem not_finite_add_left {a : F64} (b : F64) (ha : a.isFinite = false) :
    (add a b).isFinite = false := by
  cases a <;> cases b <;> simp_all [add, isFinite]

theorem not_finite_div_zero (a : F64) : (div a (fin 0)).isFinite = false := by
  cases a <;> simp [div, isFinite, infTimes]
  split_ifs <;> simp

end F64

theorem finite_of_foldl_stepRating (knn : KNN) (leftId rightId : Int) (sel : List Nat)
    (acc : F64)
    (h : (sel.foldl (stepRating knn leftId rightId) acc).isFinite = true) :
    ∀ o ∈ sel, (simOf knn leftId o).isFinite = true := by
  induction sel generalizing acc with
  | nil => simp
  | cons o os ih =>
    simp only [List.foldl_cons] at h
    intro x hx
    rcases List.mem_cons.mp hx with rfl | hx
    · have hacc : (stepRating knn leftId rightId acc x).isFinite = true := by
        cases hf : (stepRating knn leftId rightId acc x).isFinite with
        | true => rfl
        | false =>
          exfalso
          have hnf : ∀ (l : List Nat) (a : F64), a.isFinite = false →
              (l.foldl (stepRating knn leftId rightId) a).isFinite = false := by
            intro l
            induction l with
            | nil => intro a ha; simpa using ha
            | cons y ys ihy =>
              intro a ha
              simp only [List.foldl_cons]
              apply ihy
              unfold stepRating
              split
              · cases hq : (F64.sub (F64.add a (F64.mul (simOf knn leftId y)
                    (ratingOf knn y rightId)))
                    (F64.mul (simOf knn leftId y) (knn.means.getD y F64.nan))).isFinite with
                | false => rfl
                | true =>
                  have := (F64.finite_of_add (F64.finite_of_sub hq).1).1
                  rw [ha] at this; cases this
              · split
                · cases hq : (F64.sub (F64.add a (F64.mul (simOf knn leftId y)
                      (ratingOf knn y rightId)))
                      (F64.mul (simOf knn leftId y) (knn.bias.getD y F64.nan))).isFinite with
                  | false => rfl
                  | true =>
                    have := (F64.finite_of_add (F64.finite_of_sub hq).1).1
                    rw [ha] at this; cases this
                · cases hq : (F64.add a (F64.mul (simOf knn leftId y)
                      (ratingOf knn y rightId))).isFinite with
                  | false => rfl
                  | true =>
                    have := (F64.finite_of_add hq).1
                    rw [ha] at this; cases this
          rw [hnf os _ hf] at h
          cases h
      unfold stepRating at hacc
      split at hacc
      · exact F64.finite_of_mul (F64.finite_of_add (F64.finite_of_sub hacc).1).2
      · split at hacc
        · exact F64.finite_of_mul (F64.finite_of_add (F64.finite_of_sub hacc).1).2
        · exact F64.finite_of_mul (F64.finite_of_add hacc).2
    · exact ih _ h x hx

/-- The accumulated `weightRating` over the quotient's denominator equals the claimed
quotient of sums, whatever the similarities are. -/
theorem quotient_eq (knn : KNN) (leftId rightId : Int) (sel : List Nat) :
    F64.div (sel.foldl (stepRating knn leftId rightId) (F64.fin 0))
        (weightSum knn leftId sel) =
      F64.div (weightedRating knn leftId rightId sel) (weightSum knn leftId sel) := by
  by_cases hall : ∀ o ∈ sel, (simOf knn leftId o).isFinite = true
  · rw [foldl_stepRating_of_finite knn leftId rightId sel hall]
    rfl
  · have h1 : (sel.foldl (stepRating knn leftId rightId) (F64.fin 0)).isFinite = false := by
      cases hf : (sel.foldl (stepRating knn leftId rightId) (F64.fin 0)).isFinite with
      | false => rfl
      | true => exact absurd (finite_of_foldl_stepRating knn leftId rightId sel _ hf) hall
    have h2 : (weightSum knn leftId sel).isFinite = false := by
      cases hf : (weightSum knn leftId sel).isFinite with
      | false => rfl
      | true =>
        exfalso
        apply hall
        cases hw : weightSum knn leftId sel with
        | fin w =>
          intro o ho
          exact F64.finite_of_sum _ w hw _ (List.mem_map_of_mem _ ho)
        | nan => rw [hw] at hf; cases hf
        | pinf => rw [hw] at hf; cases hf
        | ninf => rw [hw] at hf; cases hf
    have h3 : (weightedRating knn leftId rightId sel).isFinite = false := by
      cases hf : (weightedRating knn leftId rightId sel).isFinite with
      | false => rfl
      | true =>
        exfalso
        apply hall
        cases hw : weightedRating knn leftId rightId sel with
        | fin w =>
          intro o ho
          have := F64.finite_of_sum _ w hw _
            (List.mem_map_of_mem (fun o => F64.mul (simOf knn leftId o)
              (F64.sub (ratingOf knn o rightId) (centerOf knn o))) ho)
          exact F64.finite_of_mul this
        | nan => rw [hw] at hf; cases hf
        | pinf => rw [hw] at hf; cases hf
        | ninf => rw [hw] at hf; cases hf
    rw [F64.div_of_not_finite h1 h2, F64.div_of_not_finite h3 h2]

/-! ## The example data is well formed -/

theorem trainSetOf_wellFormed (users items : List (List F64)) (mean : ℚ) (o : KnnOption)
    (hu : ∀ row ∈ users, row.length = items.length)
    (hi : ∀ row ∈ items, row.length = users.length) :
    WellFormed (trainSetOf users items mean) o := by
  refine ⟨?_, ?_, ?_, ?_⟩
  · unfold fitRatings entityCount trainSetOf
    split <;> rfl
  · unfold fitRatings crossCount trainSetOf
    split
    · exact hu
    · exact hi
  · intro u
    simp only [trainSetOf]
    split
    · right; assumption
    · left; rfl
  · intro i
    simp only [trainSetOf]
    split
    · right; assumption
    · left; rfl

theorem Fit_fitted {bl : TrainSet → List OptionSetter → BaseLine} {knn0 : KNN}
    {ts : TrainSet} {opts : List OptionSetter}
    (h : (Fit bl knn0 ts opts).isSome = true) :
    Fit bl knn0 ts opts = some (fitted bl knn0 ts opts) := by
  unfold fitted
  cases hf : Fit bl knn0 ts opts with
  | none => rw [hf] at h; cases h
  | some k => rfl

theorem Fit_known {bl : TrainSet → List OptionSetter → BaseLine} {knn0 knn : KNN}
    {ts : TrainSet} {opts : List OptionSetter} (hfit : Fit bl knn0 ts opts = some knn)
    {userId itemId : Int} (hu : ts.ConvertUserId userId ≠ ts.noBody)
    (hi : ts.ConvertItemId itemId ≠ ts.noBody) :
    (queryIds knn userId itemId).1 ≠ knn.trainSet.noBody ∧
    (queryIds knn userId itemId).2 ≠ knn.trainSet.noBody := by
  obtain ⟨_, _, _, _, hts, _⟩ := Fit_fields hfit
  rw [Fit_queryIds hfit, hts]
  split
  · exact ⟨hu, hi⟩
  · exact ⟨hi, hu⟩

/-! ## The visit order of the pairwise pass -/

theorem mem_pairsBefore_all (n i j : Nat) :
    (i, j) ∈ pairsBefore n n 0 ↔ i < n ∧ j < n := by
  simp [pairsBefore, List.mem_flatMap, List.mem_map, List.mem_range]

theorem pairsBefore_all_nodup (n : Nat) : (pairsBefore n n 0).Nodup := by
  have h : pairsBefore n n 0 = (List.range n).product (List.range n) := by
    simp [pairsBefore, List.product]
  rw [h]
  exact (List.nodup_range n).product (List.nodup_range n)

/-! ## Means -/

theorem meanOf_foldl (row : List F64) (a : F64) (c : Nat) :
    row.foldl
      (fun (acc : F64 × F64) r =>
        if !r.isNaN then (F64.add acc.1 r, F64.add acc.2 (F64.fin 1)) else acc)
      (a, F64.fin c) =
    ((present row).foldl F64.add a, F64.fin ((c + (present row).length : Nat) : ℚ)) := by
  induction row generalizing a c with
  | nil => simp [present]
  | cons r rs ih =>
    simp only [List.foldl_cons]
    by_cases hr : r.isNaN = true
    · have : present (r :: rs) = present rs := by simp [present, hr]
      simp only [hr, Bool.not_true, Bool.false_eq_true, if_false, this]
      exact ih a c
    · have hp : present (r :: rs) = r :: present rs := by simp [present, hr]
      have hstep : F64.add (F64.fin c) (F64.fin 1) = F64.fin ((c + 1 : Nat) : ℚ) := by
        simp [F64.add]
      simp only [hr, Bool.not_false, if_true, hp, List.foldl_cons, List.length_cons, hstep]
      rw [ih (F64.add a r) (c + 1)]
      congr 3
      omega

/-- The mean `Fit` stores for a row: the sum of its non-missing ratings over their count. -/
theorem meanOf_eq (row : List F64) :
    meanOf row = F64.div (F64.sum (present row)) (F64.fin ((present row).length : ℚ)) := by
  unfold meanOf
  have h := meanOf_foldl row (F64.fin 0) 0
  simp only [Nat.cast_zero, Nat.zero_add] at h
  simp only [h]
  rfl

theorem meanOf_of_no_rating (row : List F64) (h : (present row).length = 0) :
    meanOf row = F64.nan := by
  rw [meanOf_eq]
  have : present row = [] := List.length_eq_zero.mp h
  rw [this]
  simp [F64.sum, F64.div, F64.infTimes]

/-! ## Bounds -/

theorem Predict_unknown (S : Sorter) (knn : KNN) (userId itemId : Int)
    (h : (queryIds knn userId itemId).1 = knn.trainSet.noBody ∨
      (queryIds knn userId itemId).2 = knn.trainSet.noBody) :
    Predict S knn userId itemId = some knn.globalMean := by
  unfold Predict
  rw [if_pos h]

/-! ## Sums of similarities of one sign -/

namespace F64

theorem pos_add {a b : F64} (ha : ge a (fin 0) = true) (hb : gt b (fin 0) = true) :
    gt (add a b) (fin 0) = true := by
  cases a <;> cases b <;> simp_all [ge, gt, add]
  linarith

theorem pos_foldl_add (l : List F64) (a : F64) (ha : gt a (fin 0) = true)
    (h : ∀ x ∈ l, gt x (fin 0) = true) : gt (l.foldl add a) (fin 0) = true := by
  induction l generalizing a with
  | nil => simpa using ha
  | cons x xs ih =>
    simp only [List.foldl_cons]
    refine ih _ (pos_add ?_ (h x (List.mem_cons_self _ _)))
      (fun y hy => h y (List.mem_cons_of_mem _ hy))
    cases a <;> simp_all [ge, gt]
    exact le_of_lt ha

/-- A non-empty sum of strictly positive values is strictly positive. -/
theorem pos_sum (l : List F64) (hne : l ≠ []) (h : ∀ x ∈ l, gt x (fin 0) = true) :
    gt (sum l) (fin 0) = true := by
  cases l with
  | nil => exact absurd rfl hne
  | cons x xs =>
    unfold sum
    simp only [List.foldl_cons]
    refine pos_foldl_add xs _ (pos_add (by simp [ge]) (h x (List.mem_cons_self _ _)))
      (fun y hy => h y (List.mem_cons_of_mem _ hy))

theorem ne_zero_of_pos {a : F64} (h : gt a (fin 0) = true) : a ≠ fin 0 := by
  intro h0
  rw [h0] at h
  simp [gt] at h

/-- A sum of non-negative values that starts at `a` and ends at `a` has only zero
summands. -/
theorem zero_of_foldl_nonneg (l : List F64) (a b : ℚ)
    (h : ∀ x ∈ l, ge x (fin 0) = true) (hsum : l.foldl add (fin a) = fin b) :
    a ≤ b ∧ (b = a → ∀ x ∈ l, x = fin 0) := by
  induction l generalizing a with
  | nil =>
    simp only [List.foldl_nil, fin.injEq] at hsum
    subst hsum
    exact ⟨le_refl _, fun _ x hx => by simp at hx⟩
  | cons x xs ih =>
    simp only [List.foldl_cons] at hsum
    have hfin := (finite_of_foldl_add xs _ b hsum).1
    have hx := h x (List.mem_cons_self _ _)
    cases x with
    | fin q =>
      have hq : 0 ≤ q := by simpa [ge] using hx
      have hadd : add (fin a) (fin q) = fin (a + q) := rfl
      rw [hadd] at hsum
      obtain ⟨h1, h2⟩ := ih (a + q) (fun y hy => h y (List.mem_cons_of_mem _ hy)) hsum
      refine ⟨by linarith, ?_⟩
      intro hba y hy
      have hq0 : q = 0 := by linarith
      rcases List.mem_cons.mp hy with rfl | hy
      · rw [hq0]
      · exact h2 (by rw [hba, hq0, add_zero]) y hy
    | nan => simp [add, isFinite] at hfin
    | pinf => simp [add, isFinite] at hfin
    | ninf => simp [add, isFinite] at hfin

theorem zero_of_sum_nonneg (l : List F64) (h : ∀ x ∈ l, ge x (fin 0) = true)
    (hsum : sum l = fin 0) : ∀ x ∈ l, x = fin 0 :=
  (zero_of_foldl_nonneg l 0 0 h hsum).2 rfl

theorem neg_neg (a : F64) : neg (neg a) = a := by
  cases a <;> simp [neg]

theorem neg_add (a b : F64) : neg (add a b) = add (neg a) (neg b) := by
  cases a <;> cases b <;> simp [neg, add]
  ring

theorem neg_foldl_add (l : List F64) (a : F64) :
    neg (l.foldl add a) = (l.map neg).foldl add (neg a) := by
  induction l generalizing a with
  | nil => rfl
  | cons x xs ih => simp only [List.foldl_cons, List.map_cons, ih, neg_add]

theorem zero_of_sum_nonpos (l : List F64) (h : ∀ x ∈ l, ge (fin 0) x = true)
    (hsum : sum l = fin 0) : ∀ x ∈ l, x = fin 0 := by
  have hneg : sum (l.map neg) = fin 0 := by
    have := neg_foldl_add l (fin 0)
    unfold sum at hsum ⊢
    rw [hsum] at this
    simpa [neg] using this.symm
  have hall := zero_of_sum_nonneg (l.map neg) (by
    intro y hy
    obtain ⟨x, hx, rfl⟩ := List.mem_map.mp hy
    have := h x hx
    cases x <;> simp_all [ge, neg]) hneg
  intro x hx
  have := hall (neg x) (List.mem_map_of_mem _ hx)
  have h2 : neg (neg x) = neg (fin 0) := by rw [this]
  rw [neg_neg] at h2
  simpa [neg] using h2

end F64

/-! ## Similarities of a fitted model are values of the similarity function -/

theorem pairSim_cases (sim : List F64 → List F64 → F64) (ratings : List (List F64))
    (i j : Nat) :
    pairSim sim ratings i j = F64.nan ∨
    pairSim sim ratings i j = sim (ratings.getD (min i j) []) (ratings.getD (max i j) []) ∨
    pairSim sim ratings i j = sim (ratings.getD (max i j) []) (ratings.getD (min i j) []) := by
  unfold pairSim
  split
  · exact Or.inl rfl
  · split
    · exact Or.inr (Or.inr rfl)
    · exact Or.inr (Or.inl rfl)

/-- A property that holds of every defined similarity between two rating rows holds of
every defined cell of the similarity matrix of a fitted model. -/
theorem Fit_sims_property {bl : TrainSet → List OptionSetter → BaseLine} {knn0 knn : KNN}
    {ts : TrainSet} {opts : List OptionSetter} (hfit : Fit bl knn0 ts opts = some knn)
    (hrows : (fitRatings (applySetters opts) ts).length = entityCount (applySetters opts) ts)
    (P : F64 → Prop)
    (hP : ∀ i, i < entityCount (applySetters opts) ts →
      ∀ j, j < entityCount (applySetters opts) ts →
      ((applySetters opts).sim ((fitRatings (applySetters opts) ts).getD i [])
          ((fitRatings (applySetters opts) ts).getD j [])).isNaN = true ∨
        P ((applySetters opts).sim ((fitRatings (applySetters opts) ts).getD i [])
          ((fitRatings (applySetters opts) ts).getD j [])))
    (i j : Nat) (hi : i < entityCount (applySetters opts) ts)
    (hj : j < entityCount (applySetters opts) ts)
    (hdef : (cell knn.sims i j).isNaN = false) : P (cell knn.sims i j) := by
  have hcell := (Fit_sims hfit hrows).2 i j hi hj
  have hmin : min i j < entityCount (applySetters opts) ts := by omega
  have hmax : max i j < entityCount (applySetters opts) ts := by omega
  rcases pairSim_cases (applySetters opts).sim (fitRatings (applySetters opts) ts) i j
    with h | h | h
  · rw [hcell, h] at hdef; cases hdef
  · rw [hcell, h] at hdef ⊢
    rcases hP _ hmin _ hmax with h' | h'
    · rw [h'] at hdef; cases hdef
    · exact h'
  · rw [hcell, h] at hdef ⊢
    rcases hP _ hmax _ hmin with h' | h'
    · rw [h'] at hdef; cases hdef
    · exact h'

theorem selected_ne_nil (S : Sorter) (knn : KNN) (leftId rightId : Int)
    (hk : 1 ≤ knn.option.k) (hcount : 0 < (qualifying knn leftId rightId).length) :
    selected S knn leftId rightId ≠ [] := by
  intro h
  have hlen := congrArg List.length h
  unfold selected at hlen
  rw [List.length_take, (ranked_perm S knn leftId rightId).length_eq] at hlen
  simp only [List.length_nil] at hlen
  have : (1 : Int) ≤ min knn.option.k ((qualifying knn leftId rightId).length : Int) :=
    le_min hk (by omega)
  omega

/-! ## The accumulators of the aggregation loop -/

/-- The two accumulators the aggregation loop of `Predict` ends with. -/
theorem aggregate_weightRating {knn : KNN} {n m : Nat} {leftId rightId : Int}
    (h : InRange knn n m leftId rightId) (hc : Centered knn n) (sel : List Nat)
    (hsel : ∀ o ∈ sel, o < n) :
    aggregate knn leftId rightId sel =
      some (weightSum knn leftId sel, weightRating knn leftId rightId sel) :=
  aggregate_spec h hc sel hsel

/-- The value of `Predict` in terms of its two accumulators: `weightRating / weightSum`
plus the centering term of the query entity. -/
theorem Predict_weightRating (S : Sorter) {knn : KNN} {n m : Nat} (userId itemId : Int)
    (h : InRange knn n m (queryIds knn userId itemId).1 (queryIds knn userId itemId).2)
    (hc : Centered knn n)
    (hl : (queryIds knn userId itemId).1 ≠ knn.trainSet.noBody)
    (hr : (queryIds knn userId itemId).2 ≠ knn.trainSet.noBody)
    (hmin : knn.option.minK < ((qualifying knn (queryIds knn userId itemId).1
            (queryIds knn userId itemId).2).length : Int))
    (hk : 0 ≤ knn.option.k) :
    Predict S knn userId itemId =
      some (F64.add
        (F64.div
          (weightRating knn (queryIds knn userId itemId).1 (queryIds knn userId itemId).2
            (selected S knn (queryIds knn userId itemId).1 (queryIds knn userId itemId).2))
          (weightSum knn (queryIds knn userId itemId).1
            (selected S knn (queryIds knn userId itemId).1 (queryIds knn userId itemId).2)))
        (centerOf knn (queryIds knn userId itemId).1.toNat)) :=
  Predict_value S userId itemId h hc hl hr hmin hk

theorem foldl_congr_mem {β α : Type} (f g : β → α → β) (l : List α)
    (h : ∀ x ∈ l, ∀ b, f b x = g b x) (b : β) : l.foldl f b = l.foldl g b := by
  induction l generalizing b with
  | nil => rfl
  | cons x xs ih =>
    simp only [List.foldl_cons, h x (List.mem_cons_self _ _)]
    exact ih (fun y hy => h y (List.mem_cons_of_mem _ hy)) _

/-! ## The centered and baseline variants as the basic variant on centered ratings -/

theorem centerRatings_cell (knn : KNN) (o j : Nat) :
    cell (centerRatings knn) o j =
      if (cell knn.ratings o j).isNaN then cell knn.ratings o j
      else F64.sub (cell knn.ratings o j) (centerOf knn o) := by
  simp only [cell, centerRatings, List.getD_eq_getElem?_getD, List.getElem?_map,
    List.getElem?_enum]
  cases knn.ratings[o]? with
  | none => simp [F64.isNaN]
  | some row =>
    simp only [Option.map_some', Option.getD_some, List.getElem?_map]
    cases row[j]? with
    | none => simp [F64.isNaN]
    | some r => simp

theorem centerRatings_shaped {knn : KNN} {n m : Nat} (h : shaped knn.ratings n m) :
    shaped (centerRatings knn) n m := by
  constructor
  · simp [centerRatings, h.1]
  · intro row hrow
    simp only [centerRatings, List.mem_map] at hrow
    obtain ⟨p, hp, rfl⟩ := hrow
    rw [List.length_map]
    exact h.2 _ (List.mem_iff_get.mpr (by
      obtain ⟨i, hi⟩ := List.mem_iff_get.mp hp
      refine ⟨⟨i.1, by simpa using i.2⟩, ?_⟩
      rw [← hi]
      simp))

theorem F64.sub_isNaN_of_finite {r c : F64} (hr : r.isNaN = false) (hc : c.isFinite = true) :
    (F64.sub r c).isNaN = false := by
  cases r <;> cases c <;> simp_all [F64.sub, F64.add, F64.neg, F64.isNaN, F64.isFinite]

theorem basicOn_ratingOf (knn : KNN) (o : Nat) (rightId : Int) :
    ratingOf (basicOn knn) o rightId =
      if (ratingOf knn o rightId).isNaN then ratingOf knn o rightId
      else F64.sub (ratingOf knn o rightId) (centerOf knn o) :=
  centerRatings_cell knn o rightId.toNat

theorem basicOn_centerOf (knn : KNN) (o : Nat) : centerOf (basicOn knn) o = F64.fin 0 := by
  simp [centerOf, basicOn, basic, centered, baseline]

theorem basicOn_qualifying (knn : KNN) (leftId rightId : Int)
    (hcand : ∀ o ∈ qualifying knn leftId rightId, (centerOf knn o).isFinite = true) :
    qualifying (basicOn knn) leftId rightId = qualifying knn leftId rightId := by
  have hlen : (basicOn knn).ratings.length = knn.ratings.length := by
    simp [basicOn, centerRatings]
  unfold qualifying
  rw [hlen]
  apply List.filter_congr
  intro o ho
  have hsim : simOf (basicOn knn) leftId o = simOf knn leftId o := rfl
  rw [hsim, basicOn_ratingOf]
  by_cases hr : (ratingOf knn o rightId).isNaN = true
  · simp [hr]
  · have hr2 : (ratingOf knn o rightId).isNaN = false := by simpa using hr
    by_cases hs : (simOf knn leftId o).isNaN = true
    · simp [hs]
    · have hs2 : (simOf knn leftId o).isNaN = false := by simpa using hs
      have hmem : o ∈ qualifying knn leftId rightId :=
        mem_qualifying.mpr ⟨List.mem_range.mp ho, hr2, hs2⟩
      simp [hr2, hs2, F64.sub_isNaN_of_finite hr2 (hcand o hmem)]

theorem basicOn_selected (S : Sorter) (knn : KNN) (leftId rightId : Int)
    (hcand : ∀ o ∈ qualifying knn leftId rightId, (centerOf knn o).isFinite = true) :
    selected S (basicOn knn) leftId rightId = selected S knn leftId rightId := by
  unfold selected ranked
  rw [basicOn_qualifying knn leftId rightId hcand]
  rfl

theorem basicOn_weightRating (knn : KNN) (leftId rightId : Int) (sel : List Nat)
    (hsel : ∀ o ∈ sel, (ratingOf knn o rightId).isNaN = false) :
    weightRating (basicOn knn) leftId rightId sel =
      weightRatingCentered knn leftId rightId sel := by
  unfold weightRating weightRatingCentered
  apply foldl_congr_mem
  intro o ho acc
  have hsim : simOf (basicOn knn) leftId o = simOf knn leftId o := rfl
  have htpe : (basicOn knn).tpe = basic := rfl
  unfold stepRating
  rw [htpe, if_neg (by decide), if_neg (by decide), hsim, basicOn_ratingOf, hsel o ho]
  rfl

theorem basicOn_inRange {knn : KNN} {n m : Nat} {leftId rightId : Int}
    (h : InRange knn n m leftId rightId) : InRange (basicOn knn) n m leftId rightId :=
  { sims := h.sims, ratings := centerRatings_shaped h.ratings, left0 := h.left0,
    leftN := h.leftN, right0 := h.right0, rightM := h.rightM }

/-- On a query in range that passes the minimum-neighbours check, where the centering
terms of the candidates are numbers: what the basic variant on the centered ratings
returns, and what the model itself returns. -/
theorem Predict_basicOn (S : Sorter) {knn : KNN} {n m : Nat} (userId itemId : Int)
    (h : InRange knn n m (queryIds knn userId itemId).1 (queryIds knn userId itemId).2)
    (hc : Centered knn n)
    (hl : (queryIds knn userId itemId).1 ≠ knn.trainSet.noBody)
    (hr : (queryIds knn userId itemId).2 ≠ knn.trainSet.noBody)
    (hmin : knn.option.minK < ((qualifying knn (queryIds knn userId itemId).1
            (queryIds knn userId itemId).2).length : Int))
    (hk : 0 ≤ knn.option.k)
    (hcand : ∀ o ∈ qualifying knn (queryIds knn userId itemId).1
      (queryIds knn userId itemId).2, (centerOf knn o).isFinite = true) :
    Predict S (basicOn knn) userId itemId =
      some (F64.div
        (weightRatingCentered knn (queryIds knn userId itemId).1
          (queryIds knn userId itemId).2
          (selected S knn (queryIds knn userId itemId).1 (queryIds knn userId itemId).2))
        (weightSum knn (queryIds knn userId itemId).1
          (selected S knn (queryIds knn userId itemId).1 (queryIds knn userId itemId).2))) ∧
    Predict S knn userId itemId =
      some (F64.add (F64.div
        (weightRating knn (queryIds knn userId itemId).1
          (queryIds knn userId itemId).2
          (selected S knn (queryIds knn userId itemId).1 (queryIds knn userId itemId).2))
        (weightSum knn (queryIds knn userId itemId).1
          (selected S knn (queryIds knn userId itemId).1 (queryIds knn userId itemId).2)))
        (centerOf knn (queryIds knn userId itemId).1.toNat)) := by
  have hq : queryIds (basicOn knn) userId itemId = queryIds knn userId itemId := rfl
  have hcB : Centered (basicOn knn) n :=
    ⟨fun h => absurd (show basic = centered from h) (by decide),
      fun h => absurd (show basic = baseline from h) (by decide)⟩
  have hB := @Predict_weightRating S (basicOn knn) n m userId itemId
    (by rw [hq]; exact basicOn_inRange h) hcB hl hr
    (by rw [hq, basicOn_qualifying _ _ _ hcand]; exact hmin) hk
  have hK := Predict_weightRating S userId itemId h hc hl hr hmin hk
  rw [hq, basicOn_selected S knn _ _ hcand, basicOn_centerOf, F64.addZero] at hB
  have hw := basicOn_weightRating knn (queryIds knn userId itemId).1
    (queryIds knn userId itemId).2
    (selected S knn (queryIds knn userId itemId).1 (queryIds knn userId itemId).2)
    (fun o ho => (mem_qualifying.mp (selected_subset S knn _ _ ho)).2.1)
  rw [hw] at hB
  exact ⟨hB, hK⟩

/-! ## Orientation -/

theorem applySetters_append (opts : List OptionSetter) (last : OptionSetter) :
    applySetters (opts ++ [last]) = last (applySetters opts) := by
  simp [applySetters, List.foldl_append]

/-- What `Predict` reads of a model: two models that agree on it predict the same. -/
theorem Predict_congr (S : Sorter) (knn knn' : KNN) (userId itemId userId' itemId' : Int)
    (hq : queryIds knn userId itemId = queryIds knn' userId' itemId')
    (hnb : knn.trainSet.noBody = knn'.trainSet.noBody)
    (hgm : knn.globalMean = knn'.globalMean)
    (hr : knn.ratings = knn'.ratings) (hs : knn.sims = knn'.sims)
    (hmin : knn.option.minK = knn'.option.minK) (hk : knn.option.k = knn'.option.k)
    (htpe : knn.tpe = knn'.tpe) (hmeans : knn.means = knn'.means)
    (hbias : knn.bias = knn'.bias) :
    Predict S knn userId itemId = Predict S knn' userId' itemId' := by
  have hcand : ∀ l r, findCandidates knn l r = findCandidates knn' l r := by
    intro l r
    unfold findCandidates
    rw [hr]
    congr 1
    funext c o
    simp only [candidateStep, hr, hs]
  have hnei : ∀ cs, neighbors knn cs = neighbors knn' cs := by
    intro cs
    simp only [neighbors, numNeighbors, hk]
  have hagg : ∀ l r sel, aggregate knn l r sel = aggregate knn' l r sel := by
    intro l r sel
    unfold aggregate
    congr 1
    funext acc o
    simp only [aggStep, hr, hs, htpe, hmeans, hbias]
  have hfin : ∀ l acc, finish knn l acc = finish knn' l acc := by
    intro l acc
    simp only [finish, htpe, hmeans, hbias]
  unfold Predict
  simp only [hq, hnb, hgm, hcand, hs, hmin, hnei, hagg, hfin]

theorem fitState_transpose (ts : TrainSet) (opts : List OptionSetter) :
    fitState ts (opts ++ [setUserBased false]) =
      fitState (transposeSet ts) (opts ++ [setUserBased true]) := by
  simp [fitState, applySetters_append, setUserBased, fitRatings, fitNanSims, transposeSet]

/-! ## The diagonal of the similarity matrix -/

theorem insertSorted_congr (less less' : Nat → Nat → Bool) (x : Nat) (l : List Nat)
    (h : ∀ y ∈ l, less x y = less' x y) : insertSorted less x l = insertSorted less' x l := by
  induction l with
  | nil => rfl
  | cons y ys ih =>
    unfold insertSorted
    rw [h y (List.mem_cons_self _ _), ih (fun z hz => h z (List.mem_cons_of_mem _ hz))]

theorem insertionSort_foldl_congr (less less' : Nat → Nat → Bool) (u : List Nat)
    (h : ∀ a ∈ u, ∀ b ∈ u, less a b = less' a b) (l acc : List Nat)
    (hl : ∀ a ∈ l, a ∈ u) (hacc : ∀ a ∈ acc, a ∈ u) :
    l.foldl (fun acc x => insertSorted less x acc) acc =
      l.foldl (fun acc x => insertSorted less' x acc) acc := by
  induction l generalizing acc with
  | nil => rfl
  | cons x xs ih =>
    simp only [List.foldl_cons]
    have hx : x ∈ u := hl x (List.mem_cons_self _ _)
    rw [insertSorted_congr less less' x acc (fun y hy => h x hx y (hacc y hy))]
    refine ih _ (fun a ha => hl a (List.mem_cons_of_mem _ ha)) ?_
    intro a ha
    rcases List.mem_cons.mp ((insertSorted_perm less' x acc).subset ha) with rfl | ha
    · exact hx
    · exact hacc a ha

theorem insertionSorter_comparesOnlyInput : insertionSorter.ComparesOnlyInput := by
  intro less less' l h
  exact insertionSort_foldl_congr less less' l h l [] (fun _ ha => ha) (by simp)

theorem foldlM_rel {σ α : Type} (f : σ → α → Option σ) (R : σ → σ → Prop) (xs : List α)
    (hstep : ∀ x ∈ xs, ∀ s s', R s s' → ∃ t t', f s x = some t ∧ f s' x = some t' ∧ R t t')
    (s s' : σ) (h0 : R s s') :
    ∃ t t', xs.foldlM f s = some t ∧ xs.foldlM f s' = some t' ∧ R t t' := by
  induction xs generalizing s s' with
  | nil => exact ⟨s, s', rfl, rfl, h0⟩
  | cons x xs ih =>
    obtain ⟨t, t', ht, ht', hR⟩ := hstep x (List.mem_cons_self _ _) s s' h0
    obtain ⟨r, r', hr, hr', hR2⟩ :=
      ih (fun y hy => hstep y (List.mem_cons_of_mem _ hy)) t t' hR
    refine ⟨r, r', ?_, ?_, hR2⟩
    · simp only [List.foldlM_cons, ht, Option.bind_eq_bind, Option.some_bind]
      exact hr
    · simp only [List.foldlM_cons, ht', Option.bind_eq_bind, Option.some_bind]
      exact hr'

theorem foldlM_congr_mem {σ α : Type} (f g : σ → α → Option σ) (xs : List α)
    (h : ∀ x ∈ xs, ∀ s, f s x = g s x) (s : σ) : xs.foldlM f s = xs.foldlM g s := by
  induction xs generalizing s with
  | nil => rfl
  | cons x xs ih =>
    simp only [List.foldlM_cons, h x (List.mem_cons_self _ _)]
    cases g s x with
    | none => rfl
    | some t => exact ih (fun y hy => h y (List.mem_cons_of_mem _ hy)) t

/-- One step of the pairwise pass reads and writes no diagonal cell. -/
theorem fitCell_rel (sim : List F64 → List F64 → F64) (n : Nat) (init init' : List (List F64))
    (l : Nat) (lr : List F64) (right : Nat × List F64) (hl : l < n) (hr : right.1 < n)
    (st st' : FitState) (h : diagRel n init init' st st') :
    ∃ t t', fitCell sim l lr st right = some t ∧ fitCell sim l lr st' right = some t' ∧
      diagRel n init init' t t' := by
  obtain ⟨hs, hs', hcalls, hoff, hd, hd'⟩ := h
  unfold fitCell
  by_cases hlr : l ≠ right.1
  · rw [if_pos hlr, if_pos hlr, read_cell hs hl hr, read_cell hs' hl hr,
      ← hoff l hl right.1 hr hlr]
    by_cases hnan : (cell st.sims l right.1).isNaN = true
    · by_cases hret : (sim lr right.2).isNaN = true
      · simp only [hnan, hret, if_true, Bool.not_true, Bool.false_eq_true, if_false]
        exact ⟨_, _, rfl, rfl, hs, hs', by simp only [hcalls], hoff, hd, hd'⟩
      · obtain ⟨m1, h1, hs1, hc1⟩ := setCell_spec hs hl hr (sim lr right.2)
        obtain ⟨m2, h2, hs2, hc2⟩ := setCell_spec hs1 hr hl (sim lr right.2)
        obtain ⟨m1', h1', hs1', hc1'⟩ := setCell_spec hs' hl hr (sim lr right.2)
        obtain ⟨m2', h2', hs2', hc2'⟩ := setCell_spec hs1' hr hl (sim lr right.2)
        simp only [hnan, hret, if_true, Bool.not_false, h1, h2, h1', h2']
        refine ⟨_, _, rfl, rfl, hs2, hs2', by simp only [hcalls], ?_, ?_, ?_⟩
        · intro i hi j hj hij
          simp only [hc2, hc1, hc2', hc1', hoff i hi j hj hij]
        · intro i
          simp only [hc2, hc1]
          rw [if_neg (by omega), if_neg (by omega)]
          exact hd i
        · intro i
          simp only [hc2', hc1']
          rw [if_neg (by omega), if_neg (by omega)]
          exact hd' i
    · simp only [hnan, Bool.false_eq_true, if_false]
      exact ⟨st, st', rfl, rfl, hs, hs', hcalls, hoff, hd, hd'⟩
  · rw [if_neg hlr, if_neg hlr]
    exact ⟨st, st', rfl, rfl, hs, hs', hcalls, hoff, hd, hd'⟩

/-- The pairwise pass reads and writes no diagonal cell: started from two matrices that
differ on the diagonal only, it makes the same calls, ends with matrices that differ on the
diagonal only, and leaves each diagonal as it was. -/
theorem fitSims_rel (sim : List F64 → List F64 → F64) (ratings init init' : List (List F64))
    (hinit : shaped init ratings.length ratings.length)
    (hinit' : shaped init' ratings.length ratings.length)
    (hoff : ∀ i, i < ratings.length → ∀ j, j < ratings.length → i ≠ j →
      cell init i j = cell init' i j) :
    ∃ st st', fitSims sim ratings init = some st ∧ fitSims sim ratings init' = some st' ∧
      diagRel ratings.length init init' st st' := by
  unfold fitSims
  refine foldlM_rel (fitRow sim ratings) (diagRel ratings.length init init') _ ?_ _ _
    ⟨hinit, hinit', rfl, hoff, fun _ => rfl, fun _ => rfl⟩
  intro left hleft s s' hR
  unfold fitRow
  refine foldlM_rel (fitCell sim left.1 left.2) (diagRel ratings.length init init') _ ?_ _ _ hR
  intro right hright t t' hT
  exact fitCell_rel sim ratings.length init init' left.1 left.2 right
    (List.fst_lt_of_mem_enum hleft) (List.fst_lt_of_mem_enum hright) t t' hT

/-! ## `Predict` and the diagonal -/

theorem offDiag_qualifying (knn : KNN) (sims' : List (List F64)) (n : Nat)
    (leftId rightId : Int) (hrows : knn.ratings.length = n) (hleft : leftId.toNat < n)
    (hoff : ∀ i, i < n → ∀ j, j < n → i ≠ j → cell sims' i j = cell knn.sims i j)
    (hself : (ratingOf knn leftId.toNat rightId).isNaN = true) :
    qualifying { knn with sims := sims' } leftId rightId = qualifying knn leftId rightId := by
  unfold qualifying
  apply List.filter_congr
  intro o ho
  have hon : o < n := by rw [← hrows]; exact List.mem_range.mp ho
  have hrat : ratingOf { knn with sims := sims' } o rightId = ratingOf knn o rightId := rfl
  rw [hrat]
  by_cases hr : (ratingOf knn o rightId).isNaN = true
  · simp [hr]
  · have hne : leftId.toNat ≠ o := by
      intro h
      rw [h] at hself
      exact hr hself
    have hsim : simOf { knn with sims := sims' } leftId o = simOf knn leftId o :=
      hoff _ hleft o hon hne
    rw [hsim]

theorem offDiag_simOf (knn : KNN) (sims' : List (List F64)) (n : Nat)
    (leftId rightId : Int) (hrows : knn.ratings.length = n) (hleft : leftId.toNat < n)
    (hoff : ∀ i, i < n → ∀ j, j < n → i ≠ j → cell sims' i j = cell knn.sims i j)
    (hself : (ratingOf knn leftId.toNat rightId).isNaN = true)
    (o : Nat) (ho : o ∈ qualifying knn leftId rightId) :
    simOf { knn with sims := sims' } leftId o = simOf knn leftId o := by
  have hq := mem_qualifying.mp ho
  have hne : leftId.toNat ≠ o := by
    intro h
    rw [h] at hself
    rw [hself] at hq
    exact absurd hq.2.1 (by decide)
  exact hoff _ hleft o (by rw [← hrows]; exact hq.1) hne

theorem offDiag_selected (S : Sorter) (hS : S.ComparesOnlyInput) (knn : KNN)
    (sims' : List (List F64)) (n : Nat)
    (leftId rightId : Int) (hrows : knn.ratings.length = n) (hleft : leftId.toNat < n)
    (hoff : ∀ i, i < n → ∀ j, j < n → i ≠ j → cell sims' i j = cell knn.sims i j)
    (hself : (ratingOf knn leftId.toNat rightId).isNaN = true) :
    selected S { knn with sims := sims' } leftId rightId = selected S knn leftId rightId := by
  unfold selected ranked
  rw [offDiag_qualifying knn sims' n leftId rightId hrows hleft hoff hself]
  rw [hS _ (fun a b => F64.gt (simOf knn leftId a) (simOf knn leftId b))
    (qualifying knn leftId rightId) (fun a ha b hb => by
      simp only [offDiag_simOf knn sims' n leftId rightId hrows hleft hoff hself a ha,
        offDiag_simOf knn sims' n leftId rightId hrows hleft hoff hself b hb])]

/-- A query whose entity has not rated the target column gets the same prediction from
two models that differ only on the diagonal of the similarity matrix. -/
theorem Predict_offDiag (S : Sorter) (hS : S.ComparesOnlyInput) {knn : KNN} {n m : Nat}
    (sims' : List (List F64)) (userId itemId : Int)
    (h : InRange knn n m (queryIds knn userId itemId).1 (queryIds knn userId itemId).2)
    (hshape : shaped sims' n n)
    (hoff : ∀ i, i < n → ∀ j, j < n → i ≠ j → cell sims' i j = cell knn.sims i j)
    (hl : (queryIds knn userId itemId).1 ≠ knn.trainSet.noBody)
    (hr : (queryIds knn userId itemId).2 ≠ knn.trainSet.noBody)
    (hself : (ratingOf knn (queryIds knn userId itemId).1.toNat
      (queryIds knn userId itemId).2).isNaN = true) :
    Predict S { knn with sims := sims' } userId itemId = Predict S knn userId itemId := by
  have h' : InRange { knn with sims := sims' } n m (queryIds knn userId itemId).1
      (queryIds knn userId itemId).2 :=
    { sims := hshape, ratings := h.ratings, left0 := h.left0, leftN := h.leftN,
      right0 := h.right0, rightM := h.rightM }
  have hB : Predict S { knn with sims := sims' } userId itemId =
      if ((qualifying { knn with sims := sims' } (queryIds knn userId itemId).1
            (queryIds knn userId itemId).2).length : Int) ≤ knn.option.minK then
        some knn.globalMean
      else if knn.option.k < 0 then none
      else (aggregate { knn with sims := sims' } (queryIds knn userId itemId).1
          (queryIds knn userId itemId).2
          (selected S { knn with sims := sims' } (queryIds knn userId itemId).1
            (queryIds knn userId itemId).2)).bind
        (finish knn (queryIds knn userId itemId).1) :=
    @Predict_structure S { knn with sims := sims' } n m userId itemId h' hl hr
  rw [hB, Predict_structure S userId itemId h hl hr,
    offDiag_qualifying knn sims' n _ _ h.ratings.1 h.leftN hoff hself,
    offDiag_selected S hS knn sims' n _ _ h.ratings.1 h.leftN hoff hself]
  have hagg : aggregate { knn with sims := sims' } (queryIds knn userId itemId).1
      (queryIds knn userId itemId).2
      (selected S knn (queryIds knn userId itemId).1 (queryIds knn userId itemId).2) =
      aggregate knn (queryIds knn userId itemId).1 (queryIds knn userId itemId).2
      (selected S knn (queryIds knn userId itemId).1 (queryIds knn userId itemId).2) := by
    unfold aggregate
    apply foldlM_congr_mem
    intro o ho acc
    have hon : o < n := selected_lt h o ho
    have hsim := offDiag_simOf knn sims' n _ _ h.ratings.1 h.leftN hoff hself o
      (selected_subset S knn _ _ ho)
    simp only [aggStep, read_sim h' hon, read_sim h hon, hsim]
  rw [hagg]

/-! ## The Pearson similarity -/

/-- On the fixture the correlation of the co-rated values is `1` for every square root
that is exact at `1/4`. -/
theorem pearsonCorrelation_fixture (sqrt : F64 → F64)
    (h : sqrt (F64.fin (1 / 4)) = F64.fin (1 / 2)) :
    pearsonCorrelation sqrt fixtureA fixtureB = F64.fin 1 := by
  have hco : coRated fixtureA fixtureB = [(F64.fin 4, F64.fin 1), (F64.fin 5, F64.fin 2)] := by
    decide
  have hmul : F64.mul
      (F64.sum ([(F64.fin 4, F64.fin 1), (F64.fin 5, F64.fin 2)].map (fun p =>
        F64.mul (F64.sub p.1 (F64.fin (9 / 2))) (F64.sub p.1 (F64.fin (9 / 2))))))
      (F64.sum ([(F64.fin 4, F64.fin 1), (F64.fin 5, F64.fin 2)].map (fun p =>
        F64.mul (F64.sub p.2 (F64.fin (3 / 2))) (F64.sub p.2 (F64.fin (3 / 2))))))
      = F64.fin (1 / 4) := by decide!
  have hA : F64.div (F64.sum ([(F64.fin 4, F64.fin 1), (F64.fin 5, F64.fin 2)].map
      (fun p => p.1))) (F64.fin (2 : Nat)) = F64.fin (9 / 2) := by decide!
  have hB : F64.div (F64.sum ([(F64.fin 4, F64.fin 1), (F64.fin 5, F64.fin 2)].map
      (fun p => p.2))) (F64.fin (2 : Nat)) = F64.fin (3 / 2) := by decide!
  unfold pearsonCorrelation correlationAbout
  simp only [hco, List.length_cons, List.length_nil]
  rw [if_neg (by decide)]
  simp only [Nat.zero_add, Nat.reduceAdd, hA, hB, hmul, h]
  decide!

/-! ## The claims -/

/-- C2: when the id conversion reports the user id or the item id as unknown, `Predict`
on a fitted model returns exactly the global mean of the training set, whatever the
orientation and the variant are, and it does so whatever the ratings and similarity
matrices hold: it does not read them. -/
theorem predict_unknown_id (S : Sorter) (bl : TrainSet → List OptionSetter → BaseLine)
    (knn0 knn : KNN) (ts : TrainSet) (opts : List OptionSetter) (userId itemId : Int)
    (hfit : Fit bl knn0 ts opts = some knn)
    (hunknown : ts.ConvertUserId userId = ts.noBody ∨ ts.ConvertItemId itemId = ts.noBody) :
    Predict S knn userId itemId = some ts.GlobalMean ∧
    ∀ sims ratings : List (List F64),
      Predict S { knn with sims := sims, ratings := ratings } userId itemId
        = some ts.GlobalMean := by
  obtain ⟨ho, _, hgm, _, hts, _⟩ := Fit_fields hfit
  have key : ∀ k : KNN, k.option = knn.option → k.trainSet = knn.trainSet →
      k.globalMean = knn.globalMean → Predict S k userId itemId = some ts.GlobalMean := by
    intro k h1 h2 h3
    have hq : (queryIds k userId itemId).1 = k.trainSet.noBody ∨
        (queryIds k userId itemId).2 = k.trainSet.noBody := by
      simp only [queryIds, h1, h2, hts]
      split
      · exact hunknown
      · exact hunknown.symm
    unfold Predict
    rw [if_pos hq, h3, hgm]
  exact ⟨key knn rfl rfl rfl, fun sims ratings => key _ rfl rfl rfl⟩

/-- Witness of `predict_unknown_id`: user 7 is not in the training set `tsA`. -/
theorem predict_unknown_id_witness :
    Predict insertionSorter (fitted noBaseLine NewKNN tsA [useAgreement]) 7 1
      = some (F64.fin 4) :=
  (predict_unknown_id insertionSorter noBaseLine NewKNN _ tsA [useAgreement] 7 1
    (Fit_fitted (by decide!)) (Or.inl (by decide))).1

/-- C3: for a known query on a fitted model, if the number of qualifying candidates is
less than or equal to `minK` (in particular if it is less than `minK`), `Predict` returns
exactly the global mean. -/
theorem predict_few_candidates (S : Sorter) (bl : TrainSet → List OptionSetter → BaseLine)
    (knn0 knn : KNN) (ts : TrainSet) (opts : List OptionSetter) (userId itemId : Int)
    (leftId rightId : Int)
    (hfit : Fit bl knn0 ts opts = some knn)
    (hwf : WellFormed ts (applySetters opts))
    (hu : ts.ConvertUserId userId ≠ ts.noBody) (hi : ts.ConvertItemId itemId ≠ ts.noBody)
    (hq : queryIds knn userId itemId = (leftId, rightId))
    (hcount : ((qualifying knn leftId rightId).length : Int) ≤ (applySetters opts).minK) :
    Predict S knn userId itemId = some ts.GlobalMean := by
  obtain ⟨ho, _, hgm, _, _, _⟩ := Fit_fields hfit
  obtain ⟨hl, hr⟩ := Fit_known hfit hu hi
  have hin := Fit_inRange hfit hwf userId itemId hl hr
  rw [Predict_structure S userId itemId hin hl hr, hq, ho, if_pos hcount, hgm]

/-- Witness of `predict_few_candidates`: user 1 has one qualifying neighbour for item 1
(user 2), and `minK` is 1. -/
theorem predict_few_candidates_witness :
    Predict insertionSorter (fitted noBaseLine NewKNN tsA [useAgreement]) 1 1
      = some (F64.fin 4) :=
  predict_few_candidates insertionSorter noBaseLine NewKNN _ tsA [useAgreement] 1 1 1 1
    (Fit_fitted (by decide!))
    (trainSetOf_wellFormed _ _ _ _ (by decide) (by decide))
    (by decide) (by decide) (by decide!) (by decide!)

/-- C4: for a known query `(left, right)` on a fitted model, the candidate list that
`Predict` builds holds exactly the entities `other ≠ left` whose rating of `right` is
present and whose similarity to `left` is defined; the query entity is never a candidate,
whether or not it has rated `right`, because every diagonal cell of the similarity matrix
holds the sentinel. -/
theorem candidates_exclude_self (bl : TrainSet → List OptionSetter → BaseLine)
    (knn0 knn : KNN) (ts : TrainSet) (opts : List OptionSetter) (userId itemId : Int)
    (leftId rightId : Int)
    (hfit : Fit bl knn0 ts opts = some knn)
    (hwf : WellFormed ts (applySetters opts))
    (hu : ts.ConvertUserId userId ≠ ts.noBody) (hi : ts.ConvertItemId itemId ≠ ts.noBody)
    (hq : queryIds knn userId itemId = (leftId, rightId)) :
    findCandidates knn leftId rightId = some (qualifying knn leftId rightId) ∧
    (∀ other : Nat, other ∈ qualifying knn leftId rightId ↔
      (other < entityCount (applySetters opts) ts ∧ (other : Int) ≠ leftId ∧
        (ratingOf knn other rightId).isNaN = false ∧
        (simOf knn leftId other).isNaN = false)) ∧
    leftId.toNat ∉ qualifying knn leftId rightId ∧
    ∀ i, i < entityCount (applySetters opts) ts → cell knn.sims i i = F64.nan := by
  obtain ⟨ho, _, _, hrat, _, _⟩ := Fit_fields hfit
  obtain ⟨hl, hr⟩ := Fit_known hfit hu hi
  have hin := Fit_inRange hfit hwf userId itemId hl hr
  rw [hq] at hin
  have hdiag : ∀ i, i < entityCount (applySetters opts) ts → cell knn.sims i i = F64.nan := by
    intro i hi
    rw [(Fit_sims hfit hwf.rows).2 i i hi hi]
    simp [pairSim]
  have hself : (simOf knn leftId leftId.toNat).isNaN = true := by
    unfold simOf
    rw [hdiag _ hin.leftN]
    rfl
  have hlen : knn.ratings.length = entityCount (applySetters opts) ts := hin.ratings.1
  refine ⟨findCandidates_spec hin, ?_, ?_, hdiag⟩
  · intro other
    rw [mem_qualifying, hlen]
    constructor
    · rintro ⟨h1, h2, h3⟩
      refine ⟨h1, ?_, h2, h3⟩
      intro heq
      have : other = leftId.toNat := by omega
      rw [this, hself] at h3
      cases h3
    · rintro ⟨h1, _, h2, h3⟩
      exact ⟨h1, h2, h3⟩
  · intro hmem
    have := (mem_qualifying.mp hmem).2.2
    rw [hself] at this
    cases this

/-- Witness of `candidates_exclude_self`: user 1 of `tsA` has rated item 1 itself, and
the candidates of the query for user 1 and item 1 are user 2 alone. -/
theorem candidates_exclude_self_witness :
    findCandidates (fitted noBaseLine NewKNN tsA [useAgreement]) 1 1 = some [2] :=
  (candidates_exclude_self noBaseLine NewKNN _ tsA [useAgreement] 1 1 1 1
    (Fit_fitted (by decide!))
    (trainSetOf_wellFormed _ _ _ _ (by decide) (by decide))
    (by decide) (by decide) (by decide!)).1.trans (by decide!)

/-- C1: for a known query on a fitted model whose number of qualifying candidates exceeds
`minK`, with `k ≥ 0`, `Predict` returns `weightRating / weightSum + c(left)`, where
`weightSum` is the sum `Σ sim(left, o)` over the selected neighbours `o`, accumulated from
`0` in the order of selection, and `weightRating` is the sum `Σ sim(left, o) * (rating(o,
right) - c(o))` as the code accumulates it: each neighbour adds `sim * rating` and then
subtracts `sim * c(o)`.  The centering term `c` is `0` for the basic variant, the mean
of the entity's ratings for the centered variant, and for the baseline variant the user
bias of the baseline estimator when user-based and its item bias when item-based.  The
equation holds whatever the weights sum to, a zero sum included. -/
theorem predict_weighted_average (S : Sorter)
    (bl : TrainSet → List OptionSetter → BaseLine)
    (knn0 knn : KNN) (ts : TrainSet) (opts : List OptionSetter) (userId itemId : Int)
    (leftId rightId : Int)
    (hfit : Fit bl knn0 ts opts = some knn)
    (hwf : WellFormed ts (applySetters opts))
    (hbias : knn0.tpe = baseline → BiasCovers bl ts opts)
    (hu : ts.ConvertUserId userId ≠ ts.noBody) (hi : ts.ConvertItemId itemId ≠ ts.noBody)
    (hq : queryIds knn userId itemId = (leftId, rightId))
    (hmin : (applySetters opts).minK < ((qualifying knn leftId rightId).length : Int))
    (hk : 0 ≤ (applySetters opts).k) :
    aggregate knn leftId rightId (selected S knn leftId rightId) =
      some (weightSum knn leftId (selected S knn leftId rightId),
        weightRating knn leftId rightId (selected S knn leftId rightId)) ∧
    Predict S knn userId itemId =
      some (F64.add
        (F64.div (weightRating knn leftId rightId (selected S knn leftId rightId))
          (weightSum knn leftId (selected S knn leftId rightId)))
        (centerOf knn leftId.toNat)) ∧
    weightSum knn leftId (selected S knn leftId rightId) =
      (selected S knn leftId rightId).foldl
        (fun acc o => F64.add acc (simOf knn leftId o)) (F64.fin 0) ∧
    weightRating knn leftId rightId (selected S knn leftId rightId) =
      (selected S knn leftId rightId).foldl
        (fun acc o =>
          if knn0.tpe = centered ∨ knn0.tpe = baseline then
            F64.sub (F64.add acc (F64.mul (simOf knn leftId o) (ratingOf knn o rightId)))
              (F64.mul (simOf knn leftId o) (centerOf knn o))
          else F64.add acc (F64.mul (simOf knn leftId o) (ratingOf knn o rightId)))
        (F64.fin 0) ∧
    ∀ o, o < entityCount (applySetters opts) ts →
      centerOf knn o =
        if knn0.tpe = centered then meanOf ((fitRatings (applySetters opts) ts).getD o [])
        else if knn0.tpe = baseline then
          (if (applySetters opts).userBased then (bl ts opts).userBias
           else (bl ts opts).itemBias).getD o F64.nan
        else F64.fin 0 := by
  obtain ⟨ho, htpe, _, _, _, hmeans, hb, _⟩ := Fit_fields hfit
  obtain ⟨hl, hr⟩ := Fit_known hfit hu hi
  have hin := Fit_inRange hfit hwf userId itemId hl hr
  have hc := Fit_centered hfit hwf.rows hbias
  have hval := Predict_weightRating S userId itemId hin hc hl hr
    (by rw [hq, ho]; exact hmin) (by rw [ho]; exact hk)
  rw [hq] at hval hin
  refine ⟨aggregate_weightRating hin hc _ (selected_lt hin), hval, ?_, ?_, ?_⟩
  · unfold weightSum F64.sum
    exact (foldl_add_map knn leftId _ _).symm
  · unfold weightRating
    apply foldl_congr_mem
    intro o _ acc
    unfold stepRating centerOf
    rw [htpe]
    by_cases h1 : knn0.tpe = centered
    · rw [if_pos h1, if_pos (Or.inl h1), if_pos h1]
    · by_cases h2 : knn0.tpe = baseline
      · rw [if_neg h1, if_pos h2, if_pos (Or.inr h2), if_neg h1, if_pos h2]
      · rw [if_neg h1, if_neg h2, if_neg (fun h => h.elim h1 h2)]
  · intro o hlt
    unfold centerOf
    rw [htpe]
    by_cases h1 : knn0.tpe = centered
    · rw [if_pos h1, if_pos h1, hmeans h1]
      have : o < (fitRatings (applySetters opts) ts).length := by rw [hwf.rows]; exact hlt
      simp [List.getElem?_eq_getElem this]
    · rw [if_neg h1, if_neg h1]
      by_cases h2 : knn0.tpe = baseline
      · rw [if_pos h2, if_pos h2, hb h2]
      · rw [if_neg h2, if_neg h2]

/-- Witness of `predict_weighted_average`: the centered model on `tsA`, user 0 and
item 1: neighbours 2 and 1 with similarities 1 and 0, means 5, 4 and 7/2, so the
prediction is `((1 * 2 - 1 * 7/2) + 0 * 4 - 0 * 4) / (1 + 0) + 5 = 7/2`. -/
theorem predict_weighted_average_witness :
    Predict insertionSorter (fitted noBaseLine NewKNNWithMean tsA [useAgreement]) 0 1
      = some (F64.fin (7 / 2)) :=
  (predict_weighted_average insertionSorter noBaseLine NewKNNWithMean _ tsA [useAgreement]
    0 1 0 1 (Fit_fitted (by decide!))
    (trainSetOf_wellFormed _ _ _ _ (by decide) (by decide))
    (fun h => absurd h (by decide)) (by decide) (by decide) (by decide!) (by decide!)
    (by decide)).2.1.trans
    (by decide!)

/-- C5: for a known query that passes the minimum-neighbours check, with `k ≥ 0`, the
neighbours `Predict` aggregates over are the first `min(k, candidateCount)` entries of the
sorted candidate list: that many distinct candidates, each with a similarity to the query
entity greater than or equal to that of every candidate left out; the sorted list is a
permutation of the candidates in descending order of similarity. -/
theorem neighbours_are_top_k (S : Sorter) (bl : TrainSet → List OptionSetter → BaseLine)
    (knn0 knn : KNN) (ts : TrainSet) (opts : List OptionSetter) (userId itemId : Int)
    (leftId rightId : Int)
    (hfit : Fit bl knn0 ts opts = some knn)
    (hwf : WellFormed ts (applySetters opts))
    (hu : ts.ConvertUserId userId ≠ ts.noBody) (hi : ts.ConvertItemId itemId ≠ ts.noBody)
    (hq : queryIds knn userId itemId = (leftId, rightId))
    (hmin : (applySetters opts).minK < ((qualifying knn leftId rightId).length : Int))
    (hk : 0 ≤ (applySetters opts).k) :
    findCandidates knn leftId rightId = some (qualifying knn leftId rightId) ∧
    Predict S knn userId itemId =
      (aggregate knn leftId rightId (selected S knn leftId rightId)).bind
        (finish knn leftId) ∧
    selected S knn leftId rightId =
      (ranked S knn leftId rightId).take
        (min (applySetters opts).k ((qualifying knn leftId rightId).length : Int)).toNat ∧
    ((selected S knn leftId rightId).length : Int) =
      min (applySetters opts).k ((qualifying knn leftId rightId).length : Int) ∧
    (selected S knn leftId rightId).Nodup ∧
    (∀ o ∈ selected S knn leftId rightId, o ∈ qualifying knn leftId rightId) ∧
    (∀ a ∈ selected S knn leftId rightId, ∀ b ∈ qualifying knn leftId rightId,
      b ∉ selected S knn leftId rightId →
        F64.ge (simOf knn leftId a) (simOf knn leftId b) = true) ∧
    (ranked S knn leftId rightId).Perm (qualifying knn leftId rightId) ∧
    (ranked S knn leftId rightId).Pairwise
      (fun a b => F64.ge (simOf knn leftId a) (simOf knn leftId b) = true) := by
  obtain ⟨ho, _, _, _, _, _⟩ := Fit_fields hfit
  obtain ⟨hl, hr⟩ := Fit_known hfit hu hi
  have hin := Fit_inRange hfit hwf userId itemId hl hr
  have hperm := ranked_perm S knn leftId rightId
  have hsorted := ranked_sorted S knn leftId rightId
  have hnodup : (ranked S knn leftId rightId).Nodup :=
    hperm.nodup_iff.mpr (qualifying_nodup knn leftId rightId)
  have hstruct := Predict_structure S userId itemId hin hl hr
  rw [hq] at hin hstruct
  simp only [ho] at hstruct
  rw [if_neg (by omega), if_neg (by omega)] at hstruct
  have hsel : selected S knn leftId rightId =
      (ranked S knn leftId rightId).take
        (min (applySetters opts).k ((qualifying knn leftId rightId).length : Int)).toNat := by
    unfold selected; rw [ho]
  refine ⟨findCandidates_spec hin, hstruct, hsel, ?_, ?_,
    fun o h => selected_subset S knn leftId rightId h, ?_, hperm, hsorted⟩
  · rw [hsel, List.length_take, hperm.length_eq]
    have : (0 : Int) ≤ min (applySetters opts).k ((qualifying knn leftId rightId).length : Int) :=
      le_min hk (by omega)
    rcases le_total (applySetters opts).k ((qualifying knn leftId rightId).length : Int) with h | h
    · rw [min_eq_left h]; omega
    · rw [min_eq_right h]; omega
  · rw [hsel]
    exact hnodup.sublist (List.take_sublist _ _)
  · intro a ha b hb hnb
    rw [hsel] at ha hnb
    have hb' : b ∈ ranked S knn leftId rightId := hperm.symm.subset hb
    rw [← List.take_append_drop
      (min (applySetters opts).k ((qualifying knn leftId rightId).length : Int)).toNat
      (ranked S knn leftId rightId)] at hb' hsorted
    rcases List.mem_append.mp hb' with h | h
    · exact absurd h hnb
    · exact (List.pairwise_append.mp hsorted).2.2 a ha b h

/-- Witness of `neighbours_are_top_k`: for user 0 and item 1 of `tsA` the candidates are
users 1 and 2, and both are selected, user 2 (similarity 1) before user 1
(similarity 0). -/
theorem neighbours_are_top_k_witness :
    selected insertionSorter (fitted noBaseLine NewKNN tsA [useAgreement]) 0 1 = [2, 1] :=
  (neighbours_are_top_k insertionSorter noBaseLine NewKNN _ tsA [useAgreement] 0 1 0 1
    (Fit_fitted (by decide!))
    (trainSetOf_wellFormed _ _ _ _ (by decide) (by decide))
    (by decide) (by decide) (by decide!) (by decide!) (by decide)).2.2.1.trans (by decide!)

/-- C6: after `Fit`, on any training set and with any similarity function, the
similarity matrix is symmetric: for all `i` and `j` the cells `(i, j)` and `(j, i)` hold
the same value, the sentinel or the same number. -/
theorem fit_sims_symmetric (bl : TrainSet → List OptionSetter → BaseLine)
    (knn0 knn : KNN) (ts : TrainSet) (opts : List OptionSetter)
    (hfit : Fit bl knn0 ts opts = some knn) :
    ∀ i j, cell knn.sims i j = cell knn.sims j i := by
  obtain ⟨_, _, _, _, _, _, _, st, hst, hsims⟩ := Fit_fields hfit
  rw [hsims]
  unfold fitState at hst
  exact fitSims_symmetric _ _ _ st (fitNanSims_symmetric _ _) hst

/-- Witness of `fit_sims_symmetric`: the cells `(0, 2)` and `(2, 0)` after `Fit` on
`tsA`. -/
theorem fit_sims_symmetric_witness :
    cell (fitted noBaseLine NewKNN tsA [useAgreement]).sims 0 2
      = cell (fitted noBaseLine NewKNN tsA [useAgreement]).sims 2 0 :=
  fit_sims_symmetric noBaseLine NewKNN _ tsA [useAgreement] (Fit_fitted (by decide!)) 0 2

/-- C7: after `Fit` with a similarity function that is symmetric on the rating vectors
of the training set, every off-diagonal cell `(i, j)` of the similarity matrix holds the
similarity of the rating vectors of `i` and `j`; so it holds the sentinel exactly when that
similarity is undefined. -/
theorem fit_sims_value (bl : TrainSet → List OptionSetter → BaseLine)
    (knn0 knn : KNN) (ts : TrainSet) (opts : List OptionSetter)
    (hfit : Fit bl knn0 ts opts = some knn)
    (hrows : (fitRatings (applySetters opts) ts).length = entityCount (applySetters opts) ts)
    (hsymm : ∀ i, i < entityCount (applySetters opts) ts →
      ∀ j, j < entityCount (applySetters opts) ts →
      (applySetters opts).sim ((fitRatings (applySetters opts) ts).getD i [])
          ((fitRatings (applySetters opts) ts).getD j []) =
        (applySetters opts).sim ((fitRatings (applySetters opts) ts).getD j [])
          ((fitRatings (applySetters opts) ts).getD i [])) :
    ∀ i j, i < entityCount (applySetters opts) ts → j < entityCount (applySetters opts) ts →
      i ≠ j →
      cell knn.sims i j =
        (applySetters opts).sim ((fitRatings (applySetters opts) ts).getD i [])
          ((fitRatings (applySetters opts) ts).getD j []) ∧
      ((cell knn.sims i j).isNaN = true ↔
        ((applySetters opts).sim ((fitRatings (applySetters opts) ts).getD i [])
          ((fitRatings (applySetters opts) ts).getD j [])).isNaN = true) := by
  intro i j hi hj hij
  have hcell : cell knn.sims i j =
      (applySetters opts).sim ((fitRatings (applySetters opts) ts).getD i [])
        ((fitRatings (applySetters opts) ts).getD j []) := by
    rw [(Fit_sims hfit hrows).2 i j hi hj]
    unfold pairSim
    rw [if_neg hij]
    have hmin : min i j < entityCount (applySetters opts) ts := by omega
    have hmax : max i j < entityCount (applySetters opts) ts := by omega
    rw [hsymm (max i j) hmax (min i j) hmin, ite_self]
    rcases Nat.lt_or_gt_of_ne hij with h | h
    · rw [Nat.min_eq_left (Nat.le_of_lt h), Nat.max_eq_right (Nat.le_of_lt h)]
    · rw [Nat.min_eq_right (Nat.le_of_lt h), Nat.max_eq_left (Nat.le_of_lt h)]
      exact hsymm j hj i hi
  exact ⟨hcell, by rw [hcell]⟩

/-- Witness of `fit_sims_value`: users 1 and 2 of `tsA`, whose `agreement` is `-3/2`. -/
theorem fit_sims_value_witness :
    cell (fitted noBaseLine NewKNN tsA [useAgreement]).sims 2 1 = F64.fin (-3 / 2) :=
  ((fit_sims_value noBaseLine NewKNN _ tsA [useAgreement] (Fit_fitted (by decide!))
    (by decide) (by decide!)) 2 1 (by decide) (by decide) (by decide)).1.trans (by decide!)

/-- C8, refuted as stated: on `tsZ` the two neighbours of user 0 for item 1 both have
similarity 0, the weights sum to zero, and `Predict` returns `NaN` (`0 / 0`), not the
global mean `19/5`. -/
theorem predict_zero_weight_not_global_mean :
    (Fit noBaseLine NewKNN tsZ [useAgreement]).isSome = true ∧
    tsZ.ConvertUserId 0 ≠ tsZ.noBody ∧ tsZ.ConvertItemId 1 ≠ tsZ.noBody ∧
    weightSum (fitted noBaseLine NewKNN tsZ [useAgreement]) 0
      (selected insertionSorter (fitted noBaseLine NewKNN tsZ [useAgreement]) 0 1)
      = F64.fin 0 ∧
    Predict insertionSorter (fitted noBaseLine NewKNN tsZ [useAgreement]) 0 1
      = some F64.nan ∧
    Predict insertionSorter (fitted noBaseLine NewKNN tsZ [useAgreement]) 0 1
      ≠ some tsZ.GlobalMean := by
  decide!

/-- C8, amended: for a known query on a fitted model that passes the minimum-neighbours
check with `k ≥ 0`, when the similarities of the selected neighbours sum to zero `Predict`
does not fall back to the global mean: it returns the quotient by zero plus the centering
term, which is never a finite number (it is `NaN`, `+Inf` or `-Inf`). -/
theorem predict_zero_weight (S : Sorter)
    (bl : TrainSet → List OptionSetter → BaseLine)
    (knn0 knn : KNN) (ts : TrainSet) (opts : List OptionSetter) (userId itemId : Int)
    (leftId rightId : Int)
    (hfit : Fit bl knn0 ts opts = some knn)
    (hwf : WellFormed ts (applySetters opts))
    (hbias : knn0.tpe = baseline → BiasCovers bl ts opts)
    (hu : ts.ConvertUserId userId ≠ ts.noBody) (hi : ts.ConvertItemId itemId ≠ ts.noBody)
    (hq : queryIds knn userId itemId = (leftId, rightId))
    (hmin : (applySetters opts).minK < ((qualifying knn leftId rightId).length : Int))
    (hk : 0 ≤ (applySetters opts).k)
    (hzero : weightSum knn leftId (selected S knn leftId rightId) = F64.fin 0) :
    Predict S knn userId itemId =
      some (F64.add
        (F64.div (weightedRating knn leftId rightId (selected S knn leftId rightId))
          (F64.fin 0))
        (centerOf knn leftId.toNat)) ∧
    (F64.add
        (F64.div (weightedRating knn leftId rightId (selected S knn leftId rightId))
          (F64.fin 0))
        (centerOf knn leftId.toNat)).isFinite = false := by
  obtain ⟨ho, _, _, _, _, _⟩ := Fit_fields hfit
  obtain ⟨hl, hr⟩ := Fit_known hfit hu hi
  have hin := Fit_inRange hfit hwf userId itemId hl hr
  have hc := Fit_centered hfit hwf.rows hbias
  have hval := Predict_value S userId itemId hin hc hl hr
    (by rw [hq, ho]; exact hmin) (by rw [ho]; exact hk)
  rw [hq] at hval
  rw [quotient_eq, hzero] at hval
  exact ⟨hval, F64.not_finite_add_left _ (F64.not_finite_div_zero _)⟩

/-- Witness of `predict_zero_weight`: on `tsZ`, for user 0 and item 1, the quotient is
`0 / 0`. -/
theorem predict_zero_weight_witness :
    Predict insertionSorter (fitted noBaseLine NewKNN tsZ [useAgreement]) 0 1
      = some F64.nan :=
  (predict_zero_weight insertionSorter noBaseLine NewKNN _ tsZ [useAgreement] 0 1 0 1
    (Fit_fitted (by decide!))
    (trainSetOf_wellFormed _ _ _ _ (by decide) (by decide))
    (fun h => absurd h (by decide)) (by decide) (by decide) (by decide!) (by decide!)
    (by decide) (by decide!)).1.trans (by decide!)

/-- C9, the code at the failing input: on `tsA` user 1 has exactly one qualifying
candidate for item 1 (user 2) and `minK` is 1; `Predict` returns the global mean 4, while
the aggregation over that one neighbour would give its rating 2. -/
theorem predict_exactly_minK_candidates :
    (Fit noBaseLine NewKNN tsA [useAgreement]).isSome = true ∧
    qualifying (fitted noBaseLine NewKNN tsA [useAgreement]) 1 1 = [2] ∧
    (fitted noBaseLine NewKNN tsA [useAgreement]).option.minK = 1 ∧
    Predict insertionSorter (fitted noBaseLine NewKNN tsA [useAgreement]) 1 1
      = some (F64.fin 4) ∧
    (aggregate (fitted noBaseLine NewKNN tsA [useAgreement]) 1 1 [2]).bind
      (finish (fitted noBaseLine NewKNN tsA [useAgreement]) 1) = some (F64.fin 2) := by
  decide!

/-- C10, refuted as stated: on `tsU` the similarity of users 0 and 1 is undefined, and
`Fit` evaluates it twice, at `(0, 1)` and again at `(1, 0)`. -/
theorem fit_reevaluates_undefined_pair :
    (fitState tsU [useAgreement]).map (fun st => st.calls) = some [(0, 1), (1, 0)] ∧
    agreement [F64.fin 5, F64.nan] [F64.nan, F64.fin 3] = F64.nan := by
  decide!

/-- C10, amended: on a training set with one rating row per entity, `Fit` evaluates the
similarity function at most once per ordered pair `(i, j)`: once for every pair with
`i < j`, and once more with the arguments exchanged, at `(j, i)`, exactly for the pairs
whose first evaluation came back undefined; a pair whose first evaluation is defined is
never evaluated again. -/
theorem fit_similarity_calls (ts : TrainSet) (opts : List OptionSetter)
    (hrows : (fitRatings (applySetters opts) ts).length = entityCount (applySetters opts) ts) :
    (fitState ts opts).map (fun st => st.calls) =
      some ((pairsBefore (entityCount (applySetters opts) ts)
          (entityCount (applySetters opts) ts) 0).filter
        (evaluates (applySetters opts).sim (fitRatings (applySetters opts) ts))) ∧
    ((pairsBefore (entityCount (applySetters opts) ts)
          (entityCount (applySetters opts) ts) 0).filter
        (evaluates (applySetters opts).sim (fitRatings (applySetters opts) ts))).Nodup ∧
    ∀ i j, (i, j) ∈ (pairsBefore (entityCount (applySetters opts) ts)
          (entityCount (applySetters opts) ts) 0).filter
        (evaluates (applySetters opts).sim (fitRatings (applySetters opts) ts)) ↔
      (i < entityCount (applySetters opts) ts ∧ j < entityCount (applySetters opts) ts ∧
        (i < j ∨ (j < i ∧
          ((applySetters opts).sim ((fitRatings (applySetters opts) ts).getD j [])
            ((fitRatings (applySetters opts) ts).getD i [])).isNaN = true))) := by
  obtain ⟨st, hst, hinv⟩ := fitState_spec ts opts hrows
  refine ⟨?_, (pairsBefore_all_nodup _).filter _, ?_⟩
  · rw [hst, Option.map_some', hinv.2.2]
  · intro i j
    rw [List.mem_filter, mem_pairsBefore_all]
    simp only [evaluates, Bool.or_eq_true, Bool.and_eq_true, decide_eq_true_eq]
    tauto

/-- Witness of `fit_similarity_calls`: the calls `Fit` makes on `tsA`, where every pair of
users has a defined similarity. -/
theorem fit_similarity_calls_witness :
    (fitState tsA [useAgreement]).map (fun st => st.calls) = some [(0, 1), (0, 2), (1, 2)] :=
  (fit_similarity_calls tsA [useAgreement] (by decide)).1.trans (by decide!)

/-- C11, not as stated: `Predict` reads the diagonal cell of the query entity when that
entity has itself rated the target column.  On `tsA`, user 1 has rated item 1; the fitted
model and the model that differs from it in the diagonal cell `(1, 1)` only predict `4`
(the global mean) and `-2` for user 1 and item 1. -/
theorem predict_reads_diagonal :
    (Fit noBaseLine NewKNN tsA [useAgreement]).isSome = true ∧
    (∀ i, i < 3 → ∀ j, j < 3 → i ≠ j →
      cell (withDiagonal (fitted noBaseLine NewKNN tsA [useAgreement]) 1 (F64.fin 1)).sims i j
        = cell (fitted noBaseLine NewKNN tsA [useAgreement]).sims i j) ∧
    (ratingOf (fitted noBaseLine NewKNN tsA [useAgreement]) 1 1).isNaN = false ∧
    Predict insertionSorter (fitted noBaseLine NewKNN tsA [useAgreement]) 1 1
      = some (F64.fin 4) ∧
    Predict insertionSorter
      (withDiagonal (fitted noBaseLine NewKNN tsA [useAgreement]) 1 (F64.fin 1)) 1 1
      = some (F64.fin (-2)) := by
  decide!

/-- C11, amended: `Fit` leaves every diagonal cell of the similarity matrix undefined, and
its pairwise pass reads and writes no diagonal cell (started from two matrices that differ
on the diagonal only, it makes the same similarity calls, ends with matrices that differ on
the diagonal only, and leaves both diagonals as they were).  `Predict` on the fitted model
and on a model that differs from it on the diagonal of the similarity matrix only agree for
every query with an unknown id and for every query whose entity has not itself rated the
target column, for a sorter that compares only the candidates it is given. -/
theorem diagonal_not_consulted (S : Sorter) (hS : S.ComparesOnlyInput)
    (bl : TrainSet → List OptionSetter → BaseLine) (knn0 knn : KNN) (ts : TrainSet)
    (opts : List OptionSetter) (sims' : List (List F64)) (userId itemId leftId rightId : Int)
    (hfit : Fit bl knn0 ts opts = some knn)
    (hwf : WellFormed ts (applySetters opts))
    (hshape : shaped sims' (entityCount (applySetters opts) ts)
      (entityCount (applySetters opts) ts))
    (hoff : ∀ i, i < entityCount (applySetters opts) ts →
      ∀ j, j < entityCount (applySetters opts) ts → i ≠ j →
      cell sims' i j = cell knn.sims i j)
    (hq : queryIds knn userId itemId = (leftId, rightId))
    (hself : leftId = ts.noBody ∨ rightId = ts.noBody ∨
      (ratingOf knn leftId.toNat rightId).isNaN = true) :
    (∀ i, cell knn.sims i i = F64.nan) ∧
    (∀ init init',
      shaped init (entityCount (applySetters opts) ts) (entityCount (applySetters opts) ts) →
      shaped init' (entityCount (applySetters opts) ts) (entityCount (applySetters opts) ts) →
      (∀ i, i < entityCount (applySetters opts) ts →
        ∀ j, j < entityCount (applySetters opts) ts → i ≠ j →
        cell init i j = cell init' i j) →
      ∃ st st',
        fitSims (applySetters opts).sim (fitRatings (applySetters opts) ts) init = some st ∧
        fitSims (applySetters opts).sim (fitRatings (applySetters opts) ts) init' = some st' ∧
        st.calls = st'.calls ∧
        (∀ i, i < entityCount (applySetters opts) ts →
          ∀ j, j < entityCount (applySetters opts) ts → i ≠ j →
          cell st.sims i j = cell st'.sims i j) ∧
        (∀ i, cell st.sims i i = cell init i i) ∧
        (∀ i, cell st'.sims i i = cell init' i i)) ∧
    Predict S { knn with sims := sims' } userId itemId = Predict S knn userId itemId := by
  obtain ⟨_, _, _, _, hts, _, _, st0, hst0, hsims0⟩ := Fit_fields hfit
  have hrel : ∀ init init',
      shaped init (entityCount (applySetters opts) ts) (entityCount (applySetters opts) ts) →
      shaped init' (entityCount (applySetters opts) ts) (entityCount (applySetters opts) ts) →
      (∀ i, i < entityCount (applySetters opts) ts →
        ∀ j, j < entityCount (applySetters opts) ts → i ≠ j →
        cell init i j = cell init' i j) →
      ∃ st st',
        fitSims (applySetters opts).sim (fitRatings (applySetters opts) ts) init = some st ∧
        fitSims (applySetters opts).sim (fitRatings (applySetters opts) ts) init' = some st' ∧
        diagRel (entityCount (applySetters opts) ts) init init' st st' := by
    intro init init' h1 h2 h3
    have := fitSims_rel (applySetters opts).sim (fitRatings (applySetters opts) ts) init init'
      (by rw [hwf.rows]; exact h1) (by rw [hwf.rows]; exact h2) (by rw [hwf.rows]; exact h3)
    rw [hwf.rows] at this
    exact this
  refine ⟨?_, ?_, ?_⟩
  · intro i
    obtain ⟨st, _, h1, _, hR⟩ := hrel (fitNanSims (applySetters opts) ts)
      (fitNanSims (applySetters opts) ts)
      (by rw [fitNanSims_eq]; exact newNanMatrix_shaped _ _)
      (by rw [fitNanSims_eq]; exact newNanMatrix_shaped _ _) (fun _ _ _ _ _ => rfl)
    have hst : st0 = st := by
      unfold fitState at hst0
      rw [h1] at hst0
      exact (Option.some.inj hst0).symm
    rw [hsims0, hst, hR.2.2.2.2.1 i, fitNanSims_eq, newNanMatrix_cell]
  · intro init init' h1 h2 h3
    obtain ⟨st, st', e1, e2, hR⟩ := hrel init init' h1 h2 h3
    exact ⟨st, st', e1, e2, hR.2.2.1, hR.2.2.2.1, hR.2.2.2.2.1, hR.2.2.2.2.2⟩
  · have hL : (queryIds knn userId itemId).1 = leftId := by rw [hq]
    have hR : (queryIds knn userId itemId).2 = rightId := by rw [hq]
    by_cases hun : (queryIds knn userId itemId).1 = knn.trainSet.noBody ∨
        (queryIds knn userId itemId).2 = knn.trainSet.noBody
    · rw [Predict_unknown S knn userId itemId hun]
      exact Predict_unknown S { knn with sims := sims' } userId itemId hun
    · have hl : (queryIds knn userId itemId).1 ≠ knn.trainSet.noBody :=
        fun h => hun (Or.inl h)
      have hr : (queryIds knn userId itemId).2 ≠ knn.trainSet.noBody :=
        fun h => hun (Or.inr h)
      have hin := Fit_inRange hfit hwf userId itemId hl hr
      refine Predict_offDiag S hS sims' userId itemId hin hshape hoff hl hr ?_
      rw [hL, hR]
      rcases hself with h | h | h
      · exact absurd (by rw [hL, hts, h]) hl
      · exact absurd (by rw [hR, hts, h]) hr
      · exact h

/-- Witness of `diagonal_not_consulted`: user 0 of `tsA` has not rated item 1, and the
model that differs from the fitted one in the diagonal cell `(0, 0)` predicts the same for
user 0 and item 1, namely `2`. -/
theorem diagonal_not_consulted_witness :
    Predict insertionSorter
      { fitted noBaseLine NewKNN tsA [useAgreement] with
        sims := (withDiagonal (fitted noBaseLine NewKNN tsA [useAgreement]) 0
          (F64.fin 1)).sims } 0 1 = some (F64.fin 2) :=
  (diagonal_not_consulted insertionSorter insertionSorter_comparesOnlyInput noBaseLine NewKNN
    _ tsA [useAgreement]
    (withDiagonal (fitted noBaseLine NewKNN tsA [useAgreement]) 0 (F64.fin 1)).sims
    0 1 0 1 (Fit_fitted (by decide!))
    (trainSetOf_wellFormed _ _ _ _ (by decide) (by decide))
    ⟨by decide!, by decide!⟩ (by decide!) (by decide!)
    (Or.inr (Or.inr (by decide!)))).2.2.trans (by decide!)

/-- C12, not as stated: on `tsP` with the Pearson correlation as similarity, user 0 has
similarity `1` to user 1 and `-1` to user 2 (both in `[-1, 1]`); both are selected for
item 2, the weights sum to zero, and neither similarity is zero. -/
theorem weight_sum_cancels :
    (Fit noBaseLine NewKNN tsP [usePearson]).isSome = true ∧
    tsP.ConvertUserId 0 ≠ tsP.noBody ∧ tsP.ConvertItemId 2 ≠ tsP.noBody ∧
    (fitted noBaseLine NewKNN tsP [usePearson]).sims =
      [[F64.nan, F64.fin 1, F64.fin (-1)], [F64.fin 1, F64.nan, F64.fin (-1)],
       [F64.fin (-1), F64.fin (-1), F64.nan]] ∧
    selected insertionSorter (fitted noBaseLine NewKNN tsP [usePearson]) 0 2 = [1, 2] ∧
    simOf (fitted noBaseLine NewKNN tsP [usePearson]) 0 1 = F64.fin 1 ∧
    simOf (fitted noBaseLine NewKNN tsP [usePearson]) 0 2 = F64.fin (-1) ∧
    weightSum (fitted noBaseLine NewKNN tsP [usePearson]) 0
      (selected insertionSorter (fitted noBaseLine NewKNN tsP [usePearson]) 0 2)
      = F64.fin 0 ∧
    Predict insertionSorter (fitted noBaseLine NewKNN tsP [usePearson]) 0 2
      = some F64.pinf := by
  decide!

/-- C12, amended: when the similarities of the selected neighbours to the query entity
all have the same sign (all `≥ 0`, or all `≤ 0`), their sum is zero only if every one of
them is exactly zero; similarities of both signs can cancel. -/
theorem weight_sum_zero_same_sign (S : Sorter) (knn : KNN) (leftId rightId : Int)
    (hsign :
      (∀ o ∈ selected S knn leftId rightId,
        F64.ge (simOf knn leftId o) (F64.fin 0) = true) ∨
      (∀ o ∈ selected S knn leftId rightId,
        F64.ge (F64.fin 0) (simOf knn leftId o) = true))
    (hzero : weightSum knn leftId (selected S knn leftId rightId) = F64.fin 0) :
    ∀ o ∈ selected S knn leftId rightId, simOf knn leftId o = F64.fin 0 := by
  intro o ho
  unfold weightSum at hzero
  rcases hsign with h | h
  · exact F64.zero_of_sum_nonneg _ (fun x hx => by
      obtain ⟨y, hy, rfl⟩ := List.mem_map.mp hx
      exact h y hy) hzero _ (List.mem_map_of_mem _ ho)
  · exact F64.zero_of_sum_nonpos _ (fun x hx => by
      obtain ⟨y, hy, rfl⟩ := List.mem_map.mp hx
      exact h y hy) hzero _ (List.mem_map_of_mem _ ho)

/-- Witness of `weight_sum_zero_same_sign`: on `tsZ` the two selected neighbours of user 0
for item 1 have similarities `≥ 0` that sum to zero, and the first of them, user 1, has
similarity zero. -/
theorem weight_sum_zero_same_sign_witness :
    simOf (fitted noBaseLine NewKNN tsZ [useAgreement]) 0 1 = F64.fin 0 :=
  weight_sum_zero_same_sign insertionSorter (fitted noBaseLine NewKNN tsZ [useAgreement]) 0 1
    (Or.inl (by decide!)) (by decide!) 1 (by decide!)

/-- C13: after `Fit` of the centered variant there is one mean per rating row, and the
mean of a row is the sum of its non-missing ratings divided by their count; for a row with
no rating that quotient is `0 / 0`, the undefined value `NaN`, and the division does not
make `Fit` fail. -/
theorem fit_means (bl : TrainSet → List OptionSetter → BaseLine)
    (knn0 knn : KNN) (ts : TrainSet) (opts : List OptionSetter)
    (hfit : Fit bl knn0 ts opts = some knn) (hcentered : knn0.tpe = centered) :
    knn.means.length = (fitRatings (applySetters opts) ts).length ∧
    ∀ i, i < (fitRatings (applySetters opts) ts).length →
      knn.means.getD i F64.nan =
        F64.div (F64.sum (present ((fitRatings (applySetters opts) ts).getD i [])))
          (F64.fin ((present ((fitRatings (applySetters opts) ts).getD i [])).length : ℚ)) ∧
      ((present ((fitRatings (applySetters opts) ts).getD i [])).length = 0 →
        knn.means.getD i F64.nan = F64.nan) := by
  obtain ⟨_, _, _, _, _, hmeans, _, _⟩ := Fit_fields hfit
  rw [hmeans hcentered]
  refine ⟨List.length_map _ _, ?_⟩
  intro i hi
  have hget : ((fitRatings (applySetters opts) ts).map meanOf).getD i F64.nan =
      meanOf ((fitRatings (applySetters opts) ts).getD i []) := by
    simp [List.getElem?_eq_getElem hi]
  rw [hget]
  exact ⟨meanOf_eq _, meanOf_of_no_rating _⟩

/-- Witness of `fit_means`: the mean of user 2 of `tsA`, whose ratings are 5 and 2. -/
theorem fit_means_witness :
    (fitted noBaseLine NewKNNWithMean tsA [useAgreement]).means.getD 2 F64.nan
      = F64.fin (7 / 2) :=
  ((fit_means noBaseLine NewKNNWithMean _ tsA [useAgreement] (Fit_fitted (by decide!))
    (by decide)).2 2 (by decide)).1.trans (by decide!)

/-- C14, not as stated: on `tsN` user 0 is known and has no rating, so the centered
variant has no mean for it (`0 / 0 = NaN`).  With the similarity `1` for every pair, the
query for user 0 and item 1 has the candidates 1 and 2 and takes no fallback; `Predict`
returns `NaN`, and so does `Predict` minus the centering term of user 0, while the basic
variant on the centered ratings returns `-3/4`. -/
theorem predict_centered_undefined_mean :
    (Fit noBaseLine NewKNNWithMean tsN [useUnit]).isSome = true ∧
    tsN.ConvertUserId 0 ≠ tsN.noBody ∧ tsN.ConvertItemId 1 ≠ tsN.noBody ∧
    qualifying (fitted noBaseLine NewKNNWithMean tsN [useUnit]) 0 1 = [1, 2] ∧
    (fitted noBaseLine NewKNNWithMean tsN [useUnit]).option.minK = 1 ∧
    centerOf (fitted noBaseLine NewKNNWithMean tsN [useUnit]) 0 = F64.nan ∧
    Predict insertionSorter (fitted noBaseLine NewKNNWithMean tsN [useUnit]) 0 1
      = some F64.nan ∧
    (Predict insertionSorter (fitted noBaseLine NewKNNWithMean tsN [useUnit]) 0 1).map
      (fun v => F64.sub v (centerOf (fitted noBaseLine NewKNNWithMean tsN [useUnit]) 0))
      = some F64.nan ∧
    Predict insertionSorter (basicOn (fitted noBaseLine NewKNNWithMean tsN [useUnit])) 0 1
      = some (F64.fin (-3 / 4)) := by
  decide!

/-- C14, amended: for a fitted model (centered, baseline or basic) and a known query that
passes the minimum-neighbours check with `k ≥ 0`, where the centering terms of the
candidates are numbers: the basic variant on the same similarity matrix and options, with
every present rating `rating(o, c)` replaced by `rating(o, c) - centre(o)`, has the same
candidates, selects the same neighbours and divides by the same sum of weights.  It
returns `N' / W`, where `N'` accumulates `sim * (rating - centre(o))` over the selected
neighbours, and `Predict` returns `N / W + centre(query)`, where `N` accumulates, per
neighbour, `+ sim * rating` and then `- sim * centre(o)`.  Nothing is asserted about the
equality of `N` and `N'`, nor about `Predict` minus the centering term of the query. -/
theorem predict_centered_as_basic (S : Sorter) (bl : TrainSet → List OptionSetter → BaseLine)
    (knn0 knn : KNN) (ts : TrainSet) (opts : List OptionSetter) (userId itemId : Int)
    (leftId rightId : Int)
    (hfit : Fit bl knn0 ts opts = some knn)
    (hwf : WellFormed ts (applySetters opts))
    (hbias : knn0.tpe = baseline → BiasCovers bl ts opts)
    (hu : ts.ConvertUserId userId ≠ ts.noBody) (hit : ts.ConvertItemId itemId ≠ ts.noBody)
    (hq : queryIds knn userId itemId = (leftId, rightId))
    (hk : 0 ≤ (applySetters opts).k)
    (hmin : (applySetters opts).minK < ((qualifying knn leftId rightId).length : Int))
    (hcand : ∀ o ∈ qualifying knn leftId rightId, (centerOf knn o).isFinite = true) :
    qualifying (basicOn knn) leftId rightId = qualifying knn leftId rightId ∧
    selected S (basicOn knn) leftId rightId = selected S knn leftId rightId ∧
    (∀ o ∈ selected S knn leftId rightId,
      ratingOf (basicOn knn) o rightId =
        F64.sub (ratingOf knn o rightId) (centerOf knn o)) ∧
    weightSum (basicOn knn) leftId (selected S (basicOn knn) leftId rightId) =
      weightSum knn leftId (selected S knn leftId rightId) ∧
    Predict S (basicOn knn) userId itemId =
      some (F64.div
        ((selected S knn leftId rightId).foldl
          (fun acc o => F64.add acc (F64.mul (simOf knn leftId o)
            (F64.sub (ratingOf knn o rightId) (centerOf knn o))))
          (F64.fin 0))
        (weightSum knn leftId (selected S knn leftId rightId))) ∧
    Predict S knn userId itemId =
      some (F64.add
        (F64.div (weightRating knn leftId rightId (selected S knn leftId rightId))
          (weightSum knn leftId (selected S knn leftId rightId)))
        (centerOf knn leftId.toNat)) := by
  obtain ⟨ho, _, _, _, _, _⟩ := Fit_fields hfit
  obtain ⟨hl, hr⟩ := Fit_known hfit hu hit
  have hin := Fit_inRange hfit hwf userId itemId hl hr
  have hc := Fit_centered hfit hwf.rows hbias
  have hL : (queryIds knn userId itemId).1 = leftId := by rw [hq]
  have hR : (queryIds knn userId itemId).2 = rightId := by rw [hq]
  obtain ⟨hB, hK⟩ := Predict_basicOn S userId itemId hin hc hl hr
    (by rw [hL, hR, ho]; exact hmin) (by rw [ho]; exact hk) (by rw [hL, hR]; exact hcand)
  rw [hL, hR] at hB hK
  refine ⟨basicOn_qualifying knn leftId rightId hcand,
    basicOn_selected S knn leftId rightId hcand, ?_, ?_, hB, hK⟩
  · intro o hmem
    rw [basicOn_ratingOf,
      (mem_qualifying.mp (selected_subset S knn leftId rightId hmem)).2.1]
    rfl
  · rw [basicOn_selected S knn leftId rightId hcand]
    rfl

/-- Witness of `predict_centered_as_basic`: the centered model fitted on `tsA`, for
user 0 and item 1: the basic variant on the centered ratings selects the same neighbours
2 and 1 and returns `(1 * (2 - 7/2) + 0 * (4 - 4)) / (1 + 0) = -3/2`. -/
theorem predict_centered_as_basic_witness :
    Predict insertionSorter
      (basicOn (fitted noBaseLine NewKNNWithMean tsA [useAgreement])) 0 1 =
        some (F64.fin (-3 / 2)) :=
  (predict_centered_as_basic insertionSorter noBaseLine NewKNNWithMean _ tsA [useAgreement]
    0 1 0 1 (Fit_fitted (by decide!))
    (trainSetOf_wellFormed _ _ _ _ (by decide) (by decide))
    (fun h => absurd h (by decide)) (by decide) (by decide) (by decide!) (by decide)
    (by decide!) (by decide!)).2.2.2.2.1.trans (by decide!)

/-- C15: `Fit` called with no option setter configures the mean-squared-difference
similarity, the user-based orientation, `k = 40` and `minK = 1`; the setters are applied in
order on top of these defaults, so an option that no setter changes keeps its default. -/
theorem fit_default_options (bl : TrainSet → List OptionSetter → BaseLine)
    (knn0 knn : KNN) (ts : TrainSet) (opts : List OptionSetter)
    (hfit : Fit bl knn0 ts opts = some knn) :
    knn.option = opts.foldl (fun o setter => setter o)
      { sim := MSD, userBased := true, k := 40, minK := 1 } ∧
    (opts = [] → knn.option = { sim := MSD, userBased := true, k := 40, minK := 1 }) ∧
    (∀ (front : List OptionSetter) (last : OptionSetter),
      applySetters (front ++ [last]) = last (applySetters front)) ∧
    ((∀ s ∈ opts, ∀ o, (s o).sim = o.sim) → knn.option.sim = MSD) ∧
    ((∀ s ∈ opts, ∀ o, (s o).userBased = o.userBased) → knn.option.userBased = true) ∧
    ((∀ s ∈ opts, ∀ o, (s o).k = o.k) → knn.option.k = 40) ∧
    ((∀ s ∈ opts, ∀ o, (s o).minK = o.minK) → knn.option.minK = 1) := by
  obtain ⟨ho, _⟩ := Fit_fields hfit
  have keep : ∀ {β : Type} (f : KnnOption → β) (l : List OptionSetter) (o : KnnOption),
      (∀ s ∈ l, ∀ o, f (s o) = f o) → f (l.foldl (fun o setter => setter o) o) = f o := by
    intro β f l
    induction l with
    | nil => intro o _; rfl
    | cons s ss ih =>
      intro o h
      simp only [List.foldl_cons]
      rw [ih (s o) (fun t ht => h t (List.mem_cons_of_mem _ ht))]
      exact h s (List.mem_cons_self _ _) o
  rw [ho]
  refine ⟨rfl, ?_, ?_, ?_, ?_, ?_, ?_⟩
  · intro h; rw [h]; rfl
  · intro front last
    simp [applySetters, List.foldl_append]
  · exact fun h => keep (fun o => o.sim) opts defaultOption h
  · exact fun h => keep (fun o => o.userBased) opts defaultOption h
  · exact fun h => keep (fun o => o.k) opts defaultOption h
  · exact fun h => keep (fun o => o.minK) opts defaultOption h

/-- Witness of `fit_default_options`: with the one setter `useAgreement`, which changes
the similarity only, `k` is still 40. -/
theorem fit_default_options_witness :
    (fitted noBaseLine NewKNN tsA [useAgreement]).option.k = 40 :=
  (fit_default_options noBaseLine NewKNN _ tsA [useAgreement]
    (Fit_fitted (by decide!))).2.2.2.2.2.1
    (fun s hs o => by
      rw [List.mem_singleton] at hs
      subst hs
      rfl)

/-- C16, not as stated: the two halves of the claim exclude each other on the fixture of
`TestPearson`.  The co-rated pairs of `a = [3, 4, 5, missing]` and `b = [missing, 1, 2, 3]`
are `(4, 1)` and `(5, 2)`, and the Pearson correlation of the co-rated values is exactly
`1`, which is more than `0.01` away from `0`; the condition the test checks fails on it. -/
theorem pearson_corated_is_one :
    coRated fixtureA fixtureB = [(F64.fin 4, F64.fin 1), (F64.fin 5, F64.fin 2)] ∧
    exactSqrt (F64.fin (1 / 4)) = F64.fin (1 / 2) ∧
    pearsonCorrelation exactSqrt fixtureA fixtureB = F64.fin 1 ∧
    F64.gt (F64.abs (pearsonCorrelation exactSqrt fixtureA fixtureB)) (F64.fin (1 / 100))
      = true := by
  decide!

/-- C16, amended: a function that passes `TestPearson`, that is, whose value `sim` on the
fixture does not satisfy `math.Abs(sim) > 0.01`, differs on the fixture from the Pearson
correlation of the co-rated values, which is exactly `1` there for every square root that
is exact at `1/4`: `Pearson` is within `0.01` of `0` on the fixture and is therefore not the
Pearson correlation of the co-rated values. -/
theorem pearson_not_corated_correlation (P : List F64 → List F64 → F64) (sqrt : F64 → F64)
    (htest : F64.gt (F64.abs (P fixtureA fixtureB)) (F64.fin (1 / 100)) = false)
    (hsqrt : sqrt (F64.fin (1 / 4)) = F64.fin (1 / 2)) :
    pearsonCorrelation sqrt fixtureA fixtureB = F64.fin 1 ∧
    P fixtureA fixtureB ≠ pearsonCorrelation sqrt fixtureA fixtureB := by
  have h1 := pearsonCorrelation_fixture sqrt hsqrt
  refine ⟨h1, ?_⟩
  intro h
  rw [h, h1] at htest
  revert htest
  decide!

/-- Witness of `pearson_not_corated_correlation`: the reading of `Pearson` that takes the
deviations of each vector from the mean of all its own ratings, 4 and 2, returns
`(0 * -1 + 1 * 0) / 1 = 0` on the fixture and passes the test; it differs there from the
correlation of the co-rated values. -/
theorem pearson_not_corated_correlation_witness :
    Pearson exactSqrt fixtureA fixtureB = F64.fin 0 ∧
    Pearson exactSqrt fixtureA fixtureB ≠ pearsonCorrelation exactSqrt fixtureA fixtureB :=
  ⟨by decide!, (pearson_not_corated_correlation (Pearson exactSqrt) exactSqrt
    (by decide!) (by decide!)).2⟩

/-- C17: for the basic and the centered variant and every similarity function, `Fit`
with the item-based orientation on a training set returns exactly when `Fit` with the
user-based orientation on the transposed training set does, and the item-based model
predicts for `(userId, itemId)` what the user-based model on the transposed training set
predicts for `(itemId, userId)`; a panic of one is a panic of the other. -/
theorem orientation_transpose (S : Sorter) (bl bl' : TrainSet → List OptionSetter → BaseLine)
    (knn0 : KNN) (ts : TrainSet) (opts : List OptionSetter) (userId itemId : Int)
    (hvariant : knn0.tpe ≠ baseline) :
    (Fit bl knn0 ts (opts ++ [setUserBased false])).isSome =
      (Fit bl' knn0 (transposeSet ts) (opts ++ [setUserBased true])).isSome ∧
    (Fit bl knn0 ts (opts ++ [setUserBased false])).bind
        (fun knn => Predict S knn userId itemId) =
      (Fit bl' knn0 (transposeSet ts) (opts ++ [setUserBased true])).bind
        (fun knn => Predict S knn itemId userId) := by
  unfold Fit
  simp only [fitState_transpose ts opts]
  cases fitState (transposeSet ts) (opts ++ [setUserBased true]) with
  | none => exact ⟨rfl, rfl⟩
  | some st =>
    refine ⟨rfl, ?_⟩
    simp only [Option.some_bind]
    apply Predict_congr
    · simp [queryIds, applySetters_append, setUserBased, transposeSet]
    · rfl
    · rfl
    · simp [applySetters_append, setUserBased, fitRatings, transposeSet]
    · rfl
    · simp [applySetters_append, setUserBased]
    · simp [applySetters_append, setUserBased]
    · rfl
    · simp [applySetters_append, setUserBased, fitRatings, transposeSet]
    · simp only [if_neg hvariant]

/-- Witness of `orientation_transpose`: the item-based basic model on `tsC` with the
default similarity predicts 4 for user 0 and item 2, from the items 0 and 1 that user 0
rated 5 and 3. -/
theorem orientation_transpose_witness :
    (Fit noBaseLine NewKNN tsC ([] ++ [setUserBased false])).bind
        (fun knn => Predict insertionSorter knn 0 2) = some (F64.fin 4) :=
  (orientation_transpose insertionSorter noBaseLine noBaseLine NewKNN tsC [] 0 2
    (by decide)).2.trans (by decide!)

/-- C18: if every defined similarity between two entities of the training set is
strictly positive, `k ≥ 1` and `minK ≥ 0`, then for every known query on the fitted model
that passes the minimum-neighbours check, the aggregation loop of `Predict` ends with the
accumulator `weightSum` holding the sum of the similarities of the selected neighbours,
this sum is strictly positive, and `Predict` returns `weightRating / weightSum` plus the
centering term of the query entity: the divisor of its division is not zero. -/
theorem weight_sum_positive (S : Sorter) (bl : TrainSet → List OptionSetter → BaseLine)
    (knn0 knn : KNN) (ts : TrainSet) (opts : List OptionSetter) (userId itemId : Int)
    (leftId rightId : Int)
    (hfit : Fit bl knn0 ts opts = some knn)
    (hwf : WellFormed ts (applySetters opts))
    (hbias : knn0.tpe = baseline → BiasCovers bl ts opts)
    (hu : ts.ConvertUserId userId ≠ ts.noBody) (hi : ts.ConvertItemId itemId ≠ ts.noBody)
    (hq : queryIds knn userId itemId = (leftId, rightId))
    (hpos : ∀ i, i < entityCount (applySetters opts) ts →
      ∀ j, j < entityCount (applySetters opts) ts →
      ((applySetters opts).sim ((fitRatings (applySetters opts) ts).getD i [])
          ((fitRatings (applySetters opts) ts).getD j [])).isNaN = true ∨
        F64.gt ((applySetters opts).sim ((fitRatings (applySetters opts) ts).getD i [])
          ((fitRatings (applySetters opts) ts).getD j [])) (F64.fin 0) = true)
    (hk : 1 ≤ (applySetters opts).k) (hminK : 0 ≤ (applySetters opts).minK)
    (hmin : (applySetters opts).minK < ((qualifying knn leftId rightId).length : Int)) :
    (aggregate knn leftId rightId (selected S knn leftId rightId)).map (fun acc => acc.1) =
      some (weightSum knn leftId (selected S knn leftId rightId)) ∧
    Predict S knn userId itemId =
      (aggregate knn leftId rightId (selected S knn leftId rightId)).bind
        (fun acc => some (F64.add (F64.div acc.2 acc.1) (centerOf knn leftId.toNat))) ∧
    (Predict S knn userId itemId).isSome = true ∧
    (∀ o ∈ selected S knn leftId rightId,
      F64.gt (simOf knn leftId o) (F64.fin 0) = true) ∧
    F64.gt (weightSum knn leftId (selected S knn leftId rightId)) (F64.fin 0) = true ∧
    weightSum knn leftId (selected S knn leftId rightId) ≠ F64.fin 0 := by
  obtain ⟨ho, _, _, _, _, _⟩ := Fit_fields hfit
  obtain ⟨hl, hr⟩ := Fit_known hfit hu hi
  have hin := Fit_inRange hfit hwf userId itemId hl hr
  have hc := Fit_centered hfit hwf.rows hbias
  have hval := Predict_weightRating S userId itemId hin hc hl hr
    (by rw [hq, ho]; exact hmin) (by rw [ho]; omega)
  rw [hq] at hin hval
  have hagg := aggregate_weightRating hin hc _ (@selected_lt S knn _ _ leftId rightId hin)
  have hne : selected S knn leftId rightId ≠ [] :=
    selected_ne_nil S knn leftId rightId (by rw [ho]; exact hk) (by omega)
  have hsel : ∀ o ∈ selected S knn leftId rightId,
      F64.gt (simOf knn leftId o) (F64.fin 0) = true := by
    intro o hmem
    have hqual := mem_qualifying.mp (selected_subset S knn leftId rightId hmem)
    exact Fit_sims_property hfit hwf.rows (fun v => F64.gt v (F64.fin 0) = true) hpos
      leftId.toNat o hin.leftN (selected_lt hin o hmem) hqual.2.2
  have hgt : F64.gt (weightSum knn leftId (selected S knn leftId rightId)) (F64.fin 0)
      = true :=
    F64.pos_sum _ (by simpa using hne) (fun x hx => by
      obtain ⟨o, hmem, rfl⟩ := List.mem_map.mp hx
      exact hsel o hmem)
  refine ⟨?_, ?_, ?_, hsel, hgt, F64.ne_zero_of_pos hgt⟩
  · rw [hagg]; rfl
  · rw [hagg, hval]; rfl
  · rw [hval]; rfl

/-- Witness of `weight_sum_positive`: on `tsD` with the default options the neighbours
of user 0 for item 2 have the similarities `1` and `1/2`, and the aggregation loop ends
with `weightSum = 3/2`. -/
theorem weight_sum_positive_witness :
    (aggregate (fitted noBaseLine NewKNN tsD []) 0 2
        (selected insertionSorter (fitted noBaseLine NewKNN tsD []) 0 2)).map
      (fun acc => acc.1) = some (F64.fin (3 / 2)) :=
  (weight_sum_positive insertionSorter noBaseLine NewKNN _ tsD [] 0 2 0 2
    (Fit_fitted (by decide!))
    (trainSetOf_wellFormed _ _ _ _ (by decide) (by decide))
    (fun h => absurd h (by decide))
    (by decide) (by decide) (by decide!) (by decide!) (by decide) (by decide)
    (by decide!)).1.trans (by decide!)

/-- C19, not as stated: on `tsC` with the similarity `inverseMSD` every defined similarity
is strictly positive, `k = 40` and `minK = 1`; users 0 and 1 agree on the items they both
rated, so their similarity is `+Inf`.  For user 0 and item 2 the basic variant selects the
users 1 and 2, who rated the item 4 and 2, and returns `Inf / Inf = NaN`, which does not
lie between 2 and 4. -/
theorem predict_not_convex :
    (Fit noBaseLine NewKNN tsC [useInverseMSD]).isSome = true ∧
    (fitted noBaseLine NewKNN tsC [useInverseMSD]).sims =
      [[F64.nan, F64.pinf, F64.fin (1 / 2)], [F64.pinf, F64.nan, F64.fin (3 / 8)],
       [F64.fin (1 / 2), F64.fin (3 / 8), F64.nan]] ∧
    (fitted noBaseLine NewKNN tsC [useInverseMSD]).option.k = 40 ∧
    (fitted noBaseLine NewKNN tsC [useInverseMSD]).option.minK = 1 ∧
    selected insertionSorter (fitted noBaseLine NewKNN tsC [useInverseMSD]) 0 2 = [1, 2] ∧
    ratingOf (fitted noBaseLine NewKNN tsC [useInverseMSD]) 1 2 = F64.fin 4 ∧
    ratingOf (fitted noBaseLine NewKNN tsC [useInverseMSD]) 2 2 = F64.fin 2 ∧
    Predict insertionSorter (fitted noBaseLine NewKNN tsC [useInverseMSD]) 0 2
      = some F64.nan ∧
    F64.ge F64.nan (F64.fin 2) = false ∧ F64.ge (F64.fin 4) F64.nan = false := by
  decide!

/-- C19, amended: if every defined similarity between two entities of the training set
is strictly positive, `k ≥ 1` and `minK ≥ 0`, then for the basic variant the prediction of
a known query that passes the minimum-neighbours check is the quotient
`(Σ sim(left, o) * rating(o, right)) / (Σ sim(left, o))` of the two sums the code
accumulates over the selected neighbours, of which there is at least one, each with a
rating of the target column and a strictly positive weight, and the sum of the weights is
strictly positive: a weighted mean with positive weights.  No bound on the quotient is
asserted. -/
theorem predict_weighted_mean (S : Sorter) (bl : TrainSet → List OptionSetter → BaseLine)
    (knn0 knn : KNN) (ts : TrainSet) (opts : List OptionSetter) (userId itemId : Int)
    (leftId rightId : Int)
    (hfit : Fit bl knn0 ts opts = some knn)
    (hwf : WellFormed ts (applySetters opts))
    (hbasic : knn0.tpe ≠ centered ∧ knn0.tpe ≠ baseline)
    (hu : ts.ConvertUserId userId ≠ ts.noBody) (hit : ts.ConvertItemId itemId ≠ ts.noBody)
    (hq : queryIds knn userId itemId = (leftId, rightId))
    (hpos : ∀ i, i < entityCount (applySetters opts) ts →
      ∀ j, j < entityCount (applySetters opts) ts →
      ((applySetters opts).sim ((fitRatings (applySetters opts) ts).getD i [])
          ((fitRatings (applySetters opts) ts).getD j [])).isNaN = true ∨
        F64.gt ((applySetters opts).sim ((fitRatings (applySetters opts) ts).getD i [])
          ((fitRatings (applySetters opts) ts).getD j [])) (F64.fin 0) = true)
    (hk : 1 ≤ (applySetters opts).k) (hminK : 0 ≤ (applySetters opts).minK)
    (hmin : (applySetters opts).minK < ((qualifying knn leftId rightId).length : Int)) :
    Predict S knn userId itemId =
      some (F64.div
        ((selected S knn leftId rightId).foldl
          (fun acc o => F64.add acc (F64.mul (simOf knn leftId o) (ratingOf knn o rightId)))
          (F64.fin 0))
        ((selected S knn leftId rightId).foldl
          (fun acc o => F64.add acc (simOf knn leftId o)) (F64.fin 0))) ∧
    selected S knn leftId rightId ≠ [] ∧
    (∀ o ∈ selected S knn leftId rightId,
      (ratingOf knn o rightId).isNaN = false ∧
      F64.gt (simOf knn leftId o) (F64.fin 0) = true) ∧
    F64.gt ((selected S knn leftId rightId).foldl
      (fun acc o => F64.add acc (simOf knn leftId o)) (F64.fin 0)) (F64.fin 0) = true := by
  obtain ⟨ho, htpe, _, _, _, _⟩ := Fit_fields hfit
  obtain ⟨hl, hr⟩ := Fit_known hfit hu hit
  have hin := Fit_inRange hfit hwf userId itemId hl hr
  have hc := Fit_centered hfit hwf.rows (fun h => absurd h hbasic.2)
  have hval := Predict_weightRating S userId itemId hin hc hl hr
    (by rw [hq, ho]; exact hmin) (by rw [ho]; omega)
  rw [hq] at hval hin
  have hcenter : centerOf knn leftId.toNat = F64.fin 0 := by
    unfold centerOf
    rw [htpe, if_neg hbasic.1, if_neg hbasic.2]
  have hnum : weightRating knn leftId rightId (selected S knn leftId rightId) =
      (selected S knn leftId rightId).foldl
        (fun acc o => F64.add acc (F64.mul (simOf knn leftId o) (ratingOf knn o rightId)))
        (F64.fin 0) := by
    unfold weightRating
    apply foldl_congr_mem
    intro o _ acc
    unfold stepRating
    rw [htpe, if_neg hbasic.1, if_neg hbasic.2]
  have hden : weightSum knn leftId (selected S knn leftId rightId) =
      (selected S knn leftId rightId).foldl
        (fun acc o => F64.add acc (simOf knn leftId o)) (F64.fin 0) := by
    unfold weightSum F64.sum
    exact (foldl_add_map knn leftId _ _).symm
  have hne : selected S knn leftId rightId ≠ [] :=
    selected_ne_nil S knn leftId rightId (by rw [ho]; exact hk) (by omega)
  have hsel : ∀ o ∈ selected S knn leftId rightId,
      (ratingOf knn o rightId).isNaN = false ∧
      F64.gt (simOf knn leftId o) (F64.fin 0) = true := by
    intro o hmem
    have hqual := mem_qualifying.mp (selected_subset S knn leftId rightId hmem)
    exact ⟨hqual.2.1, Fit_sims_property hfit hwf.rows
      (fun v => F64.gt v (F64.fin 0) = true) hpos
      leftId.toNat o hin.leftN (selected_lt hin o hmem) hqual.2.2⟩
  have hgt : F64.gt (weightSum knn leftId (selected S knn leftId rightId)) (F64.fin 0)
      = true :=
    F64.pos_sum _ (by simpa using hne) (fun x hx => by
      obtain ⟨o, hmem, rfl⟩ := List.mem_map.mp hx
      exact (hsel o hmem).2)
  rw [hcenter, F64.addZero, hnum, hden] at hval
  rw [hden] at hgt
  exact ⟨hval, hne, hsel, hgt⟩

/-- Witness of `predict_weighted_mean`: on `tsD` with the default options, the
neighbours of user 0 for item 2 have the weights 1 and 1/2 and rate the item 4 and 1; the
prediction is `(1 * 4 + 1/2 * 1) / (1 + 1/2) = 3`. -/
theorem predict_weighted_mean_witness :
    Predict insertionSorter (fitted noBaseLine NewKNN tsD []) 0 2 = some (F64.fin 3) :=
  (predict_weighted_mean insertionSorter noBaseLine NewKNN _ tsD [] 0 2 0 2
    (Fit_fitted (by decide!))
    (trainSetOf_wellFormed _ _ _ _ (by decide) (by decide))
    (by decide) (by decide) (by decide) (by decide!) (by decide!) (by decide) (by decide)
    (by decide!)).1.trans (by decide!)

/-- C20: on a model produced by `Fit` from a well-formed training set (and, for the
baseline variant, a bias vector with an entry per entity), with `k ≥ 0` no index or slice
operation of `Predict` is out of range, for any `(userId, itemId)`: `Predict` returns a
value; with `k < 0` the slice of the selected neighbours is out of range, and `Predict`
fails, for every known query that passes the minimum-neighbours check. -/
theorem predict_in_bounds (S : Sorter) (bl : TrainSet → List OptionSetter → BaseLine)
    (knn0 knn : KNN) (ts : TrainSet) (opts : List OptionSetter)
    (hfit : Fit bl knn0 ts opts = some knn)
    (hwf : WellFormed ts (applySetters opts))
    (hbias : knn0.tpe = baseline → BiasCovers bl ts opts) :
    (0 ≤ (applySetters opts).k →
      ∀ userId itemId, (Predict S knn userId itemId).isSome = true) ∧
    ((applySetters opts).k < 0 →
      ∀ userId itemId, ts.ConvertUserId userId ≠ ts.noBody →
        ts.ConvertItemId itemId ≠ ts.noBody →
        (applySetters opts).minK <
          ((qualifying knn (queryIds knn userId itemId).1
            (queryIds knn userId itemId).2).length : Int) →
        Predict S knn userId itemId = none) := by
  obtain ⟨ho, _, _, _, _, _⟩ := Fit_fields hfit
  have hc := Fit_centered hfit hwf.rows hbias
  constructor
  · intro hk userId itemId
    by_cases hun : (queryIds knn userId itemId).1 = knn.trainSet.noBody ∨
        (queryIds knn userId itemId).2 = knn.trainSet.noBody
    · rw [Predict_unknown S knn userId itemId hun]; rfl
    · have hl : (queryIds knn userId itemId).1 ≠ knn.trainSet.noBody :=
        fun h => hun (Or.inl h)
      have hr : (queryIds knn userId itemId).2 ≠ knn.trainSet.noBody :=
        fun h => hun (Or.inr h)
      have hin := Fit_inRange hfit hwf userId itemId hl hr
      by_cases hmin : ((qualifying knn (queryIds knn userId itemId).1
          (queryIds knn userId itemId).2).length : Int) ≤ knn.option.minK
      · rw [Predict_structure S userId itemId hin hl hr, if_pos hmin]; rfl
      · rw [Predict_value S userId itemId hin hc hl hr (by omega) (by rw [ho]; exact hk)]
        rfl
  · intro hk userId itemId hu hi hmin
    obtain ⟨hl, hr⟩ := Fit_known hfit hu hi
    have hin := Fit_inRange hfit hwf userId itemId hl hr
    rw [Predict_structure S userId itemId hin hl hr, ho, if_neg (by omega), if_pos hk]

/-- Witness of `predict_in_bounds`: with the default `k = 40`, `Predict` returns for
user 0 and item 1 of `tsA`; with `k = -1` it fails there. -/
theorem predict_in_bounds_witness :
    (Predict insertionSorter (fitted noBaseLine NewKNN tsA [useAgreement]) 0 1).isSome
      = true ∧
    Predict insertionSorter (fitted noBaseLine NewKNN tsA [useAgreement, setK (-1)]) 0 1
      = none :=
  ⟨(predict_in_bounds insertionSorter noBaseLine NewKNN _ tsA [useAgreement]
      (Fit_fitted (by decide!))
      (trainSetOf_wellFormed _ _ _ _ (by decide) (by decide))
      (fun h => absurd h (by decide))).1 (by decide) 0 1,
    (predict_in_bounds insertionSorter noBaseLine NewKNN _ tsA [useAgreement, setK (-1)]
      (Fit_fitted (by decide!))
      (trainSetOf_wellFormed _ _ _ _ (by decide) (by decide))
      (fun h => absurd h (by decide))).2 (by decide) 0 1 (by decide) (by decide)
      (by decide!)⟩

end Core
